import Mathlib

set_option maxRecDepth 4000

/-!
Shallow embedding of the DualOpenFortivpn core (src/core/privilege.py,
src/core/vpn_session.py, src/core/routing.py) together with theorems that
settle the specification claims about it.

Modelling conventions:
* Python machine state (instance attributes) becomes explicit state records
  that operations thread through.
* Python exceptions become `Except String` results; callers that catch an
  exception pattern-match on the `.error` constructor.
* External effects (subprocess results, OS signal outcomes, the
  credential-request callback) are supplied by explicit environment values,
  so every function here is a pure, executable definition.
* Logging calls are omitted: they do not affect control flow or state except
  through the command traces, which are recorded explicitly.
-/

/-! ## Embedding of src/core/privilege.py (PrivilegeManager) -/

/-- Result of one invocation of the injected password provider callback
(`self._password_provider()` in privilege.py): either the user cancelled
(Python `None`) or a `(password, allow_cache)` pair. -/
inductive ProviderResponse
  | cancelled
  | given (password : String) (allowCache : Bool)
deriving DecidableEq, Repr

/-- The mutable attributes of `PrivilegeManager` (privilege.py lines 18-24),
plus `providerCalls`, an instrumentation counter recording how many times the
password provider callback has been invoked so far. -/
structure PrivState where
  cachedPassword : Option String
  cacheAllowed : Bool
  pkexecPath : Option String
  sudoPath : Option String
  providerCalls : Nat
deriving DecidableEq, Repr

/-- Python truthiness of `self._cached_password`: `None` and the empty string
are falsy, any other string is truthy. -/
def passwordTruthy : Option String → Bool
  | none => false
  | some s => s ≠ ""

/-- `PrivilegeManager.ensure_password_cached` (privilege.py lines 34-49).
The provider callback is modelled as a function from the invocation index to
the response; a `cancelled` response is the Python `None` return, which makes
the method raise.  The model assumes a provider is always injected (the
constructor requires one), so the `not self._password_provider` branch is
omitted.  On the raising paths the state update is irrelevant because the
exception propagates to the caller. -/
def ensure_password_cached (provider : Nat → ProviderResponse) (force_allow : Bool)
    (st : PrivState) : Except String PrivState :=
  if st.pkexecPath.isSome || !st.sudoPath.isSome then
    .ok st
  else if passwordTruthy st.cachedPassword then
    .ok (if force_allow then { st with cacheAllowed := true } else st)
  else
    match provider st.providerCalls with
    | .cancelled => .error "Sudo password entry was cancelled by the user."
    | .given password allow_cache =>
        .ok { st with
                cachedPassword := some password,
                cacheAllowed := allow_cache || force_allow,
                providerCalls := st.providerCalls + 1 }

/-- `PrivilegeManager.build_command` (privilege.py lines 51-67).  Returns the
argv list and the optional sudo password together with the state after the
call (the state can change because the sudo path may call
`ensure_password_cached`). -/
def build_command (provider : Nat → ProviderResponse) (base_command : List String)
    (st : PrivState) : Except String ((List String × Option String) × PrivState) :=
  match st.pkexecPath with
  | some pkexec_path => .ok ((pkexec_path :: base_command, none), st)
  | none =>
    match st.sudoPath with
    | none => .error "Neither pkexec nor sudo is available on this system."
    | some sudo_path =>
      if passwordTruthy st.cachedPassword && st.cacheAllowed then
        .ok ((sudo_path :: "-S" :: base_command, st.cachedPassword), st)
      else
        match ensure_password_cached provider false st with
        | .error e => .error e
        | .ok st' =>
          if passwordTruthy st'.cachedPassword then
            .ok ((sudo_path :: "-S" :: base_command, st'.cachedPassword), st')
          else
            .error "Sudo password unavailable."

/-! ## Embedding of src/core/vpn_session.py: reconnect backoff (run) -/

/-- The backoff update performed in `VPNSession.run` (vpn_session.py lines
354-357): reset to 5 after a successful attempt (one that reached Connected),
otherwise double capped at 60. -/
def nextBackoff (backoff : Nat) (success : Bool) : Nat :=
  if success then 5 else min (backoff * 2) 60

/-- The sequence of waits performed by the `run` loop (vpn_session.py lines
347-362) given the current backoff value and the outcomes of the successive
`_run_once` attempts (`true` = the attempt reached Connected at least once).
Models a session with `auto_reconnect` enabled that is never stopped during
the listed attempts: after each attempt the backoff is updated and then the
session waits that many seconds. -/
def reconnectWaitsFrom (backoff : Nat) : List Bool → List Nat
  | [] => []
  | outcome :: rest =>
    nextBackoff backoff outcome :: reconnectWaitsFrom (nextBackoff backoff outcome) rest

/-- The waits of a fresh session: `backoff` starts at 5 (vpn_session.py line
348). -/
def reconnectWaits (outcomes : List Bool) : List Nat :=
  reconnectWaitsFrom 5 outcomes

/-! ## Embedding of src/core/vpn_session.py: run loop status events -/

/-- Outcome of one `_run_once` call as far as the `run` loop can observe it
(vpn_session.py lines 370-447): the privilege manager raised, the
openfortivpn binary was missing, or the subprocess ran and exited with
`connectedOnce` recording whether a tunnel-established marker was seen. -/
inductive AttemptOutcome
  | privError
  | binaryMissing
  | finished (connectedOnce : Bool)
deriving DecidableEq, Repr

/-- The `status_changed` events emitted by `_run_once` for each outcome,
paired with its boolean return value (vpn_session.py lines 370-447; the
status on the happy path is "Connected" once at the first marker line, then
"Disconnected" after the subprocess exits). -/
def runOnceStatuses : AttemptOutcome → Bool × List String
  | .privError => (false, ["Privilege error"])
  | .binaryMissing => (false, ["Binary missing"])
  | .finished connectedOnce =>
      (connectedOnce, (if connectedOnce then ["Connected"] else []) ++ ["Disconnected"])

/-- The `status_changed` events emitted by the `run` loop (vpn_session.py
lines 347-363) over the given attempts, for a session that is never
user-stopped (so `_stop_event` stays clear and `_allow_reconnect` stays true
throughout).  The trace is observed up to the last listed attempt; when
`autoReconnect` is false the loop breaks after the first attempt and emits
"Stopped". -/
def runStatusesFrom (backoff : Nat) (autoReconnect : Bool) : List AttemptOutcome → List String
  | [] => []
  | attempt :: rest =>
    let r := runOnceStatuses attempt
    "Starting" :: r.2 ++
      (if autoReconnect then
        (match rest with
         | [] => []
         | _ =>
           let b := nextBackoff backoff r.1
           s!"Reconnecting in {b}s" :: runStatusesFrom b autoReconnect rest)
      else ["Stopped"])

/-- Status trace of a fresh session (initial backoff 5). -/
def runStatuses (autoReconnect : Bool) (attempts : List AttemptOutcome) : List String :=
  runStatusesFrom 5 autoReconnect attempts

/-! ## Embedding of src/core/vpn_session.py: signal delivery -/

/-- Outcome of the raw `os.killpg` / `os.kill` call. -/
inductive KillOutcome
  | ok
  | permissionError
  | processLookupError
  | otherError
deriving DecidableEq, Repr

/-- Outcome of `privilege.run_privileged(["/bin/kill", ...])` as observed by
the caller: a `RuntimeError` (no elevation tool / cancelled prompt), or a
completed run with an exit code and captured output. -/
inductive EscalationOutcome
  | raisesRuntimeError (msg : String)
  | finished (code : Int) (stdout stderr : String)
deriving DecidableEq, Repr

/-- Environment for one signal-delivery call. -/
structure SignalEnv where
  killResult : KillOutcome
  escalation : EscalationOutcome
deriving DecidableEq, Repr

/-- `VPNSession._send_signal_group` (vpn_session.py lines 80-128).  Returns
the boolean result together with the number of times the elevated kill path
(`privilege.run_privileged`) was invoked.  Every failure mode of the
underlying calls is caught in the source (`PermissionError`,
`ProcessLookupError`, `RuntimeError`, and a final catch-all), so the
embedding is a total function returning a Bool. -/
def send_signal_group (pgid : Option Int) (env : SignalEnv) : Bool × Nat :=
  match pgid with
  | none => (false, 0)
  | some _ =>
    match env.killResult with
    | .ok => (true, 0)
    | .permissionError =>
      match env.escalation with
      | .raisesRuntimeError _ => (false, 1)
      | .finished code _ _ => (if code = 0 then true else false, 1)
    | .processLookupError => (true, 0)
    | .otherError => (false, 0)

/-- `VPNSession._send_signal_pid` (vpn_session.py lines 130-174); identical
escalation structure, targeting a pid instead of a process group. -/
def send_signal_pid (env : SignalEnv) : Bool × Nat :=
  match env.killResult with
  | .ok => (true, 0)
  | .permissionError =>
    match env.escalation with
    | .raisesRuntimeError _ => (false, 1)
    | .finished code _ _ => (if code = 0 then true else false, 1)
  | .processLookupError => (true, 0)
  | .otherError => (false, 0)

/-- Whether the elevated kill run counts as successful delivery
(vpn_session.py lines 106-117: success iff `run_privileged` did not raise and
returned exit code 0). -/
def escalationDelivered : EscalationOutcome → Bool
  | .raisesRuntimeError _ => false
  | .finished code _ _ => code = 0

/-! ## Embedding of src/core/vpn_session.py: interface-name detection -/

/-- Python `str.split()` / `in` helpers, modelled over `List Char` (the ASCII
whitespace class suffices for the subprocess output lines handled here). -/
def pyWhitespace (c : Char) : Bool :=
  c = ' ' || c = '\t' || c = '\n' || c = '\r' || c = '\x0b' || c = '\x0c'

/-- Worker for Python's no-argument `str.split`: split on runs of whitespace,
producing no empty fields. -/
def splitWsAux : List Char → List Char → List (List Char)
  | [], acc => if acc.isEmpty then [] else [acc.reverse]
  | c :: cs, acc =>
    if pyWhitespace c then
      if acc.isEmpty then splitWsAux cs [] else acc.reverse :: splitWsAux cs []
    else splitWsAux cs (c :: acc)

/-- Python `line.split()`. -/
def pySplit (s : String) : List String :=
  (splitWsAux s.toList []).map String.mk

/-- Does `sub` occur as a contiguous substring of `s`?  (Python `sub in s`.) -/
def containsSubList (s sub : List Char) : Bool :=
  sub.isPrefixOf s ||
    match s with
    | [] => false
    | _ :: tail => containsSubList tail sub

/-- Python `sub in s` on strings. -/
def pyIn (sub s : String) : Bool :=
  containsSubList s.toList sub.toList

/-- Python `s.startswith(pre)`. -/
def pyStartsWith (s pre : String) : Bool :=
  pre.toList.isPrefixOf s.toList

/-- The interface-name detection of `VPNSession._handle_output`
(vpn_session.py lines 484-489): when a line contains "Interface" and a
"ppp"/"tun" fragment, the first whitespace-separated token starting with
"ppp" or "tun" is returned.  The source stores it unconditionally into
`self._interface_name`. -/
def detectInterfaceToken (line : String) : Option String :=
  if pyIn "Interface" line && (pyIn "ppp" line || pyIn "tun" line) then
    (pySplit line).find? (fun part => pyStartsWith part "ppp" || pyStartsWith part "tun")
  else none

/-- Effect of `VPNSession._handle_output` on `self._interface_name` for one
output line, for a session that is not stopping (vpn_session.py lines
478-489; the SAML/password branches of the method never assign
`_interface_name`). -/
def handleOutputIface (cur : Option String) (line : String) : Option String :=
  match detectInterfaceToken line with
  | some part => some part
  | none => cur

/-! ## Theorems for claim C1 (reconnect backoff sequence) -/

/-- Arithmetic of one capped doubling step. -/
theorem minDoubleCap (a : Nat) : min (min a 60 * 2) 60 = min (a * 2) 60 := by
  omega

/-- Closed form for the waits of an all-failure run, generalized over the
number of doublings already performed. -/
theorem reconnectWaitsFrom_replicate_false (n k : Nat) :
    reconnectWaitsFrom (min (5 * 2 ^ k) 60) (List.replicate n false) =
      (List.range n).map (fun i => min (5 * 2 ^ (k + i + 1)) 60) := by
  induction n generalizing k with
  | zero => simp [reconnectWaitsFrom]
  | succ n ih =>
    have hmul : 5 * 2 ^ (k + 1) = 5 * 2 ^ k * 2 := by ring
    have hstep : nextBackoff (min (5 * 2 ^ k) 60) false = min (5 * 2 ^ (k + 1)) 60 := by
      simp only [nextBackoff, Bool.false_eq_true, if_false, hmul, minDoubleCap]
    rw [List.replicate_succ, List.range_succ_eq_map]
    simp only [reconnectWaitsFrom, hstep, List.map_cons, List.map_map]
    rw [ih (k + 1)]
    refine congrArg₂ List.cons ?_ ?_
    · have he : k + 1 = k + 0 + 1 := by omega
      rw [← he]
    · congr 1
      funext i
      simp only [Function.comp_apply, Nat.succ_eq_add_one]
      have he : k + 1 + i + 1 = k + (i + 1) + 1 := by omega
      rw [he]

/-- Reset behaviour: an attempt that reached Connected makes the following
wait 5 and restarts the doubling from the base. -/
theorem reconnectWaitsFrom_reset (post : List Bool) (pre : List Bool) (b : Nat) :
    reconnectWaitsFrom b (pre ++ true :: post) =
      reconnectWaitsFrom b pre ++ 5 :: reconnectWaitsFrom 5 post := by
  induction pre generalizing b with
  | nil => simp [reconnectWaitsFrom, nextBackoff]
  | cons o rest ih =>
    simp only [List.cons_append, reconnectWaitsFrom, List.append_eq, ih]

/-- Every emitted wait stays within [5, 60] as long as the running backoff
does. -/
theorem reconnectWaitsFrom_bounds (outcomes : List Bool) (b : Nat)
    (hb : 5 ≤ b) (hb' : b ≤ 60) :
    ∀ w ∈ reconnectWaitsFrom b outcomes, 5 ≤ w ∧ w ≤ 60 := by
  induction outcomes generalizing b with
  | nil => simp [reconnectWaitsFrom]
  | cons o rest ih =>
    intro w hw
    simp only [reconnectWaitsFrom, List.mem_cons] at hw
    have hnext : 5 ≤ nextBackoff b o ∧ nextBackoff b o ≤ 60 := by
      unfold nextBackoff
      split <;> omega
    rcases hw with hw | hw
    · omega
    · exact ih (nextBackoff b o) hnext.1 hnext.2 w hw

/-- C1.  The claim as stated is false on the code: `VPNSession.run` doubles
the backoff *before* the first wait, so a fresh session whose first two
attempts fail waits 10 s and then 20 s, not 5 s and 10 s as the claimed
sequence 5, 10, 20, 40, 60, ... requires. -/
theorem c1_counterexample :
    reconnectWaits [false, false] = [10, 20] ∧
    reconnectWaits [false, false] ≠ [5, 10] := by
  decide

/-- C1 (amended).  For a session with autoReconnect whose attempts all fail,
the waits between reconnect attempts are 10, 20, 40, 60, 60, ...: the i-th
wait is min(5·2^(i+1), 60) (the base 5 is doubled before the first wait and
capped at 60).  After any attempt that reached Connected at least once the
next wait is 5 and the doubling restarts from that base, and every wait lies
between 5 and 60 seconds. -/
theorem c1_amended :
    (∀ n : Nat, reconnectWaits (List.replicate n false) =
        (List.range n).map (fun i => min (5 * 2 ^ (i + 1)) 60)) ∧
    (∀ pre post : List Bool,
        reconnectWaits (pre ++ true :: post) =
          reconnectWaits pre ++ 5 :: reconnectWaits post) ∧
    (∀ outcomes : List Bool, ∀ w ∈ reconnectWaits outcomes, 5 ≤ w ∧ w ≤ 60) := by
  refine ⟨?_, ?_, ?_⟩
  · intro n
    have h := reconnectWaitsFrom_replicate_false n 0
    simpa [reconnectWaits] using h
  · intro pre post
    exact reconnectWaitsFrom_reset post pre 5
  · intro outcomes
    exact reconnectWaitsFrom_bounds outcomes 5 (by omega) (by omega)

/-- Witness instantiating `c1_amended` on concrete inputs. -/
theorem c1_amended_witness :
    reconnectWaits (List.replicate 3 false) =
      (List.range 3).map (fun i => min (5 * 2 ^ (i + 1)) 60) ∧
    reconnectWaits ([false] ++ true :: [false]) =
      reconnectWaits [false] ++ 5 :: reconnectWaits [false] ∧
    (5 ≤ 10 ∧ 10 ≤ 60) := by
  refine ⟨c1_amended.1 3, c1_amended.2.1 [false] [false], ?_⟩
  exact c1_amended.2.2 [false] 10 (by decide)

/-! ## Theorems for claim C4 (interface-name detection) -/

/-- C4.  The claim as stated is false on the code: `_handle_output` assigns
`self._interface_name` unconditionally on every matching line, so a later
line with a different tunnel token overwrites an already-detected name.
After the lines "Interface ppp0 created" and "Interface tun1 created" the
stored name is "tun1", not the first detection "ppp0". -/
theorem c4_counterexample :
    List.foldl handleOutputIface none ["Interface ppp0 created", "Interface tun1 created"] =
      some "tun1" ∧
    (some "tun1" : Option String) ≠ some "ppp0" := by
  constructor
  · rfl
  · decide

/-- `getLast?` of a nonempty list is always `some`. -/
theorem getLast?_cons_isSome {α : Type} (x : α) (xs : List α) :
    ((x :: xs).getLast?).isSome := by
  induction xs generalizing x with
  | nil => rfl
  | cons y ys ih =>
    rw [List.getLast?_cons_cons]
    exact ih y

/-- C4 (amended).  Interface-name detection is last-detection-wins: after
processing any sequence of output lines within one attempt, the stored
interface name is the token detected from the most recent line containing an
interface announcement (lines with no detection leave the stored name
unchanged); a later detection does overwrite an earlier one. -/
theorem c4_amended (cur : Option String) (lines : List String) :
    List.foldl handleOutputIface cur lines =
      match (lines.filterMap detectInterfaceToken).getLast? with
      | some part => some part
      | none => cur := by
  induction lines generalizing cur with
  | nil => simp
  | cons l ls ih =>
    simp only [List.foldl_cons, List.filterMap_cons]
    rcases h : detectInterfaceToken l with _ | part
    · simp only [handleOutputIface, h]
      exact ih cur
    · simp only [handleOutputIface, h]
      rw [ih (some part)]
      cases hL : ls.filterMap detectInterfaceToken with
      | nil => simp
      | cons x xs =>
        rw [List.getLast?_cons_cons]
        rcases hy : (x :: xs).getLast? with _ | y
        · have := getLast?_cons_isSome x xs
          rw [hy] at this
          simp at this
        · rfl

/-! ## Theorems for claim C5 (binary missing) -/

/-- C5.  The claim as stated is false on the code: when
`subprocess.Popen` raises `FileNotFoundError`, `_run_once` emits the
"Binary missing" status and returns `False`, and `run` then treats this like
any other failed attempt — with `auto_reconnect` enabled it emits
"Reconnecting in 10s" and starts another attempt instead of stopping. -/
theorem c5_counterexample :
    runStatuses true [.binaryMissing, .binaryMissing] =
      ["Starting", "Binary missing", "Reconnecting in 10s", "Starting", "Binary missing"] ∧
    "Reconnecting in 10s" ∈ runStatuses true [.binaryMissing, .binaryMissing] := by
  have h : runStatuses true [.binaryMissing, .binaryMissing] =
      ["Starting", "Binary missing", "Reconnecting in 10s", "Starting", "Binary missing"] := rfl
  exact ⟨h, by rw [h]; simp⟩

/-- C5 (amended).  If the tunnel binary is not found, the session emits the
"Binary missing" status and the attempt reports failure, but binary-missing
is not treated as fatal: with autoReconnect enabled a reconnect is scheduled
with the ordinary doubled backoff, exactly like any other failed attempt;
only with autoReconnect disabled does the session stop without retry. -/
theorem c5_amended (backoff : Nat) (next : AttemptOutcome) (rest : List AttemptOutcome) :
    runOnceStatuses .binaryMissing = (false, ["Binary missing"]) ∧
    runStatusesFrom backoff true (.binaryMissing :: next :: rest) =
      "Starting" :: "Binary missing" ::
        s!"Reconnecting in {min (backoff * 2) 60}s" ::
          runStatusesFrom (min (backoff * 2) 60) true (next :: rest) ∧
    runStatusesFrom backoff false [.binaryMissing] =
      ["Starting", "Binary missing", "Stopped"] := by
  refine ⟨rfl, ?_, rfl⟩
  simp [runStatusesFrom, runOnceStatuses, nextBackoff]

/-! ## Theorems for claim C6 (signal delivery) -/

/-- C6.  Signal delivery is a total boolean-returning function (every
failure mode of the underlying kill call is caught in the source): on a
permission error both the group and the pid variants invoke the elevated
kill path exactly once, returning true exactly when the escalated run
completed with exit code 0 (false when it raised or exited nonzero); a
process-lookup failure (the pid or group no longer exists) returns true; and
the elevated path is never invoked in any other case. -/
theorem c6_signal_delivery :
    (∀ (pgid : Int) (env : SignalEnv), env.killResult = .permissionError →
      (send_signal_group (some pgid) env).2 = 1 ∧
      (send_signal_group (some pgid) env).1 = escalationDelivered env.escalation) ∧
    (∀ env : SignalEnv, env.killResult = .permissionError →
      (send_signal_pid env).2 = 1 ∧
      (send_signal_pid env).1 = escalationDelivered env.escalation) ∧
    (∀ (pgid : Int) (env : SignalEnv), env.killResult = .processLookupError →
      (send_signal_group (some pgid) env).1 = true) ∧
    (∀ env : SignalEnv, env.killResult = .processLookupError →
      (send_signal_pid env).1 = true) ∧
    (∀ (pgid : Option Int) (env : SignalEnv), env.killResult ≠ .permissionError →
      (send_signal_group pgid env).2 = 0 ∧ (send_signal_pid env).2 = 0) := by
  refine ⟨?_, ?_, ?_, ?_, ?_⟩
  · intro pgid env h
    cases henv : env.escalation <;>
      simp [send_signal_group, h, henv, escalationDelivered]
  · intro env h
    cases henv : env.escalation <;>
      simp [send_signal_pid, h, henv, escalationDelivered]
  · intro pgid env h
    simp [send_signal_group, h]
  · intro env h
    simp [send_signal_pid, h]
  · intro pgid env h
    cases pgid <;> cases hk : env.killResult <;>
      simp_all [send_signal_group, send_signal_pid]

/-- Witness instantiating `c6_signal_delivery` at concrete inputs: a
permission error whose escalation exits 1 yields false after exactly one
escalation, and a vanished process group yields true. -/
theorem c6_signal_delivery_witness :
    ((send_signal_group (some 7) ⟨.permissionError, .finished 1 "" "err"⟩).2 = 1 ∧
      (send_signal_group (some 7) ⟨.permissionError, .finished 1 "" "err"⟩).1 =
        escalationDelivered (.finished 1 "" "err")) ∧
    (send_signal_group (some 7) ⟨.processLookupError, .finished 0 "" ""⟩).1 = true := by
  exact ⟨c6_signal_delivery.1 7 ⟨.permissionError, .finished 1 "" "err"⟩ rfl,
    c6_signal_delivery.2.2.1 7 ⟨.processLookupError, .finished 0 "" ""⟩ rfl⟩

/-! ## Theorems for claim C8 (credential reuse) -/

/-- C8.  The claim as stated is false on the code: Python truthiness is used
for the cached credential, so when the provider supplies an *empty* password,
`ensure_password_cached(force_allow=True)` caches it but a subsequent
`build_command` finds `self._cached_password` falsy and invokes the
credential-request callback again (the provider-call counter advances from 1
to 2, and the credential used is the newly requested one, not the cached
one). -/
theorem c8_counterexample :
    ensure_password_cached
        (fun n => if n = 0 then .given "" false else .given "pw2" true) true
        ⟨none, false, none, some "/usr/bin/sudo", 0⟩ =
      .ok ⟨some "", true, none, some "/usr/bin/sudo", 1⟩ ∧
    build_command
        (fun n => if n = 0 then .given "" false else .given "pw2" true)
        ["openfortivpn"]
        ⟨some "", true, none, some "/usr/bin/sudo", 1⟩ =
      .ok ((["/usr/bin/sudo", "-S", "openfortivpn"], some "pw2"),
        ⟨some "pw2", true, none, some "/usr/bin/sudo", 2⟩) := by
  constructor
  · rfl
  · rfl

/-- C8 (amended).  After `ensure_password_cached(force_allow=True)` has been
invoked once and obtained a *non-empty* credential from the callback, every
subsequent `build_command` call returns the sudo command using that cached
credential without invoking the credential-request callback again (the state,
including the provider-call counter, is returned unchanged, so this holds for
arbitrarily many subsequent calls). -/
theorem c8_amended (st : PrivState) (provider : Nat → ProviderResponse)
    (base : List String) (sudo_path password : String) (allow : Bool)
    (hpk : st.pkexecPath = none) (hsudo : st.sudoPath = some sudo_path)
    (hcached : st.cachedPassword = none)
    (hresp : provider st.providerCalls = .given password allow)
    (hne : password ≠ "") :
    ensure_password_cached provider true st =
      .ok { st with cachedPassword := some password, cacheAllowed := true,
                    providerCalls := st.providerCalls + 1 } ∧
    build_command provider base
        { st with cachedPassword := some password, cacheAllowed := true,
                  providerCalls := st.providerCalls + 1 } =
      .ok ((sudo_path :: "-S" :: base, some password),
        { st with cachedPassword := some password, cacheAllowed := true,
                  providerCalls := st.providerCalls + 1 }) := by
  constructor
  · simp [ensure_password_cached, hpk, hsudo, hcached, hresp, passwordTruthy]
  · simp [build_command, hpk, hsudo, passwordTruthy, hne]

/-- Witness instantiating `c8_amended` on a concrete manager state and
provider. -/
theorem c8_amended_witness :
    ensure_password_cached (fun _ => .given "secret" false) true
        ⟨none, false, none, some "/usr/bin/sudo", 0⟩ =
      .ok ⟨some "secret", true, none, some "/usr/bin/sudo", 1⟩ ∧
    build_command (fun _ => .given "secret" false) ["openfortivpn"]
        ⟨some "secret", true, none, some "/usr/bin/sudo", 1⟩ =
      .ok ((["/usr/bin/sudo", "-S", "openfortivpn"], some "secret"),
        ⟨some "secret", true, none, some "/usr/bin/sudo", 1⟩) :=
  c8_amended ⟨none, false, none, some "/usr/bin/sudo", 0⟩
    (fun _ => .given "secret" false) ["openfortivpn"] "/usr/bin/sudo" "secret" false
    rfl rfl rfl rfl (by decide)

/-! ## Theorems for claim C10 (pkexec path never prompts) -/

/-- C10.  When the no-credential elevation helper (pkexec) is available,
`ensure_password_cached` returns immediately with the state unchanged (no
credential is cached and the callback is not invoked, even with
`force_allow=True`), and `build_command` returns `[pkexec, *base]` with no
credential and the state unchanged; since neither call alters the state or
consumes a provider response, the callback is never invoked by any sequence
of these operations while the helper is present. -/
theorem c10_pkexec_no_prompt (st : PrivState) (provider : Nat → ProviderResponse)
    (helper : String) (base : List String) (force : Bool)
    (h : st.pkexecPath = some helper) :
    ensure_password_cached provider force st = .ok st ∧
    build_command provider base st = .ok ((helper :: base, none), st) := by
  constructor
  · simp [ensure_password_cached, h]
  · simp [build_command, h]

/-- Witness instantiating `c10_pkexec_no_prompt` on a concrete state. -/
theorem c10_pkexec_no_prompt_witness :
    ensure_password_cached (fun _ => .cancelled) true
        ⟨none, false, some "/usr/bin/pkexec", some "/usr/bin/sudo", 0⟩ =
      .ok ⟨none, false, some "/usr/bin/pkexec", some "/usr/bin/sudo", 0⟩ ∧
    build_command (fun _ => .cancelled) ["openfortivpn", "vpn.example.com:443"]
        ⟨none, false, some "/usr/bin/pkexec", some "/usr/bin/sudo", 0⟩ =
      .ok ((["/usr/bin/pkexec", "openfortivpn", "vpn.example.com:443"], none),
        ⟨none, false, some "/usr/bin/pkexec", some "/usr/bin/sudo", 0⟩) :=
  c10_pkexec_no_prompt ⟨none, false, some "/usr/bin/pkexec", some "/usr/bin/sudo", 0⟩
    (fun _ => .cancelled) "/usr/bin/pkexec" ["openfortivpn", "vpn.example.com:443"] true rfl

/-! ## Model of Python `ipaddress` parsing and printing

`RouteManager._normalize_destination` and `_resolve_targets` (routing.py
lines 53-97) delegate to the CPython `ipaddress` module
(`ip_network(..., strict=False)` / `ip_address`).  The definitions below
embed the relevant CPython behaviour: textual IPv4/IPv6 address parsing,
netmask/hostmask handling, host-bit masking for `strict=False`, and the
canonical string forms produced by `str()` (dotted quad for IPv4,
compressed lowercase hex for IPv6). -/

/-- Python `str.split(sep)` worker: split on every occurrence of `sep`,
keeping empty fields. -/
def splitOnCharAux (sep : Char) : List Char → List Char → List (List Char)
  | [], acc => [acc.reverse]
  | c :: cs, acc =>
    if c = sep then acc.reverse :: splitOnCharAux sep cs []
    else splitOnCharAux sep cs (c :: acc)

/-- Python `s.split(sep)` for a single-character separator. -/
def splitOnChar (sep : Char) (cs : List Char) : List (List Char) :=
  splitOnCharAux sep cs []

/-- Join a list of fields with a separator (inverse of `splitOnChar` on
separator-free fields); Python `sep.join(parts)`. -/
def joinSep (sep : Char) : List (List Char) → List Char
  | [] => []
  | [p] => p
  | p :: rest => p ++ sep :: joinSep sep rest

/-- ASCII decimal digit test (Python `s.isascii() and s.isdigit()` per
character). -/
def isDigitChar (c : Char) : Bool := '0' ≤ c && c ≤ '9'

/-- ASCII hex digit test (membership in CPython's `_HEX_DIGITS`). -/
def isHexDigitChar (c : Char) : Bool :=
  isDigitChar c || ('a' ≤ c && c ≤ 'f') || ('A' ≤ c && c ≤ 'F')

/-- Numeric value of a hex digit character (also correct for decimal
digits). -/
def hexVal (c : Char) : Nat :=
  if isDigitChar c then c.toNat - 48
  else if 'a' ≤ c && c ≤ 'f' then c.toNat - 87
  else c.toNat - 55

/-- Digit character for a value below the base (lowercase for 10-15), as
produced by C-style `%d` / `%x` formatting. -/
def digitChar (n : Nat) : Char :=
  if n < 10 then Char.ofNat (48 + n) else Char.ofNat (87 + n)

/-- Most-significant-first digit expansion accumulator for `%d` / `%x`
formatting. -/
def toDigitsAux (base n : Nat) (acc : List Char) : List Char :=
  if h : n = 0 ∨ base < 2 then acc
  else toDigitsAux base (n / base) (digitChar (n % base) :: acc)
termination_by n
decreasing_by
  exact Nat.div_lt_self (Nat.pos_of_ne_zero (fun h0 => h (Or.inl h0))) (by omega)

/-- C-style formatting of `n` in the given base: nonempty, no leading
zeros, lowercase. -/
def toDigits (base n : Nat) : List Char :=
  if n = 0 then ['0'] else toDigitsAux base n []

/-- Value of a digit string read most-significant-first with the given
initial accumulator. -/
def foldDigits (base : Nat) (init : Nat) (cs : List Char) : Nat :=
  cs.foldl (fun acc c => acc * base + hexVal c) init

/-- CPython `IPv4Address._parse_octet`: nonempty, ASCII digits only, at
most 3 characters, no leading zero, value at most 255. -/
def parse_octet (cs : List Char) : Option Nat :=
  if cs.isEmpty then none
  else if !cs.all isDigitChar then none
  else if cs.length > 3 then none
  else if cs ≠ ['0'] && cs.head? = some '0' then none
  else
    let v := foldDigits 10 0 cs
    if v > 255 then none else some v

/-- CPython `IPv4Address._ip_int_from_string`: exactly four dot-separated
octets. -/
def parseIPv4 (cs : List Char) : Option Nat :=
  match splitOnChar '.' cs with
  | [a, b, c, d] => do
      let oa ← parse_octet a
      let ob ← parse_octet b
      let oc ← parse_octet c
      let od ← parse_octet d
      pure (((oa * 256 + ob) * 256 + oc) * 256 + od)
  | _ => none

/-- CPython `IPv6Address._parse_hextet`: hex digits only, at most 4
characters, nonempty (the empty string makes `int(x, 16)` raise). -/
def parse_hextet (cs : List Char) : Option Nat :=
  if !cs.all isHexDigitChar then none
  else if cs.length > 4 then none
  else if cs.isEmpty then none
  else some (foldDigits 16 0 cs)

/-- Decimal formatting of one number (Python `'%d' % n`). -/
def toDec (n : Nat) : List Char := toDigits 10 n

/-- Lowercase hex formatting of one number (Python `'%x' % n`). -/
def toHex (n : Nat) : List Char := toDigits 16 n

/-- Dotted-quad rendering of a 32-bit value (CPython
`IPv4Address.__str__`). -/
def ipv4ToChars (n : Nat) : List Char :=
  joinSep '.' [toDec (n / 16777216 % 256), toDec (n / 65536 % 256),
    toDec (n / 256 % 256), toDec (n % 256)]

/-- The eight 16-bit groups of a 128-bit value, most significant first
(CPython `_string_from_ip_int` extracts them from the `%032x` hex
rendering; arithmetically this is the same decomposition). -/
def v6Hextets (n : Nat) : List Nat :=
  (List.range 8).map (fun i => n / 2 ^ (16 * (7 - i)) % 65536)

/-- The scan loop of CPython `_compress_hextets`: `i` is the index of the
next group, `best` is (best_doublecolon_start, best_doublecolon_len), `cur`
is (doublecolon_start, doublecolon_len). -/
def bestRunAux (i : Nat) (best cur : Int × Nat) : List (List Char) → Int × Nat
  | [] => best
  | h :: rest =>
    if h = ['0'] then
      let ds := if cur.1 = -1 then (i : Int) else cur.1
      let dl := cur.2 + 1
      if dl > best.2 then bestRunAux (i + 1) (ds, dl) (ds, dl) rest
      else bestRunAux (i + 1) best (ds, dl) rest
    else bestRunAux (i + 1) best (-1, 0) rest

/-- The best (longest, leftmost) run of "0" groups, per the scan in CPython
`_compress_hextets`. -/
def bestRun (hextets : List (List Char)) : Int × Nat :=
  bestRunAux 0 (-1, 0) (-1, 0) hextets

/-- CPython `IPv6Address._compress_hextets`: splice the best run of two or
more "0" groups into an empty marker field, padding with empty fields at the
edges so the join produces a leading/trailing "::". -/
def compressHextets (hextets : List (List Char)) : List (List Char) :=
  let r := bestRun hextets
  if r.2 > 1 then
    let s := r.1.toNat
    let e := s + r.2
    let hx := if e = hextets.length then hextets ++ [[]] else hextets
    let spliced := hx.take s ++ [[]] ++ hx.drop e
    if s = 0 then [] :: spliced else spliced
  else hextets

/-- CPython `IPv6Address._string_from_ip_int`: compressed lowercase-hex
rendering of a 128-bit value. -/
def ipv6ToChars (n : Nat) : List Char :=
  joinSep ':' (compressHextets ((v6Hextets n).map toHex))

/-- Positions of empty fields, starting the numbering at `i`. -/
def emptyIdxFrom (i : Nat) : List (List Char) → List Nat
  | [] => []
  | p :: rest =>
    if p.isEmpty then i :: emptyIdxFrom (i + 1) rest
    else emptyIdxFrom (i + 1) rest

/-- Positions of empty fields among the interior parts (CPython's
`for i in range(1, len(parts) - 1)` scan for `'::'`). -/
def interiorEmpties (parts : List (List Char)) : List Nat :=
  emptyIdxFrom 1 ((parts.drop 1).dropLast)

/-- Accumulate hextet fields into the running 128-bit value
(`ip_int <<= 16; ip_int |= parse_hextet(...)`). -/
def foldHextets (init : Nat) (ps : List (List Char)) : Option Nat :=
  ps.foldl (fun acc p => do
    let a ← acc
    let h ← parse_hextet p
    pure (a * 65536 + h)) (some init)

/-- CPython `IPv6Address._ip_int_from_string`: full textual IPv6 parse with
at most one `'::'`, optional embedded dotted-quad final part, and the
leading/trailing-colon rules. -/
def parseIPv6 (cs : List Char) : Option Nat :=
  let parts0 := splitOnChar ':' cs
  if parts0.length < 3 then none else
  let withV4 : Option (List (List Char)) :=
    match parts0.getLast? with
    | none => none
    | some lastP =>
      if lastP.contains '.' then
        match parseIPv4 lastP with
        | none => none
        | some v4 => some (parts0.dropLast ++ [toHex (v4 / 65536), toHex (v4 % 65536)])
      else some parts0
  match withV4 with
  | none => none
  | some parts =>
    if parts.length > 9 then none else
    match interiorEmpties parts with
    | [] =>
      if parts.length ≠ 8 then none
      else if ((parts.headD ['x']).isEmpty) then none
      else if ((parts.getLastD ['x']).isEmpty) then none
      else foldHextets 0 parts
    | [skip] =>
      let headEmpty := (parts.headD ['x']).isEmpty
      let lastEmpty := (parts.getLastD ['x']).isEmpty
      let partsHi := if headEmpty then skip - 1 else skip
      let partsLo0 := parts.length - skip - 1
      let partsLo := if lastEmpty then partsLo0 - 1 else partsLo0
      if headEmpty && partsHi ≠ 0 then none
      else if lastEmpty && partsLo ≠ 0 then none
      else if partsHi + partsLo ≥ 8 then none
      else
        match foldHextets 0 (parts.take partsHi) with
        | none => none
        | some hi =>
          match foldHextets 0 (parts.drop (parts.length - partsLo)) with
          | none => none
          | some lo =>
            some (hi * 2 ^ (16 * (8 - partsHi - partsLo) + 16 * partsLo) + lo)
    | _ => none

/-- CPython `_count_righthand_zero_bits` worker (counts trailing zero
bits, at most `fuel`). -/
def countRightZeroBitsAux : Nat → Nat → Nat
  | _, 0 => 0
  | n, fuel + 1 =>
    if n % 2 = 1 then 0 else 1 + countRightZeroBitsAux (n / 2) fuel

/-- CPython `_count_righthand_zero_bits`. -/
def countRightZeroBits (n bits : Nat) : Nat :=
  if n = 0 then bits else countRightZeroBitsAux n bits

/-- CPython `_prefix_from_ip_int`: turn an all-ones-then-all-zeros mask
value into a prefix length, rejecting anything else. -/
def prefixFromIpInt (maxPrefix ipInt : Nat) : Option Nat :=
  let tz := countRightZeroBits ipInt maxPrefix
  let prefixlen := maxPrefix - tz
  if ipInt / 2 ^ tz = 2 ^ prefixlen - 1 then some prefixlen else none

/-- CPython `_prefix_from_prefix_string`: ASCII digits only (so no signs,
whitespace or underscores), value bounded by the family's maximum prefix. -/
def parsePrefixString (maxPrefix : Nat) (cs : List Char) : Option Nat :=
  if !cs.isEmpty && cs.all isDigitChar then
    let v := foldDigits 10 0 cs
    if v ≤ maxPrefix then some v else none
  else none

/-- CPython `IPv4Network._make_netmask` for string arguments: prefix-length
form first, then dotted netmask form, then dotted hostmask form. -/
def makeNetmaskV4 (cs : List Char) : Option Nat :=
  match parsePrefixString 32 cs with
  | some p => some p
  | none =>
    match parseIPv4 cs with
    | none => none
    | some ip =>
      match prefixFromIpInt 32 ip with
      | some p => some p
      | none => prefixFromIpInt 32 (2 ^ 32 - 1 - ip)

/-- An IP network value: family (4 or 6), network address with host bits
cleared, prefix length, and (IPv6 only) an optional zone/scope id. -/
structure IpNet where
  family : Nat
  addr : Nat
  prefixlen : Nat
  scope : Option (List Char)
deriving DecidableEq, Repr

/-- Clear the host bits of an address (`int(address) & int(netmask)`, the
`strict=False` behaviour of CPython network constructors). -/
def maskAddr (bits ip pl : Nat) : Nat :=
  ip / 2 ^ (bits - pl) * 2 ^ (bits - pl)

/-- CPython `IPv4Network(s, strict=False)`: split off at most one '/',
parse the address, resolve the netmask (default 32), mask host bits. -/
def ipv4Network (cs : List Char) : Option IpNet :=
  match splitOnChar '/' cs with
  | [a] => do
      let ip ← parseIPv4 a
      pure ⟨4, ip, 32, none⟩
  | [a, p] => do
      let ip ← parseIPv4 a
      let pl ← makeNetmaskV4 p
      pure ⟨4, maskAddr 32 ip pl, pl, none⟩
  | _ => none

/-- CPython `IPv6Address` textual parse including the zone/scope-id rules
of `_split_scope_id`: at most one '%', nonempty scope after it.  Returns
the 128-bit value and the optional scope. -/
def parseV6WithScope (cs : List Char) : Option (Nat × Option (List Char)) :=
  match splitOnChar '%' cs with
  | [a] => do
      let ip ← parseIPv6 a
      pure (ip, none)
  | [a, z] =>
      if z.isEmpty then none
      else do
        let ip ← parseIPv6 a
        pure (ip, some z)
  | _ => none

/-- CPython `IPv6Network(s, strict=False)`: the prefix part must be a plain
decimal prefix length (`IPv6Network._make_netmask` accepts no dotted or
hex netmask strings); the address part may carry a zone id, which is
dropped when `strict=False` masking has to change the address. -/
def ipv6Network (cs : List Char) : Option IpNet :=
  match splitOnChar '/' cs with
  | [a] => do
      let ip ← parseV6WithScope a
      pure ⟨6, ip.1, 128, ip.2⟩
  | [a, p] => do
      let ip ← parseV6WithScope a
      let pl ← parsePrefixString 128 p
      let masked := maskAddr 128 ip.1 pl
      pure ⟨6, masked, pl, if masked = ip.1 then ip.2 else none⟩
  | _ => none

/-- CPython `ipaddress.ip_network(s, strict=False)`: IPv4 first, then
IPv6, else ValueError (modelled as `none`). -/
def ip_network (s : String) : Option IpNet :=
  match ipv4Network s.toList with
  | some net => some net
  | none => ipv6Network s.toList

/-- CPython `str(network)`: address rendering (with the zone id when
present), a '/', and the decimal prefix length. -/
def netToString (net : IpNet) : String :=
  String.mk ((if net.family = 4 then ipv4ToChars net.addr else ipv6ToChars net.addr) ++
    (match net.scope with
     | some z => '%' :: z
     | none => []) ++
    '/' :: toDec net.prefixlen)

/-- An IP address value as produced by CPython `ip_address`: family,
numeric value, and (IPv6 only) an optional zone/scope id. -/
structure IpAddr where
  family : Nat
  addr : Nat
  scope : Option (List Char)
deriving DecidableEq, Repr

/-- CPython `IPv4Address(s)`: rejects '/' and parses a dotted quad. -/
def ipv4Address (cs : List Char) : Option Nat :=
  if cs.contains '/' then none else parseIPv4 cs

/-- CPython `IPv6Address(s)`: rejects '/', splits at most one '%' with a
nonempty, '%'-free zone id, and parses the rest. -/
def ipv6Address (cs : List Char) : Option IpAddr :=
  if cs.contains '/' then none
  else do
    let ip ← parseV6WithScope cs
    pure ⟨6, ip.1, ip.2⟩

/-- CPython `ipaddress.ip_address(s)`: IPv4 first, then IPv6. -/
def ip_address (s : String) : Option IpAddr :=
  match ipv4Address s.toList with
  | some ip => some ⟨4, ip, none⟩
  | none => ipv6Address s.toList

/-- CPython `str(address)`. -/
def addrToString (a : IpAddr) : String :=
  String.mk ((if a.family = 4 then ipv4ToChars a.addr else ipv6ToChars a.addr) ++
    (match a.scope with
     | some z => '%' :: z
     | none => []))

/-! ## Embedding of routing.py destination helpers -/

/-- `RouteManager._normalize_destination` (routing.py lines 85-97): pass
"default" through, parse with an explicit or implied prefix, render the
canonical network string, and return the input unchanged when parsing
raises `ValueError`. -/
def normalize_destination (destination : String) (family : Nat) : String :=
  if destination = "default" then destination
  else
    match
      (if destination.toList.contains '/' then ip_network destination
       else ip_network (destination ++ (if family = 4 then "/32" else "/128"))) with
    | some network => netToString network
    | none => destination

/-- Result of `socket.getaddrinfo` as needed by `_resolve_targets`: the
resolved address strings in order, or `none` when resolution raises. -/
def ResolverEnv : Type := String → Option (List String)

/-- `RouteManager._resolve_targets` (routing.py lines 53-75): an IP
network, a bare IP address, or DNS resolution with order-preserving
dedup; each resolved address is classified IPv6 iff it contains ':'. -/
def resolve_targets (dns : ResolverEnv) (target : String) : Option (List (String × Nat)) :=
  match ip_network target with
  | some network => some [(netToString network, network.family)]
  | none =>
    match ip_address target with
    | some address => some [(addrToString address, address.family)]
    | none =>
      match dns target with
      | none => none
      | some addrs =>
        some ((addrs.foldl
          (fun (acc : List String × List (String × Nat)) addr =>
            if acc.1.contains addr then acc
            else (addr :: acc.1,
              acc.2 ++ [(addr, if addr.toList.contains ':' then 6 else 4)]))
          ([], [])).2)

/-! ## Digit-string round-trip lemmas -/

/-- Digit characters below the base evaluate back to their value. -/
theorem hexVal_digitChar (m : Nat) (h : m < 16) : hexVal (digitChar m) = m := by
  interval_cases m <;> decide

/-- Digit characters below 16 are hex digits. -/
theorem isHexDigitChar_digitChar (m : Nat) (h : m < 16) :
    isHexDigitChar (digitChar m) = true := by
  interval_cases m <;> decide

/-- Digit characters below 10 are decimal digits. -/
theorem isDigitChar_digitChar (m : Nat) (h : m < 10) :
    isDigitChar (digitChar m) = true := by
  interval_cases m <;> decide

/-- Nonzero digit characters differ from '0'. -/
theorem digitChar_ne_zero (m : Nat) (h : m < 16) (h0 : m ≠ 0) : digitChar m ≠ '0' := by
  interval_cases m <;> simp_all <;> decide

/-- Unfolding step of `foldDigits`. -/
theorem foldDigits_cons (base x : Nat) (c : Char) (cs : List Char) :
    foldDigits base x (c :: cs) = foldDigits base (x * base + hexVal c) cs := rfl

/-- Accumulated digit expansion evaluates back to the accumulated value. -/
theorem foldDigits_toDigitsAux (base : Nat) (hb : 2 ≤ base) (hb' : base ≤ 16) :
    ∀ n acc, foldDigits base 0 (toDigitsAux base n acc) = foldDigits base n acc := by
  intro n
  induction n using Nat.strong_induction_on with
  | _ n ih =>
    intro acc
    unfold toDigitsAux
    split
    · rename_i h
      rcases h with h | h
      · subst h; rfl
      · omega
    · rename_i h
      have hn : n ≠ 0 := fun h0 => h (Or.inl h0)
      rw [ih (n / base) (Nat.div_lt_self (Nat.pos_of_ne_zero hn) (by omega)) _]
      rw [foldDigits_cons,
        hexVal_digitChar (n % base) (lt_of_lt_of_le (Nat.mod_lt n (by omega)) hb')]
      have hdm : n / base * base + n % base = n := by
        rw [Nat.mul_comm]
        exact Nat.div_add_mod n base
      rw [hdm]

/-- All characters produced by the digit expansion satisfy a predicate that
holds on digit characters below the base. -/
theorem toDigitsAux_all (p : Char → Bool) (base : Nat)
    (hp : ∀ m, m < base → p (digitChar m) = true) :
    ∀ n acc, acc.all p = true → (toDigitsAux base n acc).all p = true := by
  intro n
  induction n using Nat.strong_induction_on with
  | _ n ih =>
    intro acc hacc
    unfold toDigitsAux
    split
    · exact hacc
    · rename_i h
      have hn : n ≠ 0 := fun h0 => h (Or.inl h0)
      have hb : 2 ≤ base := by omega
      refine ih (n / base) (Nat.div_lt_self (Nat.pos_of_ne_zero hn) (by omega)) _ ?_
      simp only [List.all_cons, Bool.and_eq_true]
      exact ⟨hp (n % base) (Nat.mod_lt n (by omega)), hacc⟩

/-- Length bound for the digit expansion. -/
theorem toDigitsAux_length (base : Nat) (hb : 2 ≤ base) :
    ∀ k n acc, n < base ^ k →
      (toDigitsAux base n acc).length ≤ k + acc.length := by
  intro k
  induction k with
  | zero =>
    intro n acc hn
    have : n = 0 := by simpa using hn
    subst this
    unfold toDigitsAux
    simp
  | succ k ih =>
    intro n acc hn
    unfold toDigitsAux
    split
    · omega
    · rename_i h
      have hn' : n / base < base ^ k := by
        rw [Nat.div_lt_iff_lt_mul (by omega : 0 < base)]
        rw [← pow_succ]
        exact hn
      have := ih (n / base) (digitChar (n % base) :: acc) hn'
      simp only [List.length_cons] at this
      omega

/-- The digit expansion of a nonzero value starts with a nonzero digit. -/
theorem toDigitsAux_head (base : Nat) (hb : 2 ≤ base) :
    ∀ n acc, n ≠ 0 → ∃ m tl, toDigitsAux base n acc = digitChar m :: tl ∧
      m < base ∧ m ≠ 0 := by
  intro n
  induction n using Nat.strong_induction_on with
  | _ n ih =>
    intro acc hn
    unfold toDigitsAux
    split
    · rename_i h
      rcases h with h | h
      · exact absurd h hn
      · omega
    · by_cases hq : n / base = 0
      · refine ⟨n % base, acc, ?_, Nat.mod_lt n (by omega), ?_⟩
        · rw [hq]
          unfold toDigitsAux
          simp
        · have hdm := Nat.div_add_mod n base
          rw [hq, Nat.mul_zero] at hdm
          omega
      · exact ih (n / base) (Nat.div_lt_self (Nat.pos_of_ne_zero hn) (by omega)) _ hq

/-- Decimal formatting produces only decimal digit characters. -/
theorem toDec_all_digits (m : Nat) : (toDec m).all isDigitChar = true := by
  unfold toDec toDigits
  split
  · decide
  · exact toDigitsAux_all isDigitChar 10 (fun k hk => isDigitChar_digitChar k hk) m [] rfl

/-- Hex formatting produces only hex digit characters. -/
theorem toHex_all_hex (m : Nat) : (toHex m).all isHexDigitChar = true := by
  unfold toHex toDigits
  split
  · decide
  · exact toDigitsAux_all isHexDigitChar 16 (fun k hk => isHexDigitChar_digitChar k hk) m [] rfl

/-- Formatted numbers are never empty. -/
theorem toDigits_ne_nil (base m : Nat) (hb : 2 ≤ base) (hb' : base ≤ 16) :
    toDigits base m ≠ [] := by
  unfold toDigits
  split
  · simp
  · rename_i hm
    obtain ⟨d, tl, heq, _, _⟩ := toDigitsAux_head base hb m [] hm
    simp [heq]

/-- Formatted values evaluate back to themselves. -/
theorem foldDigits_toDigits (base m : Nat) (hb : 2 ≤ base) (hb' : base ≤ 16) :
    foldDigits base 0 (toDigits base m) = m := by
  unfold toDigits
  split
  · rename_i hm
    subst hm
    simp [foldDigits, hexVal, isDigitChar]
  · rw [foldDigits_toDigitsAux base hb hb' m []]
    rfl

/-- Decimal digits are not separator characters. -/
theorem isDigitChar_ne_sep (c : Char) (h : isDigitChar c = true) :
    c ≠ '.' ∧ c ≠ ':' ∧ c ≠ '/' ∧ c ≠ '%' := by
  refine ⟨?_, ?_, ?_, ?_⟩ <;> intro he <;> subst he <;> exact absurd h (by decide)

/-- Hex digits are not separator characters. -/
theorem isHexDigitChar_ne_sep (c : Char) (h : isHexDigitChar c = true) :
    c ≠ '.' ∧ c ≠ ':' ∧ c ≠ '/' ∧ c ≠ '%' := by
  refine ⟨?_, ?_, ?_, ?_⟩ <;> intro he <;> subst he <;> exact absurd h (by decide)
/-- Round trip for `parse_octet` on formatted octet values. -/
theorem parse_octet_toDec (m : Nat) (hm : m < 256) : parse_octet (toDec m) = some m := by
  by_cases h0 : m = 0
  · subst h0
    decide
  · have hne : toDec m ≠ [] := toDigits_ne_nil 10 m (by omega) (by omega)
    have hdig : (toDec m).all isDigitChar = true := toDec_all_digits m
    have hlen : (toDec m).length ≤ 3 := by
      unfold toDec toDigits
      split
      · simp
      · have := toDigitsAux_length 10 (by omega) 3 m [] (by omega)
        simpa using this
    obtain ⟨d, tl, heq, hd10, hd0⟩ := toDigitsAux_head 10 (by omega) m [] h0
    have hhead : (toDec m).head? = some (digitChar d) := by
      unfold toDec toDigits
      rw [if_neg h0, heq]
      rfl
    have hval : foldDigits 10 0 (toDec m) = m := foldDigits_toDigits 10 m (by omega) (by omega)
    have hd : digitChar d ≠ '0' := digitChar_ne_zero d (by omega) hd0
    unfold parse_octet
    rw [if_neg (by simp [List.isEmpty_iff, hne])]
    rw [hdig]
    simp only [Bool.not_true, Bool.false_eq_true, if_false]
    rw [if_neg (by omega)]
    rw [if_neg (by rw [hhead]; simp [hd])]
    simp only [hval]
    rw [if_neg (by omega)]
/-- Round trip for `parse_hextet` on formatted hextet values. -/
theorem parse_hextet_toHex (m : Nat) (hm : m < 65536) : parse_hextet (toHex m) = some m := by
  have hne : toHex m ≠ [] := toDigits_ne_nil 16 m (by omega) (by omega)
  have hdig : (toHex m).all isHexDigitChar = true := toHex_all_hex m
  have hlen : (toHex m).length ≤ 4 := by
    unfold toHex toDigits
    split
    · simp
    · have := toDigitsAux_length 16 (by omega) 4 m [] (by omega)
      simpa using this
  have hval : foldDigits 16 0 (toHex m) = m := foldDigits_toDigits 16 m (by omega) (by omega)
  unfold parse_hextet
  rw [hdig]
  simp only [Bool.not_true, Bool.false_eq_true, if_false]
  rw [if_neg (by omega)]
  rw [if_neg (by simp [List.isEmpty_iff, hne])]
  rw [hval]

/-- Round trip for `parsePrefixString` on formatted prefix lengths. -/
theorem parsePrefixString_toDec (maxP m : Nat) (hm : m ≤ maxP) :
    parsePrefixString maxP (toDec m) = some m := by
  have hne : toDec m ≠ [] := toDigits_ne_nil 10 m (by omega) (by omega)
  have hdig : (toDec m).all isDigitChar = true := toDec_all_digits m
  have hval : foldDigits 10 0 (toDec m) = m := foldDigits_toDigits 10 m (by omega) (by omega)
  unfold parsePrefixString
  rw [if_pos (by simp [List.isEmpty_iff, hne, hdig])]
  simp only [hval]
  rw [if_pos hm]

/-! ## Split/join round-trip lemmas -/

/-- Splitting a separator-free piece yields one field. -/
theorem splitOnCharAux_no_sep (sep : Char) :
    ∀ (a acc : List Char), a.all (fun c => c ≠ sep) = true →
      splitOnCharAux sep a acc = [acc.reverse ++ a] := by
  intro a
  induction a with
  | nil => intro acc _; simp [splitOnCharAux]
  | cons c cs ih =>
    intro acc ha
    simp only [List.all_cons, Bool.and_eq_true, decide_eq_true_eq] at ha
    unfold splitOnCharAux
    rw [if_neg ha.1]
    rw [ih (c :: acc) (by simpa using ha.2)]
    simp

/-- Splitting a separator-free piece followed by a separator emits the piece
and continues. -/
theorem splitOnCharAux_sep (sep : Char) (rest : List Char) :
    ∀ (a acc : List Char), a.all (fun c => c ≠ sep) = true →
      splitOnCharAux sep (a ++ sep :: rest) acc =
        (acc.reverse ++ a) :: splitOnCharAux sep rest [] := by
  intro a
  induction a with
  | nil =>
    intro acc _
    simp only [List.nil_append]
    rw [splitOnCharAux]
    simp
  | cons c cs ih =>
    intro acc ha
    simp only [List.all_cons, Bool.and_eq_true, decide_eq_true_eq] at ha
    simp only [List.cons_append]
    rw [splitOnCharAux]
    rw [if_neg ha.1]
    rw [ih (c :: acc) (by simpa using ha.2)]
    simp

/-- Splitting inverts joining for separator-free fields. -/
theorem splitOnChar_joinSep (sep : Char) :
    ∀ (parts : List (List Char)), parts ≠ [] →
      (∀ p ∈ parts, p.all (fun c => c ≠ sep) = true) →
      splitOnChar sep (joinSep sep parts) = parts := by
  intro parts
  induction parts with
  | nil => intro h _; exact absurd rfl h
  | cons p rest ih =>
    intro _ hall
    cases rest with
    | nil =>
      unfold splitOnChar joinSep
      rw [splitOnCharAux_no_sep sep p [] (hall p (by simp))]
      simp
    | cons q rest' =>
      unfold splitOnChar joinSep
      rw [splitOnCharAux_sep sep _ p [] (hall p (by simp))]
      simp only [List.reverse_nil, List.nil_append]
      congr 1
      have := ih (by simp) (fun r hr => hall r (by simp [hr]))
      unfold splitOnChar at this
      exact this

/-- Every field produced by splitting is separator-free. -/
theorem splitOnCharAux_parts_no_sep (sep : Char) :
    ∀ (cs acc : List Char) (p : List Char),
      acc.all (fun c => c ≠ sep) = true →
      p ∈ splitOnCharAux sep cs acc → p.all (fun c => c ≠ sep) = true := by
  intro cs
  induction cs with
  | nil =>
    intro acc p hacc hp
    unfold splitOnCharAux at hp
    simp only [List.mem_singleton] at hp
    subst hp
    simpa using hacc
  | cons c cs' ih =>
    intro acc p hacc hp
    unfold splitOnCharAux at hp
    by_cases hc : c = sep
    · rw [if_pos hc] at hp
      rcases List.mem_cons.1 hp with hp | hp
      · subst hp; simpa using hacc
      · exact ih [] p (by simp) hp
    · rw [if_neg hc] at hp
      exact ih (c :: acc) p (by rw [List.all_cons, hacc, Bool.and_true]; simpa using hc) hp

/-- Every character in a split field occurs in the input. -/
theorem splitOnCharAux_parts_sub (sep : Char) :
    ∀ (cs acc : List Char) (p : List Char) (c : Char),
      p ∈ splitOnCharAux sep cs acc → c ∈ p → c ∈ acc ∨ c ∈ cs := by
  intro cs
  induction cs with
  | nil =>
    intro acc p c hp hc
    unfold splitOnCharAux at hp
    simp only [List.mem_singleton] at hp
    subst hp
    simp only [List.mem_reverse] at hc
    exact Or.inl hc
  | cons d cs' ih =>
    intro acc p c hp hc
    unfold splitOnCharAux at hp
    by_cases hd : d = sep
    · rw [if_pos hd] at hp
      rcases List.mem_cons.1 hp with hp | hp
      · subst hp
        simp only [List.mem_reverse] at hc
        exact Or.inl hc
      · rcases ih [] p c hp hc with h | h
        · simp at h
        · exact Or.inr (List.mem_cons_of_mem d h)
    · rw [if_neg hd] at hp
      rcases ih (d :: acc) p c hp hc with h | h
      · rcases List.mem_cons.1 h with h | h
        · exact Or.inr (by simp [h])
        · exact Or.inl h
      · exact Or.inr (List.mem_cons_of_mem d h)

/-- Decimal digit strings avoid any non-digit separator. -/
theorem toDec_no_char (m : Nat) (sep : Char) (hsep : isDigitChar sep = false) :
    (toDec m).all (fun c => c ≠ sep) = true := by
  have h := toDec_all_digits m
  rw [List.all_eq_true] at h ⊢
  intro c hc
  have := h c hc
  simp only [decide_eq_true_eq]
  intro he
  subst he
  rw [this] at hsep
  cases hsep

/-- Hex digit strings avoid any non-hex separator. -/
theorem toHex_no_char (m : Nat) (sep : Char) (hsep : isHexDigitChar sep = false) :
    (toHex m).all (fun c => c ≠ sep) = true := by
  have h := toHex_all_hex m
  rw [List.all_eq_true] at h ⊢
  intro c hc
  have := h c hc
  simp only [decide_eq_true_eq]
  intro he
  subst he
  rw [this] at hsep
  cases hsep

/-- Round trip for the dotted-quad rendering of a 32-bit value. -/
theorem parseIPv4_print (n : Nat) (hn : n < 2 ^ 32) :
    parseIPv4 (ipv4ToChars n) = some n := by
  have hsplit : splitOnChar '.' (ipv4ToChars n) =
      [toDec (n / 16777216 % 256), toDec (n / 65536 % 256),
        toDec (n / 256 % 256), toDec (n % 256)] := by
    unfold ipv4ToChars
    apply splitOnChar_joinSep
    · simp
    · intro p hp
      simp only [List.mem_cons, List.mem_singleton] at hp
      rcases hp with h | h | h | h | h <;> first
        | (subst h; exact toDec_no_char _ '.' (by decide))
        | cases h
  have h1 : parse_octet (toDec (n / 16777216 % 256)) = some (n / 16777216 % 256) :=
    parse_octet_toDec _ (Nat.mod_lt _ (by omega))
  have h2 : parse_octet (toDec (n / 65536 % 256)) = some (n / 65536 % 256) :=
    parse_octet_toDec _ (Nat.mod_lt _ (by omega))
  have h3 : parse_octet (toDec (n / 256 % 256)) = some (n / 256 % 256) :=
    parse_octet_toDec _ (Nat.mod_lt _ (by omega))
  have h4 : parse_octet (toDec (n % 256)) = some (n % 256) :=
    parse_octet_toDec _ (Nat.mod_lt _ (by omega))
  unfold parseIPv4
  rw [hsplit]
  simp only [h1, h2, h3, h4, Option.bind_eq_bind, Option.some_bind]
  congr 1
  omega

/-! ## IPv6 group value lemmas -/

/-- Accumulating group values most-significant-first. -/
def groupVal (init : Nat) (G : List Nat) : Nat :=
  G.foldl (fun a g => a * 65536 + g) init

/-- The group accumulator factors through its initial value. -/
theorem groupVal_shift (G : List Nat) :
    ∀ x, groupVal x G = x * 65536 ^ G.length + groupVal 0 G := by
  induction G with
  | nil => intro x; simp [groupVal]
  | cons g tl ih =>
    intro x
    show groupVal (x * 65536 + g) tl = _
    rw [ih (x * 65536 + g)]
    conv_rhs =>
      rw [show groupVal 0 (g :: tl) = groupVal (0 * 65536 + g) tl from rfl]
      rw [ih (0 * 65536 + g)]
    simp only [List.length_cons]
    ring

/-- Group values over an append split. -/
theorem groupVal_append (A B : List Nat) (x : Nat) :
    groupVal x (A ++ B) = groupVal x A * 65536 ^ B.length + groupVal 0 B := by
  unfold groupVal
  rw [List.foldl_append]
  exact groupVal_shift B _

/-- All-zero groups contribute nothing. -/
theorem groupVal_zeros (L : List Nat) (h : ∀ g ∈ L, g = 0) : groupVal 0 L = 0 := by
  induction L with
  | nil => rfl
  | cons g tl ih =>
    have hg : g = 0 := h g (by simp)
    show groupVal (0 * 65536 + g) tl = 0
    rw [hg]
    exact ih (fun x hx => h x (by simp [hx]))

/-- Base-2^16 digit reconstruction for the `v6Hextets` decomposition. -/
theorem groupVal_range (k : Nat) :
    ∀ n, groupVal 0 ((List.range k).map (fun i => n / 2 ^ (16 * (k - 1 - i)) % 65536)) =
      n % 2 ^ (16 * k) := by
  induction k with
  | zero => intro n; simp [groupVal, Nat.mod_one]
  | succ k ih =>
    intro n
    rw [List.range_succ, List.map_append]
    rw [groupVal_append]
    have hmap : (List.range k).map (fun i => n / 2 ^ (16 * (k + 1 - 1 - i)) % 65536) =
        (List.range k).map (fun i => (n / 2 ^ 16) / 2 ^ (16 * (k - 1 - i)) % 65536) := by
      apply List.map_congr_left
      intro i hi
      simp only [List.mem_range] at hi
      rw [Nat.div_div_eq_div_mul, ← pow_add]
      have he : 16 * (k + 1 - 1 - i) = 16 + 16 * (k - 1 - i) := by omega
      rw [he]
    rw [hmap, ih (n / 2 ^ 16)]
    simp only [List.map_cons, List.map_nil, List.length_cons, List.length_nil]
    have hlast : k + 1 - 1 - k = 0 := by omega
    rw [hlast]
    show (n / 2 ^ 16 % 2 ^ (16 * k)) * 65536 ^ 1 + groupVal (0 * 65536 + n / 2 ^ 0 % 65536) [] = _
    have h16 : (2 : Nat) ^ 16 = 65536 := by norm_num
    have hsplit : 2 ^ (16 * (k + 1)) = 65536 * 2 ^ (16 * k) := by
      rw [show 16 * (k + 1) = 16 + 16 * k by ring, pow_add, h16]
    rw [hsplit, Nat.mod_mul]
    simp only [groupVal, List.foldl_nil, pow_zero, Nat.div_one, pow_one, h16]
    omega

/-- The eight hextets of a 128-bit value have eight entries. -/
theorem v6Hextets_length (n : Nat) : (v6Hextets n).length = 8 := by
  simp [v6Hextets]

/-- Every hextet is below 2^16. -/
theorem v6Hextets_lt (n : Nat) : ∀ g ∈ v6Hextets n, g < 65536 := by
  intro g hg
  simp only [v6Hextets, List.mem_map] at hg
  obtain ⟨i, _, rfl⟩ := hg
  exact Nat.mod_lt _ (by omega)

/-- The hextets reconstruct the value. -/
theorem groupVal_v6Hextets (n : Nat) (hn : n < 2 ^ 128) :
    groupVal 0 (v6Hextets n) = n := by
  have h := groupVal_range 8 n
  have hv : (List.range 8).map (fun i => n / 2 ^ (16 * (8 - 1 - i)) % 65536) = v6Hextets n :=
    rfl
  rw [hv] at h
  rw [h]
  exact Nat.mod_eq_of_lt (by simpa using hn)

/-- `foldHextets` on printed groups recovers the group values. -/
theorem foldHextets_map_toHex (G : List Nat) (hG : ∀ g ∈ G, g < 65536) :
    ∀ init, foldHextets init (G.map toHex) = some (groupVal init G) := by
  induction G with
  | nil => intro init; rfl
  | cons g tl ih =>
    intro init
    have hg : g < 65536 := hG g (by simp)
    show List.foldl _ ((some init).bind fun a => (parse_hextet (toHex g)).bind fun h => some (a * 65536 + h)) _ = _
    rw [parse_hextet_toHex g hg]
    simp only [Option.some_bind]
    exact ih (fun x hx => hG x (by simp [hx])) (init * 65536 + g)

/-! ## Interior-empties and compression-scan lemmas -/

/-- Scanning an append decomposes positionally. -/
theorem emptyIdxFrom_append (A B : List (List Char)) :
    ∀ i, emptyIdxFrom i (A ++ B) = emptyIdxFrom i A ++ emptyIdxFrom (i + A.length) B := by
  induction A with
  | nil => intro i; simp [emptyIdxFrom]
  | cons p tl ih =>
    intro i
    simp only [List.cons_append, List.length_cons]
    unfold emptyIdxFrom
    rw [ih (i + 1)]
    have he : i + 1 + tl.length = i + (tl.length + 1) := by omega
    rw [he]
    by_cases hp : p.isEmpty = true
    · simp only [hp, if_true, List.cons_append]
      congr 1
      cases B <;> rfl
    · simp only [hp, if_false]
      congr 1
      cases B <;> rfl

/-- Nonempty fields produce no positions. -/
theorem emptyIdxFrom_nonempty (L : List (List Char)) (h : ∀ p ∈ L, p ≠ []) :
    ∀ i, emptyIdxFrom i L = [] := by
  induction L with
  | nil => intro i; rfl
  | cons p tl ih =>
    intro i
    unfold emptyIdxFrom
    rw [if_neg (by simpa using h p (by simp))]
    exact ih (fun q hq => h q (by simp [hq])) (i + 1)

/-- One empty marker produces its position. -/
theorem emptyIdxFrom_single (i : Nat) : emptyIdxFrom i [[]] = [i] := by
  rfl

/-- `dropLast` of an append with a nonempty right part. -/
theorem dropLast_append_ne_nil (A : List (List Char)) :
    ∀ (B : List (List Char)), B ≠ [] → (A ++ B).dropLast = A ++ B.dropLast := by
  induction A with
  | nil => intro B _; simp
  | cons p tl ih =>
    intro B hB
    have htl : tl ++ B ≠ [] := by
      simp only [ne_eq, List.append_eq_nil]
      rintro ⟨-, h⟩
      exact hB h
    rw [List.cons_append, List.dropLast_cons_of_ne_nil htl, ih B hB, List.cons_append]

/-- The hex rendering of a value equals "0" exactly for zero. -/
theorem toHex_eq_zero_iff (g : Nat) : toHex g = ['0'] ↔ g = 0 := by
  constructor
  · intro h
    by_contra hg
    unfold toHex toDigits at h
    rw [if_neg hg] at h
    obtain ⟨m, tl, heq, hm16, hm0⟩ := toDigitsAux_head 16 (by omega) g [] hg
    rw [heq] at h
    have := digitChar_ne_zero m hm16 hm0
    simp only [List.cons.injEq] at h
    exact this h.1
  · intro h
    subst h
    rfl

/-- Soundness of the best-run scan state. -/
def RunOK (H : List (List Char)) (b : Int × Nat) : Prop :=
  b.2 = 0 ∨ (0 ≤ b.1 ∧
    ∀ j, b.1.toNat ≤ j → j < b.1.toNat + b.2 → H.get? j = some ['0'])

/-- Soundness of the in-progress run: it ends exactly at position `i`. -/
def CurOK (H : List (List Char)) (i : Nat) (c : Int × Nat) : Prop :=
  (c.2 = 0 → c.1 = -1) ∧
  (c.2 ≠ 0 → 0 ≤ c.1 ∧ c.1.toNat + c.2 = i ∧
    ∀ j, c.1.toNat ≤ j → j < i → H.get? j = some ['0'])

/-- The compression scan only ever reports runs of "0" groups. -/
theorem bestRunAux_sound (H : List (List Char)) :
    ∀ (l : List (List Char)) (i : Nat) (best cur : Int × Nat),
      H.drop i = l → RunOK H best → CurOK H i cur →
      RunOK H (bestRunAux i best cur l) := by
  intro l
  induction l with
  | nil =>
    intro i best cur _ hbest _
    exact hbest
  | cons h rest ih =>
    intro i best cur hdrop hbest hcur
    have hget : H.get? i = some h := by
      have := List.get?_drop H i 0
      rw [hdrop] at this
      simpa using this.symm
    have hdrop' : H.drop (i + 1) = rest := by
      have : H.drop (i + 1) = (H.drop i).drop 1 := by
        rw [List.drop_drop]
      rw [this, hdrop]
      rfl
    unfold bestRunAux
    by_cases hz : h = ['0']
    · rw [if_pos hz]
      subst hz
      set ds := if cur.1 = -1 then (i : Int) else cur.1 with hds
      have hcur' : CurOK H (i + 1) (ds, cur.2 + 1) := by
        constructor
        · intro habs; omega
        · intro _
          by_cases hc0 : cur.2 = 0
          · have hm1 : cur.1 = -1 := hcur.1 hc0
            rw [hds, if_pos hm1]
            refine ⟨by omega, by simp [hc0], ?_⟩
            intro j hj1 hj2
            simp only [Int.toNat_ofNat] at hj1 hj2
            have : j = i := by omega
            subst this
            exact hget
          · obtain ⟨hpos, hsum, hrun⟩ := hcur.2 hc0
            have hne : cur.1 ≠ -1 := by omega
            rw [hds, if_neg hne]
            refine ⟨hpos, by omega, ?_⟩
            intro j hj1 hj2
            by_cases hji : j < i
            · exact hrun j hj1 hji
            · have : j = i := by omega
              subst this
              exact hget
      by_cases hgt : cur.2 + 1 > best.2
      · rw [if_pos hgt]
        refine ih (i + 1) (ds, cur.2 + 1) (ds, cur.2 + 1) hdrop' ?_ hcur'
        right
        obtain ⟨hpos, hsum, hrun⟩ := hcur'.2 (by omega)
        exact ⟨hpos, fun j hj1 hj2 => hrun j hj1 (by omega)⟩
      · rw [if_neg hgt]
        exact ih (i + 1) best (ds, cur.2 + 1) hdrop' hbest hcur'
    · rw [if_neg hz]
      refine ih (i + 1) best (-1, 0) hdrop' hbest ?_
      exact ⟨fun _ => rfl, fun habs => absurd rfl habs⟩

/-- Whenever the best run found is long enough to compress, it is a real
run of "0" groups inside the list. -/
theorem bestRun_sound (H : List (List Char)) (hlen : (bestRun H).2 > 1) :
    0 ≤ (bestRun H).1 ∧
    (bestRun H).1.toNat + (bestRun H).2 ≤ H.length ∧
    (∀ j, (bestRun H).1.toNat ≤ j → j < (bestRun H).1.toNat + (bestRun H).2 →
      H.get? j = some ['0']) := by
  have h := bestRunAux_sound H H 0 (-1, 0) (-1, 0) rfl (Or.inl rfl)
    ⟨fun _ => rfl, fun habs => absurd rfl habs⟩
  unfold bestRun
  rcases h with h | ⟨hpos, hrun⟩
  · unfold bestRun at hlen; omega
  · refine ⟨hpos, ?_, hrun⟩
    have hlast := hrun ((bestRunAux 0 (-1, 0) (-1, 0) H).1.toNat +
      (bestRunAux 0 (-1, 0) (-1, 0) H).2 - 1) (by unfold bestRun at hlen; omega)
      (by unfold bestRun at hlen; omega)
    have := List.get?_eq_some.1 hlast
    obtain ⟨hlt, -⟩ := this
    unfold bestRun at hlen
    omega

/-- Separator-free lists report `contains` false. -/
theorem contains_false_of_all_ne (p : List Char) (sep : Char)
    (h : p.all (fun c => c ≠ sep) = true) : p.contains sep = false := by
  induction p with
  | nil => rfl
  | cons c cs ih =>
    simp only [List.all_cons, Bool.and_eq_true, decide_eq_true_eq] at h
    simp only [List.contains_cons, Bool.or_eq_false_iff]
    constructor
    · simp only [beq_eq_false_iff_ne, ne_eq]
      exact fun he => h.1 he.symm
    · exact ih h.2

/-- Explicit shape of the compressed hextet list when a run is spliced. -/
theorem compressHextets_shape (H : List (List Char)) (hbl : (bestRun H).2 > 1)
    (hse : (bestRun H).1.toNat + (bestRun H).2 ≤ H.length) :
    compressHextets H =
      (if (bestRun H).1.toNat = 0 then [[]] else []) ++ H.take (bestRun H).1.toNat ++
        [[]] ++
        (if (bestRun H).1.toNat + (bestRun H).2 = H.length then [[]]
         else H.drop ((bestRun H).1.toNat + (bestRun H).2)) := by
  have hsl : (bestRun H).1.toNat ≤ H.length := by omega
  by_cases h8 : (bestRun H).1.toNat + (bestRun H).2 = H.length <;>
    by_cases hs0 : (bestRun H).1.toNat = 0
  · have h8' : (bestRun H).2 = H.length := by omega
    simp only [compressHextets, if_pos hbl, hs0, List.take_zero, Nat.zero_add, if_pos h8']
    rw [List.drop_left' (by omega : H.length = (bestRun H).2)]
    simp
  · simp only [compressHextets, if_pos hbl, if_pos h8, if_neg hs0]
    rw [List.take_append_of_le_length hsl,
      List.drop_left' (by omega : H.length = (bestRun H).1.toNat + (bestRun H).2)]
    simp
  · have h8' : ¬(bestRun H).2 = H.length := by omega
    simp only [compressHextets, if_pos hbl, hs0, List.take_zero, Nat.zero_add, if_neg h8']
    simp
  · simp only [compressHextets, if_pos hbl, if_neg h8, if_neg hs0]
    simp

/-- Hex-printed group lists are colon-free fields. -/
theorem mapToHex_no_colon (G : List Nat) :
    ∀ p ∈ G.map toHex, p.all (fun c => c ≠ ':') = true := by
  intro p hp
  obtain ⟨g, -, rfl⟩ := List.mem_map.1 hp
  exact toHex_no_char g ':' (by decide)

/-- Hex-printed group lists have nonempty fields. -/
theorem mapToHex_ne_nil (G : List Nat) : ∀ p ∈ G.map toHex, p ≠ [] := by
  intro p hp
  obtain ⟨g, -, rfl⟩ := List.mem_map.1 hp
  exact toDigits_ne_nil 16 g (by omega) (by omega)

/-- Hex-printed group lists are dot-free fields. -/
theorem mapToHex_no_dot (G : List Nat) : ∀ p ∈ G.map toHex, p.contains '.' = false := by
  intro p hp
  obtain ⟨g, -, rfl⟩ := List.mem_map.1 hp
  exact contains_false_of_all_ne _ '.' (toHex_no_char g '.' (by decide))

/-- Parsing the compressed rendering of a group list split as
`high ++ zeros ++ low` recovers the padded value. -/
theorem parseIPv6_compressed (Gh Gl : List Nat)
    (hGh : ∀ g ∈ Gh, g < 65536) (hGl : ∀ g ∈ Gl, g < 65536)
    (hlen : Gh.length + Gl.length < 8) :
    parseIPv6 (joinSep ':' ((if Gh = [] then [[]] else []) ++ Gh.map toHex ++ [[]] ++
      (if Gl = [] then [[]] else Gl.map toHex))) =
    some (groupVal 0 Gh *
      2 ^ (16 * (8 - Gh.length - Gl.length) + 16 * Gl.length) + groupVal 0 Gl) := by
  rcases Gh with _ | ⟨a, Gh'⟩ <;> rcases Gl with _ | ⟨b, Gl'⟩
  · decide
  · -- Gh = [], Gl = b :: Gl'
    simp only [List.map_nil, List.append_nil, List.nil_append, eq_self_iff_true, if_true,
      if_neg (List.cons_ne_nil b Gl')]
    rw [show ([[]] ++ [[]] : List (List Char)) = [[], []] from rfl]
    set D := (b :: Gl').map toHex with hD
    have hDlen : D.length = Gl'.length + 1 := by rw [hD]; simp
    have hDne : D ≠ [] := by rw [hD]; simp
    have hsplit : splitOnChar ':' (joinSep ':' ([[], []] ++ D)) = [[], []] ++ D := by
      apply splitOnChar_joinSep
      · simp
      · intro p hp
        simp only [List.cons_append, List.nil_append, List.mem_cons] at hp
        rcases hp with hp | hp | hp
        · subst hp; rfl
        · subst hp; rfl
        · exact mapToHex_no_colon _ p (by rw [← hD]; exact hp)
    have hlast : ([[], []] ++ D).getLast? = D.getLast? :=
      List.getLast?_append_of_ne_nil _ hDne
    obtain ⟨lastP, hlastP⟩ : ∃ p, D.getLast? = some p := by
      rcases D with _ | ⟨d, D'⟩
      · exact absurd rfl hDne
      · exact ⟨_, List.getLast?_eq_getLast (d :: D') (by simp)⟩
    have hlastMem : lastP ∈ D := List.mem_of_getLast?_eq_some hlastP
    have hlastNe : lastP ≠ [] := mapToHex_ne_nil _ lastP (hD ▸ hlastMem)
    have hlastDot : lastP.contains '.' = false := mapToHex_no_dot _ lastP (hD ▸ hlastMem)
    have hmid : (([[], []] ++ D).drop 1).dropLast = [[]] ++ D.dropLast := by
      simp only [List.cons_append, List.nil_append, List.drop_succ_cons, List.drop_zero]
      exact dropLast_append_ne_nil [[]] D hDne
    have hinter : interiorEmpties ([[], []] ++ D) = [1] := by
      unfold interiorEmpties
      rw [hmid]
      rw [emptyIdxFrom_append, emptyIdxFrom_single]
      rw [emptyIdxFrom_nonempty _
        (fun p hp => mapToHex_ne_nil _ p (hD ▸ List.dropLast_subset D hp)) _]
      rfl
    have hplen : ([[], []] ++ D).length = 2 + (Gl'.length + 1) := by
      simp only [List.length_append, hDlen]
      rfl
    have hheadD : (([[], []] ++ D).headD ['x']).isEmpty = true := rfl
    have hlastD : (([[], []] ++ D).getLastD ['x']).isEmpty = false := by
      rw [List.getLastD_eq_getLast?, hlast, hlastP]
      simpa [List.isEmpty_iff] using hlastNe
    have hdrop : ([[], []] ++ D).drop 2 = D := List.drop_left' rfl
    have hfoldD : foldHextets 0 D = some (groupVal 0 (b :: Gl')) := by
      rw [hD]
      exact foldHextets_map_toHex _ hGl 0
    have hc1 : ¬(([[], []] ++ D).length < 3) := by rw [hplen]; omega
    have hc2 : ¬(([[], []] ++ D).length > 9) := by
      rw [hplen]
      simp only [List.length_cons] at hlen
      omega
    have hlo : ([[], []] ++ D).length - 1 - 1 = Gl'.length + 1 := by rw [hplen]; omega
    have hc3' : ¬(8 ≤ 1 - 1 + (Gl'.length + 1)) := by
      simp only [List.length_cons] at hlen
      omega
    have hsub : ([[], []] ++ D).length - (Gl'.length + 1) = 2 := by rw [hplen]; omega
    simp only [parseIPv6, hsplit, hc1, ite_false]
    simp only [hlast, hlastP, hlastDot, Bool.false_eq_true, if_false]
    simp only [hc2, ite_false]
    simp only [hinter]
    simp only [hheadD, hlastD, Bool.false_eq_true, Bool.false_and, if_false, if_true,
      Bool.true_and, Nat.sub_self, ne_eq, decide_False, not_true_eq_false, hlo]
    simp only [ge_iff_le, hc3', ite_false]
    simp only [hsub, hdrop, hfoldD, List.take_zero]
    simp only [foldHextets, List.foldl_nil, groupVal, Nat.sub_self]
    simp only [List.length_cons, List.length_nil]
  · -- Gh = a :: Gh', Gl = []
    simp only [List.map_nil, List.append_nil, List.nil_append, eq_self_iff_true, if_true,
      if_neg (List.cons_ne_nil a Gh')]
    set A := (a :: Gh').map toHex with hA
    have hAlen : A.length = Gh'.length + 1 := by rw [hA]; simp
    have hAne : A ≠ [] := by rw [hA]; simp
    have hsplit : splitOnChar ':' (joinSep ':' (A ++ [[]] ++ [[]])) = A ++ [[]] ++ [[]] := by
      apply splitOnChar_joinSep
      · simp [hAne]
      · intro p hp
        simp only [List.append_assoc, List.mem_append, List.mem_singleton] at hp
        rcases hp with hp | hp | hp
        · exact mapToHex_no_colon _ p (by rw [← hA]; exact hp)
        · subst hp; rfl
        · subst hp; rfl
    have hlast : (A ++ [[]] ++ [[]]).getLast? = some [] := by
      rw [List.getLast?_append_of_ne_nil _ (by simp : ([[]] : List (List Char)) ≠ [])]
      rfl
    have hmid : ((A ++ [[]] ++ [[]]).drop 1).dropLast = Gh'.map toHex ++ [[]] := by
      rw [hA]
      simp only [List.map_cons, List.cons_append, List.drop_succ_cons, List.drop_zero]
      exact List.dropLast_concat
    have hinter : interiorEmpties (A ++ [[]] ++ [[]]) = [Gh'.length + 1] := by
      unfold interiorEmpties
      rw [hmid]
      rw [emptyIdxFrom_append]
      rw [emptyIdxFrom_nonempty _ (mapToHex_ne_nil Gh') 1]
      rw [emptyIdxFrom_single]
      simp only [List.length_map, List.nil_append, List.cons.injEq, and_true]
      omega
    have hplen : (A ++ [[]] ++ [[]]).length = Gh'.length + 1 + 1 + 1 := by
      simp only [List.length_append, hAlen, List.length_singleton]
    have hheadD : ((A ++ [[]] ++ [[]]).headD ['x']).isEmpty = false := by
      rw [hA]
      simp only [List.map_cons, List.cons_append, List.headD_cons]
      simpa [List.isEmpty_iff] using toDigits_ne_nil 16 a (by omega) (by omega)
    have hlastD : ((A ++ [[]] ++ [[]]).getLastD ['x']).isEmpty = true := by
      rw [List.getLastD_eq_getLast?, hlast]
      rfl
    have htake : (A ++ [[]] ++ [[]]).take (Gh'.length + 1) = A := by
      rw [List.append_assoc]
      exact List.take_left' hAlen
    have hfoldA : foldHextets 0 A = some (groupVal 0 (a :: Gh')) := by
      rw [hA]
      exact foldHextets_map_toHex _ hGh 0
    have hc1 : ¬((A ++ [[]] ++ [[]]).length < 3) := by rw [hplen]; omega
    have hc2 : ¬((A ++ [[]] ++ [[]]).length > 9) := by
      rw [hplen]
      simp only [List.length_cons] at hlen
      omega
    have hlo : (A ++ [[]] ++ [[]]).length - (Gh'.length + 1) - 1 - 1 = 0 := by
      rw [hplen]; omega
    have hc3' : ¬(8 ≤ Gh'.length + 1 + 0) := by
      simp only [List.length_cons] at hlen
      omega
    have hsub : (A ++ [[]] ++ [[]]).length - 0 = (A ++ [[]] ++ [[]]).length := by omega
    simp only [parseIPv6, hsplit, hc1, ite_false]
    simp only [hlast, Bool.false_eq_true, if_false]
    rw [show ([] : List Char).contains '.' = false from rfl]
    simp only [Bool.false_eq_true, if_false]
    simp only [hc2, ite_false]
    simp only [hinter]
    simp only [hheadD, hlastD, Bool.false_eq_true, Bool.false_and, if_false, if_true,
      Bool.true_and, ne_eq, decide_False, not_true_eq_false, hlo]
    simp only [ge_iff_le, hc3', ite_false]
    simp only [hsub, List.drop_length, htake, hfoldA]
    simp only [foldHextets, List.foldl_nil, groupVal, List.length_cons, List.length_nil]
  · -- Gh = a :: Gh', Gl = b :: Gl'
    simp only [if_neg (List.cons_ne_nil a Gh'), if_neg (List.cons_ne_nil b Gl'),
      List.nil_append]
    set A := (a :: Gh').map toHex with hA
    set D := (b :: Gl').map toHex with hD
    have hAlen : A.length = Gh'.length + 1 := by rw [hA]; simp
    have hDlen : D.length = Gl'.length + 1 := by rw [hD]; simp
    have hAne : A ≠ [] := by rw [hA]; simp
    have hDne : D ≠ [] := by rw [hD]; simp
    have hsplit : splitOnChar ':' (joinSep ':' (A ++ [[]] ++ D)) = A ++ [[]] ++ D := by
      apply splitOnChar_joinSep
      · simp [hAne]
      · intro p hp
        simp only [List.append_assoc, List.mem_append, List.mem_singleton] at hp
        rcases hp with hp | hp | hp
        · exact mapToHex_no_colon _ p (by rw [← hA]; exact hp)
        · subst hp; rfl
        · exact mapToHex_no_colon _ p (by rw [← hD]; exact hp)
    have hlast : (A ++ [[]] ++ D).getLast? = D.getLast? := by
      rw [List.append_assoc]
      rw [List.getLast?_append_of_ne_nil _ (by simp [hDne])]
      rw [List.getLast?_append_of_ne_nil _ hDne]
    obtain ⟨lastP, hlastP⟩ : ∃ p, D.getLast? = some p := by
      rcases D with _ | ⟨d, D'⟩
      · exact absurd rfl hDne
      · exact ⟨_, List.getLast?_eq_getLast (d :: D') (by simp)⟩
    have hlastMem : lastP ∈ D := List.mem_of_getLast?_eq_some hlastP
    have hlastNe : lastP ≠ [] := mapToHex_ne_nil _ lastP (hD ▸ hlastMem)
    have hlastDot : lastP.contains '.' = false := mapToHex_no_dot _ lastP (hD ▸ hlastMem)
    have hmid : ((A ++ [[]] ++ D).drop 1).dropLast =
        Gh'.map toHex ++ [[]] ++ D.dropLast := by
      rw [hA]
      simp only [List.map_cons, List.cons_append, List.drop_succ_cons, List.drop_zero]
      exact dropLast_append_ne_nil _ D hDne
    have hinter : interiorEmpties (A ++ [[]] ++ D) = [Gh'.length + 1] := by
      unfold interiorEmpties
      rw [hmid]
      rw [emptyIdxFrom_append]
      rw [emptyIdxFrom_append]
      rw [emptyIdxFrom_nonempty _ (mapToHex_ne_nil Gh') 1]
      rw [emptyIdxFrom_single]
      rw [emptyIdxFrom_nonempty _
        (fun p hp => mapToHex_ne_nil _ p (hD ▸ List.dropLast_subset D hp)) _]
      simp only [List.length_map, List.append_nil, List.nil_append, List.cons.injEq, and_true]
      try omega
    have hplen : (A ++ [[]] ++ D).length = Gh'.length + 1 + 1 + (Gl'.length + 1) := by
      simp only [List.length_append, hAlen, hDlen, List.length_singleton]
      try omega
    have hheadD : ((A ++ [[]] ++ D).headD ['x']).isEmpty = false := by
      rw [hA]
      simp only [List.map_cons, List.cons_append, List.headD_cons]
      simpa [List.isEmpty_iff] using toDigits_ne_nil 16 a (by omega) (by omega)
    have hlastD : ((A ++ [[]] ++ D).getLastD ['x']).isEmpty = false := by
      rw [List.getLastD_eq_getLast?, hlast, hlastP]
      simpa [List.isEmpty_iff] using hlastNe
    have htake : (A ++ [[]] ++ D).take (Gh'.length + 1) = A := by
      rw [List.append_assoc]
      exact List.take_left' hAlen
    have hdrop : (A ++ [[]] ++ D).drop (Gh'.length + 1 + 1) = D := by
      refine List.drop_left' ?_
      simp only [List.length_append, hAlen, List.length_singleton]
    have hfoldA : foldHextets 0 A = some (groupVal 0 (a :: Gh')) := by
      rw [hA]
      exact foldHextets_map_toHex _ hGh 0
    have hfoldD : foldHextets 0 D = some (groupVal 0 (b :: Gl')) := by
      rw [hD]
      exact foldHextets_map_toHex _ hGl 0
    have hlen' : Gh'.length + 1 + (Gl'.length + 1) < 8 := by simpa using hlen
    have hc1 : ¬((A ++ [[]] ++ D).length < 3) := by rw [hplen]; omega
    have hc2 : ¬((A ++ [[]] ++ D).length > 9) := by rw [hplen]; omega
    have hc3 : ¬(Gh'.length + 1 + ((A ++ [[]] ++ D).length - (Gh'.length + 1) - 1) ≥ 8) := by
      rw [hplen]; omega
    have hc3' : ¬(8 ≤ Gh'.length + 1 + ((A ++ [[]] ++ D).length - (Gh'.length + 1) - 1)) := hc3
    have hsub : (A ++ [[]] ++ D).length - ((A ++ [[]] ++ D).length - (Gh'.length + 1) - 1) =
        Gh'.length + 1 + 1 := by rw [hplen]; omega
    simp only [parseIPv6, hsplit, hc1, ite_false]
    simp only [hlast, hlastP, hlastDot, Bool.false_eq_true, if_false]
    simp only [hc2, ite_false]
    simp only [hinter]
    simp only [hheadD, hlastD, Bool.false_eq_true, Bool.false_and, if_false]
    simp only [ge_iff_le, hc3', ite_false]
    simp only [hsub, htake, hdrop, hfoldA, hfoldD]
    have hlo : (A ++ [[]] ++ D).length - (Gh'.length + 1) - 1 = Gl'.length + 1 := by
      rw [hplen]; omega
    simp only [List.length_cons, hlo]

/-- Parsing the uncompressed rendering of exactly eight groups recovers the
value. -/
theorem parseIPv6_full (G : List Nat) (hGlen : G.length = 8) (hG : ∀ g ∈ G, g < 65536) :
    parseIPv6 (joinSep ':' (G.map toHex)) = some (groupVal 0 G) := by
  set H := G.map toHex with hH
  have hHlen : H.length = 8 := by rw [hH, List.length_map, hGlen]
  have hHne : H ≠ [] := by
    intro h
    rw [h] at hHlen
    simp at hHlen
  have hsplit : splitOnChar ':' (joinSep ':' H) = H :=
    splitOnChar_joinSep ':' H hHne (fun p hp => mapToHex_no_colon G p (hH ▸ hp))
  obtain ⟨lastP, hlastP⟩ : ∃ p, H.getLast? = some p := by
    rcases H with _ | ⟨d, H'⟩
    · exact absurd rfl hHne
    · exact ⟨_, List.getLast?_eq_getLast (d :: H') (by simp)⟩
  have hlastMem : lastP ∈ H := List.mem_of_getLast?_eq_some hlastP
  have hlastNe : lastP ≠ [] := mapToHex_ne_nil _ lastP (hH ▸ hlastMem)
  have hlastDot : lastP.contains '.' = false := mapToHex_no_dot _ lastP (hH ▸ hlastMem)
  have hinter : interiorEmpties H = [] := by
    unfold interiorEmpties
    exact emptyIdxFrom_nonempty _
      (fun p hp => mapToHex_ne_nil G p
        (hH ▸ List.drop_subset 1 H (List.dropLast_subset _ hp))) 1
  have hheadD : (H.headD ['x']).isEmpty = false := by
    rcases hHead : H with _ | ⟨h0, H'⟩
    · exact absurd hHead hHne
    · simp only [List.headD_cons]
      have : h0 ∈ H := by rw [hHead]; simp
      simpa [List.isEmpty_iff] using mapToHex_ne_nil G h0 (hH ▸ this)
  have hlastD : (H.getLastD ['x']).isEmpty = false := by
    rw [List.getLastD_eq_getLast?, hlastP]
    simpa [List.isEmpty_iff] using hlastNe
  have hfold : foldHextets 0 H = some (groupVal 0 G) := by
    rw [hH]
    exact foldHextets_map_toHex G hG 0
  have hc1 : ¬(H.length < 3) := by omega
  have hc2 : ¬(H.length > 9) := by omega
  have hc8 : ¬(H.length ≠ 8) := by omega
  simp only [parseIPv6, hsplit, hc1, ite_false]
  simp only [hlastP, hlastDot, Bool.false_eq_true, if_false]
  simp only [hc2, ite_false]
  simp only [hinter]
  simp only [hc8, ite_false]
  simp only [hheadD, hlastD, Bool.false_eq_true, if_false]
  exact hfold

/-- The compressed rendering of any 128-bit value parses back to it. -/
theorem parseIPv6_print (n : Nat) (hn : n < 2 ^ 128) :
    parseIPv6 (ipv6ToChars n) = some n := by
  have hGlen : (v6Hextets n).length = 8 := v6Hextets_length n
  have hGlt : ∀ g ∈ v6Hextets n, g < 65536 := v6Hextets_lt n
  have hGval : groupVal 0 (v6Hextets n) = n := groupVal_v6Hextets n hn
  unfold ipv6ToChars
  by_cases hbl : (bestRun ((v6Hextets n).map toHex)).2 > 1
  · -- compression happens
    set G := v6Hextets n with hG
    set H := G.map toHex with hH
    have hHlen : H.length = 8 := by rw [hH, List.length_map, hGlen]
    obtain ⟨hpos, hrange, hzero⟩ := bestRun_sound H hbl
    have hcomp := compressHextets_shape H hbl hrange
    rw [hcomp]
    generalize hsv : (bestRun H).1.toNat = s at hrange hzero ⊢
    generalize hbv : (bestRun H).2 = bl at hbl hrange hzero ⊢
    have hse : s + bl ≤ 8 := by omega
    have hGz : ∀ j, s ≤ j → j < s + bl → G.get? j = some 0 := by
      intro j hj1 hj2
      have hHj : H.get? j = some ['0'] := hzero j hj1 hj2
      rw [hH, List.get?_map] at hHj
      rcases hGj : G.get? j with _ | g
      · rw [hGj] at hHj; cases hHj
      · rw [hGj] at hHj
        simp only [Option.map_some'] at hHj
        have : toHex g = ['0'] := by injection hHj
        rw [toHex_eq_zero_iff g] at this
        rw [this]
    have hzeros : ∀ g ∈ (G.drop s).take bl, g = 0 := by
      intro g hg
      obtain ⟨i, hi⟩ := List.mem_iff_get?.1 hg
      have hilt : i < bl := by
        obtain ⟨hlt, -⟩ := List.get?_eq_some.1 hi
        have : ((G.drop s).take bl).length ≤ bl := by
          simp [List.length_take]
        omega
      have hi' : (G.drop s).get? i = some g := by
        rw [← hi]
        rw [List.get?_eq_getElem?, List.get?_eq_getElem?]
        exact (List.getElem?_take_of_lt hilt).symm
      have hi'' : G.get? (s + i) = some g := by
        rw [← hi']
        rw [List.get?_eq_getElem?, List.get?_eq_getElem?]
        exact (List.getElem?_drop G s i).symm
      have := hGz (s + i) (by omega) (by omega)
      rw [hi''] at this
      injection this
    have hval : groupVal 0 (G.take s) * 2 ^ (16 * (8 - s)) + groupVal 0 (G.drop (s + bl)) = n := by
      have h1 : G = G.take s ++ G.drop s := (List.take_append_drop s G).symm
      have h2 : G.drop s = (G.drop s).take bl ++ G.drop (s + bl) := by
        have := List.take_append_drop bl (G.drop s)
        rw [List.drop_drop] at this
        exact this.symm
      have hlds : (G.drop s).length = 8 - s := by rw [List.length_drop, hGlen]
      calc groupVal 0 (G.take s) * 2 ^ (16 * (8 - s)) + groupVal 0 (G.drop (s + bl))
          = groupVal 0 (G.take s) * 65536 ^ (8 - s) + groupVal 0 (G.drop (s + bl)) := by
            rw [show (65536 : Nat) = 2 ^ 16 by norm_num, ← pow_mul]
        _ = groupVal 0 (G.take s) * 65536 ^ (G.drop s).length + groupVal 0 (G.drop s) := by
            rw [hlds]
            congr 1
            rw [h2, groupVal_append, groupVal_zeros _ hzeros]
            simp
        _ = groupVal 0 (G.take s ++ G.drop s) := (groupVal_append _ _ 0).symm
        _ = n := by rw [← h1, hGval]
    have htk : H.take s = (G.take s).map toHex := by
      rw [hH, List.map_take]
    have hdr : H.drop (s + bl) = (G.drop (s + bl)).map toHex := by
      rw [hH, List.map_drop]
    have hGhlt : ∀ g ∈ G.take s, g < 65536 := fun g hg => hGlt g (List.take_subset s G hg)
    have hGllt : ∀ g ∈ G.drop (s + bl), g < 65536 :=
      fun g hg => hGlt g (List.drop_subset (s + bl) G hg)
    have hlentk : (G.take s).length = s := by
      rw [List.length_take, hGlen]
      omega
    have hlendr : (G.drop (s + bl)).length = 8 - (s + bl) := by
      rw [List.length_drop, hGlen]
    have hlensum : (G.take s).length + (G.drop (s + bl)).length < 8 := by
      rw [hlentk, hlendr]
      omega
    have hGhnil : G.take s = [] ↔ s = 0 := by
      constructor
      · intro h
        have := congrArg List.length h
        rw [hlentk] at this
        simpa using this
      · intro h
        rw [h, List.take_zero]
    have hGlnil : G.drop (s + bl) = [] ↔ s + bl = H.length := by
      rw [hHlen]
      constructor
      · intro h
        have := congrArg List.length h
        rw [hlendr] at this
        simp at this
        omega
      · intro h
        have : (G.drop (s + bl)).length = 0 := by rw [hlendr, h]
        rcases hd : G.drop (s + bl) with _ | _
        · rfl
        · rw [hd] at this; simp at this
    have hif1 : (if s = 0 then ([[]] : List (List Char)) else []) =
        (if G.take s = [] then [[]] else []) := by
      by_cases h : s = 0
      · rw [if_pos h, if_pos (hGhnil.2 h)]
      · rw [if_neg h, if_neg (fun hc => h (hGhnil.1 hc))]
    have hif2 : (if s + bl = H.length then ([[]] : List (List Char)) else H.drop (s + bl)) =
        (if G.drop (s + bl) = [] then [[]] else (G.drop (s + bl)).map toHex) := by
      by_cases h : G.drop (s + bl) = []
      · rw [if_pos h, if_pos (hGlnil.1 h)]
      · rw [if_neg h, if_neg (fun hc => h (hGlnil.2 hc)), hdr]
    have hmain := parseIPv6_compressed (G.take s) (G.drop (s + bl)) hGhlt hGllt hlensum
    rw [hif1, hif2, htk, hmain, hlentk, hlendr]
    have hexp : 16 * (8 - s - (8 - (s + bl))) + 16 * (8 - (s + bl)) = 16 * (8 - s) := by
      omega
    rw [hexp, hval]
  · -- no compression
    have hcomp : compressHextets ((v6Hextets n).map toHex) = (v6Hextets n).map toHex := by
      unfold compressHextets
      rw [if_neg hbl]
    rw [hcomp]
    rw [parseIPv6_full (v6Hextets n) hGlen hGlt, hGval]

/-- Every hex digit has value below 16. -/
theorem hexVal_lt (c : Char) (h : isHexDigitChar c = true) : hexVal c < 16 := by
  unfold isHexDigitChar at h
  simp only [Bool.or_eq_true, Bool.and_eq_true, decide_eq_true_eq] at h
  unfold hexVal
  split_ifs with hd haf
  · unfold isDigitChar at hd
    simp only [Bool.and_eq_true, decide_eq_true_eq] at hd
    have h2 : c.toNat ≤ 57 := hd.2
    omega
  · simp only [Bool.and_eq_true, decide_eq_true_eq] at haf
    have h2 : c.toNat ≤ 102 := haf.2
    omega
  · rcases h with (hdig | haf') | hAF
    · exact absurd hdig hd
    · exact absurd (by simp [decide_eq_true haf'.1, decide_eq_true haf'.2]) haf
    · have h2 : c.toNat ≤ 70 := hAF.2
      omega

/-- Accumulating hex digits stays below the positional bound. -/
theorem foldDigits16_lt (cs : List Char) :
    ∀ a, cs.all isHexDigitChar = true → foldDigits 16 a cs < (a + 1) * 16 ^ cs.length := by
  induction cs with
  | nil =>
    intro a _
    simpa [foldDigits] using Nat.lt_succ_self a
  | cons c tl ih =>
    intro a hall
    rw [List.all_cons, Bool.and_eq_true] at hall
    have hc := hexVal_lt c hall.1
    have hstep := ih (a * 16 + hexVal c) hall.2
    have hfd : foldDigits 16 a (c :: tl) = foldDigits 16 (a * 16 + hexVal c) tl := rfl
    rw [hfd, List.length_cons]
    calc foldDigits 16 (a * 16 + hexVal c) tl
        < (a * 16 + hexVal c + 1) * 16 ^ tl.length := hstep
      _ ≤ ((a + 1) * 16) * 16 ^ tl.length := Nat.mul_le_mul_right _ (by omega)
      _ = (a + 1) * 16 ^ (tl.length + 1) := by ring

/-- A parsed hextet is a 16-bit value. -/
theorem parse_hextet_lt (cs : List Char) (v : Nat) (h : parse_hextet cs = some v) :
    v < 65536 := by
  unfold parse_hextet at h
  split at h
  · exact Option.noConfusion h
  split at h
  · exact Option.noConfusion h
  split at h
  · exact Option.noConfusion h
  rename_i hall hlen hne
  injection h with h'
  subst h'
  have hall' : cs.all isHexDigitChar = true := by
    revert hall
    cases cs.all isHexDigitChar <;> simp
  have hb := foldDigits16_lt cs 0 hall'
  have hpow : (16 : Nat) ^ cs.length ≤ 16 ^ 4 :=
    Nat.pow_le_pow_right (by omega) (by omega)
  calc foldDigits 16 0 cs < 1 * 16 ^ cs.length := hb
    _ ≤ 16 ^ 4 := by simpa using hpow
    _ ≤ 65536 := by norm_num

/-- A parsed octet is below 256. -/
theorem parse_octet_lt (cs : List Char) (v : Nat) (h : parse_octet cs = some v) : v < 256 := by
  simp only [parse_octet] at h
  split at h
  · exact Option.noConfusion h
  split at h
  · exact Option.noConfusion h
  split at h
  · exact Option.noConfusion h
  split at h
  · exact Option.noConfusion h
  split at h
  · exact Option.noConfusion h
  rename_i hgt
  injection h with h'
  omega

/-- A parsed IPv4 address is a 32-bit value. -/
theorem parseIPv4_lt (cs : List Char) (n : Nat) (h : parseIPv4 cs = some n) : n < 2 ^ 32 := by
  unfold parseIPv4 at h
  split at h
  · rename_i a b c d heq
    simp only [Option.bind_eq_bind, Option.bind_eq_some] at h
    obtain ⟨oa, ha, ob, hb, oc, hc, od, hd, hv⟩ := h
    have la := parse_octet_lt a oa ha
    have lb := parse_octet_lt b ob hb
    have lc := parse_octet_lt c oc hc
    have ld := parse_octet_lt d od hd
    injection hv with hv'
    omega
  · exact Option.noConfusion h

/-- Folding from `none` yields `none` for any absorbing step function. -/
theorem foldl_none_absorb (f : Option Nat → List Char → Option Nat)
    (hf : ∀ p, f none p = none) :
    ∀ l : List (List Char), List.foldl f none l = none := by
  intro l
  induction l with
  | nil => rfl
  | cons p tl ih =>
    rw [List.foldl_cons, hf]
    exact ih

/-- Inversion of one step of `foldHextets`. -/
theorem foldHextets_some (a : Nat) (p : List Char) (tl : List (List Char)) (v : Nat)
    (h : foldHextets a (p :: tl) = some v) :
    ∃ hx, parse_hextet p = some hx ∧ foldHextets (a * 65536 + hx) tl = some v := by
  unfold foldHextets at h ⊢
  rw [List.foldl_cons] at h
  rcases hp : parse_hextet p with _ | hx
  · rw [show ((do
        let a' ← some a
        let h' ← parse_hextet p
        pure (a' * 65536 + h')) : Option Nat) = none by rw [hp]; rfl] at h
    rw [foldl_none_absorb _ (fun q => rfl) tl] at h
    exact Option.noConfusion h
  · refine ⟨hx, rfl, ?_⟩
    rw [show ((do
        let a' ← some a
        let h' ← parse_hextet p
        pure (a' * 65536 + h')) : Option Nat) = some (a * 65536 + hx) by rw [hp]; rfl] at h
    exact h

/-- `foldHextets` stays below the positional bound. -/
theorem foldHextets_lt (ps : List (List Char)) :
    ∀ (a v : Nat), foldHextets a ps = some v → v < (a + 1) * 65536 ^ ps.length := by
  induction ps with
  | nil =>
    intro a v h
    unfold foldHextets at h
    rw [List.foldl_nil] at h
    injection h with h'
    subst h'
    simpa using Nat.lt_succ_self a
  | cons p tl ih =>
    intro a v h
    obtain ⟨hx, hp, htl⟩ := foldHextets_some a p tl v h
    have h1 := ih _ _ htl
    have h2 := parse_hextet_lt p hx hp
    rw [List.length_cons]
    calc v < (a * 65536 + hx + 1) * 65536 ^ tl.length := h1
      _ ≤ ((a + 1) * 65536) * 65536 ^ tl.length := Nat.mul_le_mul_right _ (by omega)
      _ = (a + 1) * 65536 ^ (tl.length + 1) := by ring

/-- The value assembled from the two sides of a `::` is a 128-bit value. -/
theorem v6_value_lt (pH pLo hi lo tk dl : Nat) (hsum : pH + pLo < 8)
    (htk : tk ≤ pH) (hdl : dl ≤ pLo)
    (hhi : hi < 65536 ^ tk) (hlo : lo < 65536 ^ dl) :
    hi * 2 ^ (16 * (8 - pH - pLo) + 16 * pLo) + lo < 2 ^ 128 := by
  have hhi' : hi < 2 ^ (16 * pH) := lt_of_lt_of_le hhi (by
    rw [show (65536 : Nat) = 2 ^ 16 by norm_num, ← pow_mul]
    exact Nat.pow_le_pow_right (by omega) (by omega))
  have hlo' : lo < 2 ^ (16 * pLo) := lt_of_lt_of_le hlo (by
    rw [show (65536 : Nat) = 2 ^ 16 by norm_num, ← pow_mul]
    exact Nat.pow_le_pow_right (by omega) (by omega))
  have hE : 16 * (8 - pH - pLo) + 16 * pLo = 128 - 16 * pH := by omega
  rw [hE]
  have hx : 2 ^ (16 * pLo) ≤ 2 ^ (128 - 16 * pH) :=
    Nat.pow_le_pow_right (by omega) (by omega)
  have hba : 2 ^ (128 - 16 * pH) ≤ 2 ^ 128 :=
    Nat.pow_le_pow_right (by omega) (by omega)
  have hP : 2 ^ (16 * pH) * 2 ^ (128 - 16 * pH) = 2 ^ 128 := by
    rw [← pow_add]
    congr 1
    omega
  have hm : hi * 2 ^ (128 - 16 * pH) ≤ (2 ^ (16 * pH) - 1) * 2 ^ (128 - 16 * pH) :=
    Nat.mul_le_mul_right _ (by omega)
  rw [Nat.sub_mul, one_mul, hP] at hm
  calc hi * 2 ^ (128 - 16 * pH) + lo
      < (2 ^ 128 - 2 ^ (128 - 16 * pH)) + 2 ^ (16 * pLo) :=
        add_lt_add_of_le_of_lt hm hlo'
    _ ≤ (2 ^ 128 - 2 ^ (128 - 16 * pH)) + 2 ^ (128 - 16 * pH) := Nat.add_le_add_left hx _
    _ ≤ 2 ^ 128 := by omega

/-- Bound for the value built in the `::` branch of the IPv6 parser. -/
theorem v6_skip_value_lt (parts : List (List Char)) (pH pLo hi lo n : Nat)
    (hhi : foldHextets 0 (parts.take pH) = some hi)
    (hlo : foldHextets 0 (parts.drop (parts.length - pLo)) = some lo)
    (hsum : pH + pLo < 8)
    (hn : hi * 2 ^ (16 * (8 - pH - pLo) + 16 * pLo) + lo = n) : n < 2 ^ 128 := by
  subst hn
  have hb1 := foldHextets_lt _ 0 hi hhi
  have hb2 := foldHextets_lt _ 0 lo hlo
  rw [Nat.zero_add, one_mul] at hb1 hb2
  refine v6_value_lt pH pLo hi lo _ _ hsum ?_ ?_ hb1 hb2
  · rw [List.length_take]
    exact Nat.min_le_left _ _
  · rw [List.length_drop]
    omega

/-- A parsed IPv6 address is a 128-bit value. -/
theorem parseIPv6_lt (cs : List Char) (n : Nat) (h : parseIPv6 cs = some n) : n < 2 ^ 128 := by
  simp only [parseIPv6] at h
  split at h
  · exact Option.noConfusion h
  split at h
  · exact Option.noConfusion h
  rename_i parts hw
  split at h
  · exact Option.noConfusion h
  rename_i h9
  split at h
  · split at h
    · exact Option.noConfusion h
    rename_i h8
    split at h
    · exact Option.noConfusion h
    split at h
    · exact Option.noConfusion h
    have hb := foldHextets_lt parts 0 n h
    rw [show parts.length = 8 by omega] at hb
    calc n < 1 * 65536 ^ 8 := hb
      _ = 2 ^ 128 := by norm_num
  · rename_i skip hskip
    rcases Bool.eq_false_or_eq_true (parts.getLastD ['x']).isEmpty with hLast | hLast <;>
      rcases Bool.eq_false_or_eq_true (parts.headD ['x']).isEmpty with hHead | hHead <;>
        simp only [hLast, hHead, Bool.true_and, Bool.false_and, Bool.false_eq_true,
          eq_self_iff_true, if_true, if_false, decide_eq_true_eq] at h
    · split at h
      · exact Option.noConfusion h
      split at h
      · exact Option.noConfusion h
      split at h
      · exact Option.noConfusion h
      rename_i hge
      split at h
      · exact Option.noConfusion h
      rename_i hi hhi
      split at h
      · exact Option.noConfusion h
      rename_i lo hlo
      exact v6_skip_value_lt parts _ _ hi lo n hhi hlo (by omega) (Option.some.inj h)
    · split at h
      · exact Option.noConfusion h
      split at h
      · exact Option.noConfusion h
      rename_i hge
      split at h
      · exact Option.noConfusion h
      rename_i hi hhi
      split at h
      · exact Option.noConfusion h
      rename_i lo hlo
      exact v6_skip_value_lt parts _ _ hi lo n hhi hlo (by omega) (Option.some.inj h)
    · split at h
      · exact Option.noConfusion h
      split at h
      · exact Option.noConfusion h
      rename_i hge
      split at h
      · exact Option.noConfusion h
      rename_i hi hhi
      split at h
      · exact Option.noConfusion h
      rename_i lo hlo
      exact v6_skip_value_lt parts _ _ hi lo n hhi hlo (by omega) (Option.some.inj h)
    · split at h
      · exact Option.noConfusion h
      rename_i hge
      split at h
      · exact Option.noConfusion h
      rename_i hi hhi
      split at h
      · exact Option.noConfusion h
      rename_i lo hlo
      exact v6_skip_value_lt parts _ _ hi lo n hhi hlo (by omega) (Option.some.inj h)
  · exact Option.noConfusion h

/-- `parsePrefixString` never exceeds the family maximum. -/
theorem parsePrefixString_le (maxP : Nat) (cs : List Char) (pl : Nat)
    (h : parsePrefixString maxP cs = some pl) : pl ≤ maxP := by
  simp only [parsePrefixString] at h
  split at h
  · split at h
    · injection h with h'
      omega
    · exact Option.noConfusion h
  · exact Option.noConfusion h

/-- `prefixFromIpInt` never exceeds the family maximum. -/
theorem prefixFromIpInt_le (maxP ipInt pl : Nat)
    (h : prefixFromIpInt maxP ipInt = some pl) : pl ≤ maxP := by
  simp only [prefixFromIpInt] at h
  split at h
  · injection h with h'
    omega
  · exact Option.noConfusion h

/-- Any successfully resolved IPv4 netmask is a prefix length of at most 32. -/
theorem makeNetmaskV4_le (cs : List Char) (pl : Nat) (h : makeNetmaskV4 cs = some pl) :
    pl ≤ 32 := by
  unfold makeNetmaskV4 at h
  split at h
  · rename_i p hp
    injection h with h'
    subst h'
    exact parsePrefixString_le 32 cs p hp
  split at h
  · exact Option.noConfusion h
  rename_i ip hip
  split at h
  · rename_i p hp
    injection h with h'
    subst h'
    exact prefixFromIpInt_le 32 ip p hp
  · exact prefixFromIpInt_le 32 _ pl h

/-- Masking host bits is idempotent. -/
theorem maskAddr_idem (b ip pl : Nat) : maskAddr b (maskAddr b ip pl) pl = maskAddr b ip pl := by
  unfold maskAddr
  rw [Nat.mul_div_cancel _ (Nat.pos_pow_of_pos _ (by omega))]

/-- Masking with a full-length prefix changes nothing. -/
theorem maskAddr_full (b ip : Nat) : maskAddr b ip b = ip := by
  unfold maskAddr
  simp [Nat.sub_self]

/-- Masking never increases the address. -/
theorem maskAddr_le (b ip pl : Nat) : maskAddr b ip pl ≤ ip := by
  unfold maskAddr
  exact Nat.div_mul_le_self ip _

/-- Every non-separator character of the input lands in some split part. -/
theorem splitOnCharAux_covers (sep : Char) :
    ∀ (cs acc : List Char) (c : Char), (c ∈ acc ∨ c ∈ cs) → c ≠ sep →
      ∃ p ∈ splitOnCharAux sep cs acc, c ∈ p := by
  intro cs
  induction cs with
  | nil =>
    intro acc c hmem hne
    rcases hmem with hacc | hnil
    · exact ⟨acc.reverse, by simp [splitOnCharAux], by simpa using hacc⟩
    · cases hnil
  | cons d ds ih =>
    intro acc c hmem hne
    by_cases hd : d = sep
    · subst hd
      rw [splitOnCharAux, if_pos rfl]
      rcases hmem with hacc | hcons
      · exact ⟨acc.reverse, by simp, by simpa using hacc⟩
      · rcases List.mem_cons.1 hcons with hcd | hds
        · exact absurd hcd hne
        · obtain ⟨p, hp, hcp⟩ := ih [] c (Or.inr hds) hne
          exact ⟨p, List.mem_cons_of_mem _ hp, hcp⟩
    · rw [splitOnCharAux, if_neg hd]
      rcases hmem with hacc | hcons
      · exact ih (d :: acc) c (Or.inl (List.mem_cons_of_mem _ hacc)) hne
      · rcases List.mem_cons.1 hcons with hcd | hds
        · exact ih (d :: acc) c (Or.inl (hcd ▸ List.mem_cons_self _ _)) hne
        · exact ih (d :: acc) c (Or.inr hds) hne

/-- Characters of a joined list are the separator or characters of a part. -/
theorem mem_joinSep (sep : Char) :
    ∀ (ps : List (List Char)) (c : Char), c ∈ joinSep sep ps →
      c = sep ∨ ∃ p ∈ ps, c ∈ p := by
  intro ps
  induction ps with
  | nil =>
    intro c hc
    cases hc
  | cons p rest ih =>
    intro c hc
    rcases rest with _ | ⟨q, rest'⟩
    · exact Or.inr ⟨p, by simp, by simpa [joinSep] using hc⟩
    · rw [show joinSep sep (p :: q :: rest') = p ++ sep :: joinSep sep (q :: rest') from rfl]
        at hc
      rcases List.mem_append.1 hc with hp | hrest
      · exact Or.inr ⟨p, by simp, hp⟩
      · rcases List.mem_cons.1 hrest with hcs | hj
        · exact Or.inl hcs
        · rcases ih c hj with hcs | ⟨r, hr, hcr⟩
          · exact Or.inl hcs
          · exact Or.inr ⟨r, List.mem_cons_of_mem _ hr, hcr⟩

/-- A join of at least two parts contains the separator. -/
theorem joinSep_mem_sep (sep : Char) (ps : List (List Char)) (h : 2 ≤ ps.length) :
    sep ∈ joinSep sep ps := by
  rcases ps with _ | ⟨p, _ | ⟨q, rest⟩⟩
  · simp at h
  · simp at h
  · rw [show joinSep sep (p :: q :: rest) = p ++ sep :: joinSep sep (q :: rest) from rfl]
    exact List.mem_append.2 (Or.inr (List.mem_cons_self _ _))

/-- Characters of a dotted-quad rendering are digits or dots. -/
theorem ipv4ToChars_mem (n : Nat) (c : Char) (hc : c ∈ ipv4ToChars n) :
    isDigitChar c = true ∨ c = '.' := by
  unfold ipv4ToChars at hc
  rcases mem_joinSep '.' _ c hc with hdot | ⟨p, hp, hcp⟩
  · exact Or.inr hdot
  · left
    simp only [List.mem_cons, List.not_mem_nil, or_false] at hp
    have hall : p.all isDigitChar = true := by
      rcases hp with rfl | rfl | rfl | rfl <;> exact toDec_all_digits _
    exact (List.all_eq_true.1 hall) c hcp

/-- Splice membership helper: elements of `take ++ [[]] ++ drop` come from
the source list or are empty. -/
theorem mem_take_mid_drop (A B : List (List Char)) (s e : Nat) (p : List Char)
    (hp : p ∈ A.take s ++ [[]] ++ A.drop e)
    (hA : ∀ q ∈ A, q ∈ B ∨ q = ([] : List Char)) : p ∈ B ∨ p = [] := by
  rcases List.mem_append.1 hp with h1 | h2
  · rcases List.mem_append.1 h1 with h3 | h4
    · exact hA p (List.take_subset _ _ h3)
    · simp only [List.mem_cons, List.not_mem_nil, or_false] at h4
      exact Or.inr h4
  · exact hA p (List.drop_subset _ _ h2)

/-- Every part of a compressed hextet list is an original part or empty. -/
theorem compressHextets_mem (H : List (List Char)) (p : List Char)
    (hp : p ∈ compressHextets H) : p ∈ H ∨ p = [] := by
  by_cases hbl : (bestRun H).2 > 1
  · have happ : ∀ q ∈ H ++ [[]], q ∈ H ∨ q = ([] : List Char) := by
      intro q hq
      rcases List.mem_append.1 hq with h1 | h2
      · exact Or.inl h1
      · simp only [List.mem_cons, List.not_mem_nil, or_false] at h2
        exact Or.inr h2
    have hid : ∀ q ∈ H, q ∈ H ∨ q = ([] : List Char) := fun q hq => Or.inl hq
    by_cases he8 : (bestRun H).1.toNat + (bestRun H).2 = H.length <;>
      by_cases hs0 : (bestRun H).1.toNat = 0
    · simp only [compressHextets, if_pos hbl, if_pos he8, if_pos hs0] at hp
      rcases List.mem_cons.1 hp with h1 | h2
      · exact Or.inr h1
      · exact mem_take_mid_drop _ H _ _ p h2 happ
    · simp only [compressHextets, if_pos hbl, if_pos he8, if_neg hs0] at hp
      exact mem_take_mid_drop _ H _ _ p hp happ
    · simp only [compressHextets, if_pos hbl, if_neg he8, if_pos hs0] at hp
      rcases List.mem_cons.1 hp with h1 | h2
      · exact Or.inr h1
      · exact mem_take_mid_drop _ H _ _ p h2 hid
    · simp only [compressHextets, if_pos hbl, if_neg he8, if_neg hs0] at hp
      exact mem_take_mid_drop _ H _ _ p hp hid
  · simp only [compressHextets, if_neg hbl] at hp
    exact Or.inl hp

/-- Characters of a compressed IPv6 rendering are hex digits or colons. -/
theorem ipv6ToChars_mem (n : Nat) (c : Char) (hc : c ∈ ipv6ToChars n) :
    isHexDigitChar c = true ∨ c = ':' := by
  unfold ipv6ToChars at hc
  rcases mem_joinSep ':' _ c hc with hcol | ⟨p, hp, hcp⟩
  · exact Or.inr hcol
  · rcases compressHextets_mem _ p hp with hmem | hnil
    · obtain ⟨g, hg, hpg⟩ := List.mem_map.1 hmem
      left
      have hall := toHex_all_hex g
      rw [hpg] at hall
      exact (List.all_eq_true.1 hall) c hcp
    · rw [hnil] at hcp
      cases hcp

/-- The compressed hextet list always keeps at least two fields. -/
theorem compressHextets_length (H : List (List Char)) (h8 : H.length = 8) :
    2 ≤ (compressHextets H).length := by
  by_cases hbl : (bestRun H).2 > 1
  · by_cases he8 : (bestRun H).1.toNat + (bestRun H).2 = H.length <;>
      by_cases hs0 : (bestRun H).1.toNat = 0
    · simp only [compressHextets, if_pos hbl, if_pos he8, if_pos hs0, List.length_cons,
        List.length_append, List.length_take, List.length_drop, List.length_nil]
      omega
    · simp only [compressHextets, if_pos hbl, if_pos he8, if_neg hs0, List.length_cons,
        List.length_append, List.length_take, List.length_drop, List.length_nil]
      omega
    · simp only [compressHextets, if_pos hbl, if_neg he8, if_pos hs0, List.length_cons,
        List.length_append, List.length_take, List.length_drop, List.length_nil]
      omega
    · simp only [compressHextets, if_pos hbl, if_neg he8, if_neg hs0, List.length_cons,
        List.length_append, List.length_take, List.length_drop, List.length_nil]
      omega
  · simp only [compressHextets, if_neg hbl]
    omega

/-- Every compressed IPv6 rendering contains a colon. -/
theorem ipv6ToChars_colon (n : Nat) : ':' ∈ ipv6ToChars n := by
  unfold ipv6ToChars
  apply joinSep_mem_sep
  exact compressHextets_length _ (by rw [List.length_map]; exact v6Hextets_length n)

/-- An octet field containing a non-digit never parses. -/
theorem parse_octet_none_of_bad (p : List Char) (c : Char) (hc : c ∈ p)
    (hbad : isDigitChar c = false) : parse_octet p = none := by
  have hall : p.all isDigitChar = false := by
    rw [List.all_eq_false]
    exact ⟨c, hc, by simp [hbad]⟩
  simp only [parse_octet, hall]
  split
  · rfl
  · rfl

/-- A character list containing a colon never parses as IPv4. -/
theorem parseIPv4_none_of_colon (cs : List Char) (hc : ':' ∈ cs) : parseIPv4 cs = none := by
  unfold parseIPv4
  split
  · rename_i a b c d heq
    obtain ⟨p, hp, hcp⟩ := splitOnCharAux_covers '.' cs [] ':' (Or.inr hc) (by decide)
    rw [show splitOnCharAux '.' cs [] = splitOnChar '.' cs from rfl, heq] at hp
    have hnone : parse_octet p = none := parse_octet_none_of_bad p ':' hcp (by decide)
    simp only [List.mem_cons, List.not_mem_nil, or_false] at hp
    rcases hp with rfl | rfl | rfl | rfl
    · rw [hnone]
      rfl
    · rw [hnone]
      cases parse_octet a <;> rfl
    · rw [hnone]
      cases parse_octet a <;> cases parse_octet b <;> rfl
    · rw [hnone]
      cases parse_octet a <;> cases parse_octet b <;> cases parse_octet c <;> rfl
  · rfl

/-- Invariants of a successful `IPv4Network` parse: family, 32-bit value,
prefix bound, host bits clear, no scope. -/
theorem ipv4Network_inv (cs : List Char) (net : IpNet) (h : ipv4Network cs = some net) :
    net.family = 4 ∧ net.addr < 2 ^ 32 ∧ net.prefixlen ≤ 32 ∧
      maskAddr 32 net.addr net.prefixlen = net.addr ∧ net.scope = none := by
  unfold ipv4Network at h
  split at h
  · rename_i a heq
    simp only [Option.bind_eq_bind, Option.bind_eq_some, Option.pure_def] at h
    obtain ⟨ip, hip, hpure⟩ := h
    injection hpure with h'
    subst h'
    exact ⟨rfl, parseIPv4_lt a ip hip, Nat.le_refl 32, maskAddr_full 32 ip, rfl⟩
  · rename_i a p heq
    simp only [Option.bind_eq_bind, Option.bind_eq_some, Option.pure_def] at h
    obtain ⟨ip, hip, pl, hpl, hpure⟩ := h
    injection hpure with h'
    subst h'
    exact ⟨rfl, lt_of_le_of_lt (maskAddr_le 32 ip pl) (parseIPv4_lt a ip hip),
      makeNetmaskV4_le p pl hpl, maskAddr_idem 32 ip pl, rfl⟩
  · exact Option.noConfusion h

/-- Invariants of a successful scoped IPv6 address parse: 128-bit value and
a nonempty, percent-free scope drawn from the input. -/
theorem parseV6WithScope_inv (a : List Char) (ip : Nat) (sc : Option (List Char))
    (h : parseV6WithScope a = some (ip, sc)) :
    ip < 2 ^ 128 ∧ ∀ z, sc = some z →
      z ≠ [] ∧ (∀ c ∈ z, c ≠ '%') ∧ (∀ c ∈ z, c ∈ a) := by
  unfold parseV6WithScope at h
  split at h
  · rename_i a0 heq
    simp only [Option.bind_eq_bind, Option.bind_eq_some, Option.pure_def] at h
    obtain ⟨v, hv, hpure⟩ := h
    injection hpure with h'
    rw [Prod.mk.injEq] at h'
    obtain ⟨rfl, rfl⟩ := h'
    refine ⟨parseIPv6_lt a0 v hv, ?_⟩
    intro z hz
    exact Option.noConfusion hz
  · rename_i a0 z0 heq
    split at h
    · exact Option.noConfusion h
    rename_i hzE
    simp only [Option.bind_eq_bind, Option.bind_eq_some, Option.pure_def] at h
    obtain ⟨v, hv, hpure⟩ := h
    injection hpure with h'
    rw [Prod.mk.injEq] at h'
    obtain ⟨rfl, rfl⟩ := h'
    refine ⟨parseIPv6_lt a0 v hv, ?_⟩
    intro z hz
    injection hz with hz'
    subst hz'
    have hmem : z0 ∈ splitOnChar '%' a := by
      rw [heq]
      simp
    refine ⟨?_, ?_, ?_⟩
    · intro hnil
      rw [hnil] at hzE
      exact hzE rfl
    · have := splitOnCharAux_parts_no_sep '%' a [] z0 (by decide) hmem
      rw [List.all_eq_true] at this
      intro c hc
      simpa using this c hc
    · intro c hc
      rcases splitOnCharAux_parts_sub '%' a [] z0 c hmem hc with h0 | h1
      · cases h0
      · exact h1
  · exact Option.noConfusion h

/-- Invariants of a successful `IPv6Network` parse. -/
theorem ipv6Network_inv (cs : List Char) (net : IpNet) (h : ipv6Network cs = some net) :
    net.family = 6 ∧ net.addr < 2 ^ 128 ∧ net.prefixlen ≤ 128 ∧
      maskAddr 128 net.addr net.prefixlen = net.addr ∧
      ∀ z, net.scope = some z →
        z ≠ [] ∧ (∀ c ∈ z, c ≠ '%') ∧ (∀ c ∈ z, c ≠ '/') := by
  unfold ipv6Network at h
  split at h
  · rename_i a heq
    simp only [Option.bind_eq_bind, Option.bind_eq_some, Option.pure_def] at h
    obtain ⟨ip, hip, hpure⟩ := h
    injection hpure with h'
    subst h'
    have hip' : parseV6WithScope a = some (ip.1, ip.2) := by
      rw [Prod.mk.eta]
      exact hip
    obtain ⟨hlt, hz⟩ := parseV6WithScope_inv a ip.1 ip.2 hip'
    have hafree : a.all (fun c => c ≠ '/') = true :=
      splitOnCharAux_parts_no_sep '/' cs [] a (by decide) (by rw [show splitOnCharAux '/' cs [] = splitOnChar '/' cs from rfl, heq]; simp)
    refine ⟨rfl, hlt, Nat.le_refl 128, maskAddr_full 128 ip.1, ?_⟩
    intro z hzz
    obtain ⟨h1, h2, h3⟩ := hz z hzz
    refine ⟨h1, h2, ?_⟩
    intro c hc
    have := List.all_eq_true.1 hafree c (h3 c hc)
    simpa using this
  · rename_i a p heq
    simp only [Option.bind_eq_bind, Option.bind_eq_some, Option.pure_def] at h
    obtain ⟨ip, hip, pl, hpl, hpure⟩ := h
    injection hpure with h'
    subst h'
    have hip' : parseV6WithScope a = some (ip.1, ip.2) := by
      rw [Prod.mk.eta]
      exact hip
    obtain ⟨hlt, hz⟩ := parseV6WithScope_inv a ip.1 ip.2 hip'
    have hafree : a.all (fun c => c ≠ '/') = true :=
      splitOnCharAux_parts_no_sep '/' cs [] a (by decide) (by rw [show splitOnCharAux '/' cs [] = splitOnChar '/' cs from rfl, heq]; simp)
    refine ⟨rfl, lt_of_le_of_lt (maskAddr_le 128 ip.1 pl) hlt,
      parsePrefixString_le 128 p pl hpl, maskAddr_idem 128 ip.1 pl, ?_⟩
    intro z hzz
    split at hzz
    · obtain ⟨h1, h2, h3⟩ := hz z hzz
      refine ⟨h1, h2, ?_⟩
      intro c hc
      have := List.all_eq_true.1 hafree c (h3 c hc)
      simpa using this
    · exact Option.noConfusion hzz
  · exact Option.noConfusion h

/-- Reparsing the canonical rendering of a valid IPv4 network yields the
same network. -/
theorem ipv4Network_print (addr pl : Nat) (ha : addr < 2 ^ 32) (hp : pl ≤ 32)
    (hm : maskAddr 32 addr pl = addr) :
    ip_network (netToString ⟨4, addr, pl, none⟩) = some ⟨4, addr, pl, none⟩ := by
  have hA : ∀ c ∈ ipv4ToChars addr, c ≠ '/' := by
    intro c hc hcc
    rcases ipv4ToChars_mem addr c hc with hd | hd
    · rw [hcc] at hd
      exact absurd hd (by decide)
    · rw [hcc] at hd
      exact absurd hd (by decide)
  have hL : (netToString ⟨4, addr, pl, none⟩).toList = ipv4ToChars addr ++ '/' :: toDec pl := by
    simp [netToString, String.toList]
  have hsplit : splitOnChar '/' (ipv4ToChars addr ++ '/' :: toDec pl)
      = [ipv4ToChars addr, toDec pl] := by
    have hj : joinSep '/' [ipv4ToChars addr, toDec pl]
        = ipv4ToChars addr ++ '/' :: toDec pl := rfl
    rw [← hj]
    apply splitOnChar_joinSep
    · simp
    · intro q hq
      simp only [List.mem_cons, List.not_mem_nil, or_false] at hq
      rcases hq with rfl | rfl
      · rw [List.all_eq_true]
        intro c hc
        simpa using hA c hc
      · exact toDec_no_char pl '/' (by decide)
  have h1 : parseIPv4 (ipv4ToChars addr) = some addr := parseIPv4_print addr ha
  have h2 : makeNetmaskV4 (toDec pl) = some pl := by
    simp only [makeNetmaskV4, parsePrefixString_toDec 32 pl hp]
  have hv4 : ipv4Network (netToString ⟨4, addr, pl, none⟩).toList = some ⟨4, addr, pl, none⟩ := by
    rw [hL]
    simp only [ipv4Network, hsplit, h1, h2, Option.bind_eq_bind, Option.some_bind,
      Option.pure_def, hm]
  simp only [ip_network, hv4]

/-- Reparsing the canonical rendering of a valid IPv6 network yields the
same network. -/
theorem ipv6Network_print (addr pl : Nat) (scope : Option (List Char)) (ha : addr < 2 ^ 128)
    (hp : pl ≤ 128) (hm : maskAddr 128 addr pl = addr)
    (hz : ∀ z, scope = some z → z ≠ [] ∧ (∀ c ∈ z, c ≠ '%') ∧ (∀ c ∈ z, c ≠ '/')) :
    ip_network (netToString ⟨6, addr, pl, scope⟩) = some ⟨6, addr, pl, scope⟩ := by
  have hV : ∀ c ∈ ipv6ToChars addr, c ≠ '/' := by
    intro c hc hcc
    rcases ipv6ToChars_mem addr c hc with hd | hd
    · rw [hcc] at hd
      exact absurd hd (by decide)
    · rw [hcc] at hd
      exact absurd hd (by decide)
  have hVp : ∀ c ∈ ipv6ToChars addr, c ≠ '%' := by
    intro c hc hcc
    rcases ipv6ToChars_mem addr c hc with hd | hd
    · rw [hcc] at hd
      exact absurd hd (by decide)
    · rw [hcc] at hd
      exact absurd hd (by decide)
  rcases scope with _ | z
  · have hL : (netToString ⟨6, addr, pl, none⟩).toList
        = ipv6ToChars addr ++ '/' :: toDec pl := by
      simp [netToString, String.toList]
    have hsplit : splitOnChar '/' (ipv6ToChars addr ++ '/' :: toDec pl)
        = [ipv6ToChars addr, toDec pl] := by
      have hj : joinSep '/' [ipv6ToChars addr, toDec pl]
          = ipv6ToChars addr ++ '/' :: toDec pl := rfl
      rw [← hj]
      apply splitOnChar_joinSep
      · simp
      · intro q hq
        simp only [List.mem_cons, List.not_mem_nil, or_false] at hq
        rcases hq with rfl | rfl
        · rw [List.all_eq_true]
          intro c hc
          simpa using hV c hc
        · exact toDec_no_char pl '/' (by decide)
    have h4 : ipv4Network (netToString ⟨6, addr, pl, none⟩).toList = none := by
      rw [hL]
      simp only [ipv4Network, hsplit,
        parseIPv4_none_of_colon (ipv6ToChars addr) (ipv6ToChars_colon addr),
        Option.bind_eq_bind, Option.none_bind]
    have hscope : parseV6WithScope (ipv6ToChars addr) = some (addr, none) := by
      have hself : splitOnChar '%' (ipv6ToChars addr) = [ipv6ToChars addr] := by
        have hj : joinSep '%' [ipv6ToChars addr] = ipv6ToChars addr := rfl
        rw [← hj]
        apply splitOnChar_joinSep
        · simp
        · intro q hq
          simp only [List.mem_cons, List.not_mem_nil, or_false] at hq
          subst hq
          rw [List.all_eq_true]
          intro c hc
          simpa using hVp c hc
      simp only [parseV6WithScope, hself, parseIPv6_print addr ha, Option.bind_eq_bind,
        Option.some_bind, Option.pure_def]
    have h6 : ipv6Network (netToString ⟨6, addr, pl, none⟩).toList = some ⟨6, addr, pl, none⟩ := by
      rw [hL]
      simp only [ipv6Network, hsplit, hscope, parsePrefixString_toDec 128 pl hp,
        Option.bind_eq_bind, Option.some_bind, Option.pure_def, hm, if_pos rfl, if_true]
    simp only [ip_network, h4, h6]
  · obtain ⟨hzne, hzp, hzs⟩ := hz z rfl
    have hL : (netToString ⟨6, addr, pl, some z⟩).toList
        = (ipv6ToChars addr ++ '%' :: z) ++ '/' :: toDec pl := by
      simp [netToString, String.toList]
    have hsplit : splitOnChar '/' ((ipv6ToChars addr ++ '%' :: z) ++ '/' :: toDec pl)
        = [ipv6ToChars addr ++ '%' :: z, toDec pl] := by
      have hj : joinSep '/' [ipv6ToChars addr ++ '%' :: z, toDec pl]
          = (ipv6ToChars addr ++ '%' :: z) ++ '/' :: toDec pl := rfl
      rw [← hj]
      apply splitOnChar_joinSep
      · simp
      · intro q hq
        simp only [List.mem_cons, List.not_mem_nil, or_false] at hq
        rcases hq with rfl | rfl
        · rw [List.all_eq_true]
          intro c hc
          rcases List.mem_append.1 hc with h1 | h2
          · simpa using hV c h1
          · rcases List.mem_cons.1 h2 with h3 | h4
            · subst h3
              decide
            · simpa using hzs c h4
        · exact toDec_no_char pl '/' (by decide)
    have h4 : ipv4Network (netToString ⟨6, addr, pl, some z⟩).toList = none := by
      rw [hL]
      simp only [ipv4Network, hsplit,
        parseIPv4_none_of_colon (ipv6ToChars addr ++ '%' :: z)
          (List.mem_append.2 (Or.inl (ipv6ToChars_colon addr))),
        Option.bind_eq_bind, Option.none_bind]
    have hscope : parseV6WithScope (ipv6ToChars addr ++ '%' :: z) = some (addr, some z) := by
      have hself : splitOnChar '%' (ipv6ToChars addr ++ '%' :: z) = [ipv6ToChars addr, z] := by
        have hj : joinSep '%' [ipv6ToChars addr, z] = ipv6ToChars addr ++ '%' :: z := rfl
        rw [← hj]
        apply splitOnChar_joinSep
        · simp
        · intro q hq
          simp only [List.mem_cons, List.not_mem_nil, or_false] at hq
          rcases hq with rfl | rfl
          · rw [List.all_eq_true]
            intro c hc
            simpa using hVp c hc
          · rw [List.all_eq_true]
            intro c hc
            simpa using hzp c hc
      have hzE : z.isEmpty = false := by
        rcases z with _ | ⟨c, z'⟩
        · exact absurd rfl hzne
        · rfl
      simp only [parseV6WithScope, hself, hzE, Bool.false_eq_true, if_false,
        parseIPv6_print addr ha, Option.bind_eq_bind, Option.some_bind, Option.pure_def]
    have h6 : ipv6Network (netToString ⟨6, addr, pl, some z⟩).toList
        = some ⟨6, addr, pl, some z⟩ := by
      rw [hL]
      simp only [ipv6Network, hsplit, hscope, parsePrefixString_toDec 128 pl hp,
        Option.bind_eq_bind, Option.some_bind, Option.pure_def, hm, if_pos rfl, if_true]
    simp only [ip_network, h4, h6]

/-- Reparsing the canonical rendering of any parsed network yields the same
network (CPython `ip_network(str(n), strict=False) == n`). -/
theorem ip_network_roundtrip (s : String) (net : IpNet) (h : ip_network s = some net) :
    ip_network (netToString net) = some net := by
  unfold ip_network at h
  split at h
  · rename_i net' heq
    injection h with h'
    subst h'
    obtain ⟨hf, ha, hp, hm, hs⟩ := ipv4Network_inv _ net' heq
    obtain ⟨fam, addr, pl, sc⟩ := net'
    have hf' : fam = 4 := hf
    have hs' : sc = none := hs
    subst hf'
    subst hs'
    exact ipv4Network_print addr pl ha hp hm
  · obtain ⟨hf, ha, hp, hm, hs⟩ := ipv6Network_inv _ net h
    obtain ⟨fam, addr, pl, sc⟩ := net
    have hf' : fam = 6 := hf
    subst hf'
    exact ipv6Network_print addr pl sc ha hp hm hs

/-- Membership implies a `true` result from `List.contains`. -/
theorem contains_true_of_mem (l : List Char) (c : Char) (h : c ∈ l) : l.contains c = true := by
  induction l with
  | nil => cases h
  | cons d tl ih =>
    rcases List.mem_cons.1 h with rfl | hm
    · simp [List.contains_cons]
    · simp only [List.contains_cons, Bool.or_eq_true]
      exact Or.inr (ih hm)

/-- Every canonical network rendering contains a slash. -/
theorem netToString_slash (net : IpNet) : '/' ∈ (netToString net).toList := by
  obtain ⟨fam, addr, pl, sc⟩ := net
  exact List.mem_append.2 (Or.inr (List.mem_cons_self _ _))

/-- No canonical network rendering is the literal "default". -/
theorem netToString_ne_default (net : IpNet) : netToString net ≠ "default" := by
  intro h
  have hs := netToString_slash net
  rw [h] at hs
  exact absurd hs (by decide)

/-- Normalizing a canonical rendering that reparses to its own network is a
fixed point. -/
theorem normalize_netToString (net : IpNet) (f : Nat)
    (h : ip_network (netToString net) = some net) :
    normalize_destination (netToString net) f = netToString net := by
  have hc : (netToString net).toList.contains '/' = true :=
    contains_true_of_mem _ _ (netToString_slash net)
  simp only [normalize_destination, if_neg (netToString_ne_default net), hc, if_true, h]

/-- `_normalize_destination` is idempotent. -/
theorem normalize_destination_idem (d : String) (f : Nat) :
    normalize_destination (normalize_destination d f) f = normalize_destination d f := by
  by_cases hdef : d = "default"
  · subst hdef
    simp [normalize_destination]
  · by_cases hsl : d.toList.contains '/' = true
    · rcases hres : ip_network d with _ | net
      · have h1 : normalize_destination d f = d := by
          simp only [normalize_destination, if_neg hdef, hsl, if_true, hres]
        rw [h1]
        simp only [normalize_destination, if_neg hdef, hsl, if_true, hres]
      · have h1 : normalize_destination d f = netToString net := by
          simp only [normalize_destination, if_neg hdef, hsl, if_true, hres]
        rw [h1]
        exact normalize_netToString net f (ip_network_roundtrip d net hres)
    · have hsl' : d.toList.contains '/' = false := by
        revert hsl
        cases d.toList.contains '/' <;> simp
      rcases hres : ip_network (d ++ if f = 4 then "/32" else "/128") with _ | net
      · have h1 : normalize_destination d f = d := by
          simp only [normalize_destination, if_neg hdef, hsl', Bool.false_eq_true, if_false,
            hres]
        rw [h1]
        simp only [normalize_destination, if_neg hdef, hsl', Bool.false_eq_true, if_false,
          hres]
      · have h1 : normalize_destination d f = netToString net := by
          simp only [normalize_destination, if_neg hdef, hsl', Bool.false_eq_true, if_false,
            hres]
        rw [h1]
        exact normalize_netToString net f (ip_network_roundtrip _ net hres)

/-- The prefix length of a network parsed from `addr ++ "/" ++ digits` is
the one denoted by `digits`, whenever the digits are a valid prefix for
both families (or rejected outright by the IPv4 netmask forms). -/
theorem ip_network_concrete_prefix (dl digits : List Char) (plv : Nat) (net : IpNet)
    (hd : ∀ c ∈ dl, c ≠ '/') (hdig : ∀ c ∈ digits, c ≠ '/')
    (h4 : makeNetmaskV4 digits = none ∨ makeNetmaskV4 digits = some plv)
    (h6 : parsePrefixString 128 digits = some plv)
    (h : ip_network (String.mk (dl ++ '/' :: digits)) = some net) :
    net.prefixlen = plv := by
  have hsplit : splitOnChar '/' (dl ++ '/' :: digits) = [dl, digits] := by
    have hj : joinSep '/' [dl, digits] = dl ++ '/' :: digits := rfl
    rw [← hj]
    apply splitOnChar_joinSep
    · simp
    · intro q hq
      simp only [List.mem_cons, List.not_mem_nil, or_false] at hq
      rcases hq with rfl | rfl
      · rw [List.all_eq_true]
        intro c hc
        simpa using hd c hc
      · rw [List.all_eq_true]
        intro c hc
        simpa using hdig c hc
  have hLl : (String.mk (dl ++ '/' :: digits)).toList = dl ++ '/' :: digits := rfl
  unfold ip_network at h
  rw [hLl] at h
  have hv6 : ∀ hv4 : ipv4Network (dl ++ '/' :: digits) = none,
      (ipv6Network (dl ++ '/' :: digits) = some net) → net.prefixlen = plv := by
    intro hv4 h6n
    rcases hp6 : parseV6WithScope dl with _ | ipsc
    · simp only [ipv6Network, hsplit, hp6, Option.bind_eq_bind, Option.none_bind] at h6n
      exact Option.noConfusion h6n
    · simp only [ipv6Network, hsplit, hp6, h6, Option.bind_eq_bind, Option.some_bind,
        Option.pure_def] at h6n
      injection h6n with h'
      subst h'
      rfl
  rcases hp4 : parseIPv4 dl with _ | ip
  · have hv4 : ipv4Network (dl ++ '/' :: digits) = none := by
      simp only [ipv4Network, hsplit, hp4, Option.bind_eq_bind, Option.none_bind]
    rw [hv4] at h
    exact hv6 hv4 h
  · rcases h4 with hmk | hmk
    · have hv4 : ipv4Network (dl ++ '/' :: digits) = none := by
        simp only [ipv4Network, hsplit, hp4, hmk, Option.bind_eq_bind, Option.some_bind,
          Option.none_bind]
      rw [hv4] at h
      exact hv6 hv4 h
    · have hv4 : ipv4Network (dl ++ '/' :: digits)
          = some ⟨4, maskAddr 32 ip plv, plv, none⟩ := by
        simp only [ipv4Network, hsplit, hp4, hmk, Option.bind_eq_bind, Option.some_bind,
          Option.pure_def]
      rw [hv4] at h
      injection h with h'
      subst h'
      rfl

/-- C9: `_normalize_destination` (routing.py lines 85-97) is a total,
idempotent normalization: the literal "default" and unparseable strings are
returned unchanged, a bare host address gains the family's /32 or /128
prefix, and applying the function twice equals applying it once. -/
theorem c9_normalize_total_idempotent :
    (∀ f, normalize_destination "default" f = "default") ∧
    (∀ (d : String) (f : Nat), d ≠ "default" →
      (if d.toList.contains '/' then ip_network d
       else ip_network (d ++ (if f = 4 then "/32" else "/128"))) = none →
      normalize_destination d f = d) ∧
    (∀ (d : String) (f : Nat) (net : IpNet), d ≠ "default" →
      d.toList.contains '/' = false →
      ip_network (d ++ (if f = 4 then "/32" else "/128")) = some net →
      normalize_destination d f = netToString net ∧
        net.prefixlen = (if f = 4 then 32 else 128)) ∧
    (∀ (d : String) (f : Nat),
      normalize_destination (normalize_destination d f) f = normalize_destination d f) := by
  refine ⟨?_, ?_, ?_, ?_⟩
  · intro f
    simp [normalize_destination]
  · intro d f hdef h0
    by_cases hsl : d.toList.contains '/' = true
    · simp only [hsl, if_true] at h0
      simp only [normalize_destination, if_neg hdef, hsl, if_true, h0]
    · have hsl' : d.toList.contains '/' = false := by
        revert hsl
        cases d.toList.contains '/' <;> simp
      simp only [hsl', Bool.false_eq_true, if_false] at h0
      simp only [normalize_destination, if_neg hdef, hsl', Bool.false_eq_true, if_false, h0]
  · intro d f net hdef hslf hsome
    constructor
    · simp only [normalize_destination, if_neg hdef, hslf, Bool.false_eq_true, if_false,
        hsome]
    · have hd : ∀ c ∈ d.toList, c ≠ '/' := by
        intro c hc hcc
        subst hcc
        rw [contains_true_of_mem _ _ hc] at hslf
        exact Bool.noConfusion hslf
      obtain ⟨dl⟩ := d
      by_cases hf : f = 4
      · subst hf
        rw [if_pos rfl] at hsome
        rw [if_pos rfl]
        exact ip_network_concrete_prefix dl ['3', '2'] 32 net hd (by decide)
          (Or.inr (by decide)) (by decide) hsome
      · rw [if_neg hf] at hsome
        rw [if_neg hf]
        exact ip_network_concrete_prefix dl ['1', '2', '8'] 128 net hd (by decide)
          (Or.inl (by decide)) (by decide) hsome
  · intro d f
    exact normalize_destination_idem d f

/-- Witness for C9: the theorem applied to the bare host "10.0.0.1" with
family 4, and to "default". -/
theorem c9_normalize_total_idempotent_witness :
    (("10.0.0.1" : String) ≠ "default" ∧
      "10.0.0.1".toList.contains '/' = false ∧
      ip_network ("10.0.0.1" ++ (if 4 = 4 then "/32" else "/128"))
        = some ⟨4, 167772161, 32, none⟩) ∧
    (normalize_destination "10.0.0.1" 4 = netToString ⟨4, 167772161, 32, none⟩ ∧
      (⟨4, 167772161, 32, none⟩ : IpNet).prefixlen = (if 4 = 4 then 32 else 128)) ∧
    normalize_destination "default" 6 = "default" :=
  ⟨⟨by decide, by decide, by decide⟩,
    c9_normalize_total_idempotent.2.2.1 "10.0.0.1" 4 ⟨4, 167772161, 32, none⟩
      (by decide) (by decide) (by decide),
    c9_normalize_total_idempotent.1 6⟩

/-! ## Embedding of routing.py RouteManager state and helpers -/

/-- Python `s.strip()` for ASCII whitespace. -/
def pyStrip (cs : List Char) : List Char :=
  ((cs.dropWhile pyWhitespace).reverse.dropWhile pyWhitespace).reverse

/-- Python `s.splitlines()`, modelling the line boundary as a newline
character (the only boundary occurring in `ip route` output). -/
def pySplitlines (cs : List Char) : List (List Char) :=
  if cs.isEmpty then []
  else
    let parts := splitOnChar '\n' cs
    if parts.getLast? = some [] then parts.dropLast else parts

/-- Python `a or b` on strings: the first operand unless it is empty. -/
def pyOrStr (a b : List Char) : List Char :=
  if a.isEmpty then b else a

/-- ASCII lowercasing of one character (`str.lower` restricted to the ASCII
range of `ip route` diagnostics). -/
def charLower (c : Char) : Char :=
  if 'A' ≤ c && c ≤ 'Z' then Char.ofNat (c.toNat + 32) else c

/-- A captured route table entry (`_parse_route_line`'s dict): the
destination token plus the optional `via`/`dev`/`metric` attributes. -/
structure RouteEntry where
  destination : String
  via : Option String
  dev : Option String
  metric : Option String
deriving DecidableEq, Repr

/-- The attribute scan of `RouteManager._parse_route_line` (routing.py
lines 155-162): a keyword followed by a value consumes two tokens, anything
else one. -/
def parseRouteAttrs : List String → RouteEntry → RouteEntry
  | [], r => r
  | [_], r => r
  | t :: v :: rest, r =>
    if t = "via" then parseRouteAttrs rest { r with via := some v }
    else if t = "dev" then parseRouteAttrs rest { r with dev := some v }
    else if t = "metric" then parseRouteAttrs rest { r with metric := some v }
    else parseRouteAttrs (v :: rest) r

/-- `RouteManager._parse_route_line` (routing.py lines 151-163); `none`
models the `IndexError` raised on a line without tokens. -/
def parse_route_line (line : String) : Option RouteEntry :=
  match pySplit line with
  | [] => none
  | t0 :: rest => some (parseRouteAttrs rest ⟨t0, none, none, none⟩)

/-- Parse every captured line, propagating the `IndexError` (the dict
returned for a nonempty line is always truthy, so every parsed line is
kept). -/
def parseRouteLines : List (List Char) → Except String (List RouteEntry)
  | [] => .ok []
  | l :: ls =>
    match parse_route_line (String.mk l) with
    | none => .error "IndexError"
    | some r =>
      match parseRouteLines ls with
      | .error e => .error e
      | .ok rest => .ok (r :: rest)

/-- Result of an external `ip` invocation (returncode, stdout, stderr). -/
structure RunResult where
  code : Int
  stdout : String
  stderr : String
deriving DecidableEq, Repr

/-- The external world of RouteManager: `subprocess.run` for route
captures, `_run_privileged` for mutations (both indexed by a global call
counter so successive calls may differ), DNS resolution, the visible
interface set, and the outcome of interface detection/settling. -/
structure RouteEnv where
  run : List String → Nat → RunResult
  priv : List String → Nat → RunResult
  dns : ResolverEnv
  interfaces : List String
  detected : Option String
  ifaceReady : String → Bool

/-- A route installed by `apply_routes` (the `AppliedRoute` dataclass). -/
structure AppliedRoute where
  destination : String
  interface : String
  family : Nat
  replaced : Bool
  previous : Option RouteEntry
  removed : List RouteEntry
deriving DecidableEq, Repr

/-- RouteManager bookkeeping plus the externally visible effects: the
session route dict, the pending-restore dict, the external call counter,
and the ordered trace of privileged commands issued. -/
structure RMState where
  sessionRoutes : List (String × List AppliedRoute)
  pendingRestores : List (String × List (Nat × RouteEntry))
  ticks : Nat
  privCmds : List (List String)
deriving DecidableEq, Repr

/-- `dict.pop(k, default)`: the removed value (if any) and the remaining
association list. -/
def popA {α : Type} (k : String) : List (String × α) → Option α × List (String × α)
  | [] => (none, [])
  | (k', v) :: rest =>
    if k' = k then (some v, rest)
    else
      let (r, rest') := popA k rest
      (r, (k', v) :: rest')

/-- `d[k] = v`: replace in place or append. -/
def setA {α : Type} (k : String) (v : α) : List (String × α) → List (String × α)
  | [] => [(k, v)]
  | (k', v') :: rest =>
    if k' = k then (k', v) :: rest else (k', v') :: setA k v rest

/-- `d.setdefault(k, []).extend(vs)`. -/
def appendA {α : Type} (k : String) (vs : List α) : List (String × List α) → List (String × List α)
  | [] => [(k, vs)]
  | (k', v') :: rest =>
    if k' = k then (k', v' ++ vs) :: rest else (k', v') :: appendA k vs rest

/-- Issue one privileged command: consult the oracle, advance the counter,
record the command. -/
def runPriv (env : RouteEnv) (st : RMState) (cmd : List String) : RunResult × RMState :=
  (env.priv cmd st.ticks,
    { st with ticks := st.ticks + 1, privCmds := st.privCmds ++ [cmd] })

/-- Issue one unprivileged capture command (`subprocess.run`). -/
def runShow (env : RouteEnv) (st : RMState) (cmd : List String) : RunResult × RMState :=
  (env.run cmd st.ticks, { st with ticks := st.ticks + 1 })

/-- `RouteManager._build_route_command` (routing.py lines 113-130); an
empty interface string is falsy in Python and omitted. -/
def build_route_command (action destination : String) (interface : Option String)
    (family : Nat) (metric : Option Nat) : List String :=
  ["ip"] ++ (if family = 6 then ["-6"] else []) ++ ["route", action, destination] ++
    (match interface with
     | some i => if i = "" then [] else ["dev", i]
     | none => []) ++
    (match metric with
     | some m => ["metric", String.mk (toDec m)]
     | none => [])

/-- The `ip [-6] route flush cache` command built inline at several call
sites. -/
def flushCacheCmd (family : Nat) : List String :=
  ["ip"] ++ (if family = 6 then ["-6"] else []) ++ ["route", "flush", "cache"]

/-- `RouteManager._capture_existing_route` (routing.py lines 132-149). -/
def capture_existing_route (env : RouteEnv) (st : RMState) (destination : String)
    (family : Nat) : Except String (List RouteEntry × RMState) :=
  let cmd := ["ip"] ++ (if family = 6 then ["-6"] else []) ++ ["route", "show", destination]
  let (res, st') := runShow env st cmd
  if res.code ≠ 0 then .ok ([], st')
  else
    let lines := pySplitlines (pyStrip res.stdout.toList)
    if lines.isEmpty then .ok ([], st')
    else
      match parseRouteLines lines with
      | .error e => .error e
      | .ok routes => .ok (routes, st')

/-- `RouteManager._restore_previous_route` (routing.py lines 165-195):
`entry = data or route.previous`; a missing entry returns False, otherwise
an `ip route replace` carrying exactly the captured via/dev/metric is
issued and its exit code reported. -/
def restore_previous_route (env : RouteEnv) (st : RMState) (family : Nat)
    (previous : Option RouteEntry) (data : Option RouteEntry) : Bool × RMState :=
  match (match data with
         | some e => some e
         | none => previous) with
  | none => (false, st)
  | some entry =>
    let cmd := ["ip"] ++ (if family = 6 then ["-6"] else []) ++
      ["route", "replace", entry.destination] ++
      (match entry.via with
       | some v => ["via", v]
       | none => []) ++
      (match entry.dev with
       | some d => ["dev", d]
       | none => []) ++
      (match entry.metric with
       | some m => ["metric", m]
       | none => [])
    let (res, st') := runPriv env st cmd
    (res.code = 0, st')

/-- The restoration loop of `_restore_removed_routes` (routing.py lines
215-221): attempt every removed entry, collecting failures. -/
def restoreRemovedGo (env : RouteEnv) (family : Nat) :
    List RouteEntry → RMState → Bool → List (Nat × RouteEntry) →
      Bool × List (Nat × RouteEntry) × RMState
  | [], st, restored, failed => (restored, failed, st)
  | e :: es, st, restored, failed =>
    let (ok, st') := restore_previous_route env st family none (some e)
    if ok then restoreRemovedGo env family es st' true failed
    else restoreRemovedGo env family es st' restored (failed ++ [(family, e)])

/-- `RouteManager._restore_removed_routes` (routing.py lines 197-239). -/
def restore_removed_routes (env : RouteEnv) (session_id : String) (family : Nat)
    (removed_entries : List RouteEntry) (st : RMState) : RMState :=
  if removed_entries.isEmpty then st
  else
    let (restored, failed, st1) := restoreRemovedGo env family removed_entries st false []
    let st2 := if restored then (runPriv env st1 (flushCacheCmd family)).2 else st1
    if failed.isEmpty then st2
    else { st2 with pendingRestores := appendA session_id failed st2.pendingRestores }

/-- The duplicate-processing loop inside `apply_routes` (routing.py lines
301-333): accumulate unseen signatures into `removed_entries` and issue a
device-specific delete for every entry whose `dev` is truthy. -/
def processDuplicates (env : RouteEnv) (cdest : String) (family : Nat) :
    List RouteEntry → List RouteEntry → List (String × String × String × String) → RMState →
      List RouteEntry × List (String × String × String × String) × RMState
  | [], removed, seen, st => (removed, seen, st)
  | e :: es, removed, seen, st =>
    let sig : String × String × String × String :=
      (e.destination, e.dev.getD "", e.via.getD "", e.metric.getD "")
    let (removed', seen') :=
      if sig ∈ seen then (removed, seen) else (removed ++ [e], seen ++ [sig])
    let st' :=
      match e.dev with
      | some d =>
        if d = "" then st
        else (runPriv env st (build_route_command "del" cdest (some d) family none)).2
      | none => st
    processDuplicates env cdest family es removed' seen' st'

/-- Outcome of one iteration of the `while True` loop in `apply_routes`. -/
inductive DestIter where
  | done (r : Option AppliedRoute)
  | retry
deriving DecidableEq, Repr

/-- One iteration of the per-destination `while True` loop of
`apply_routes` (routing.py lines 285-404): capture and remove duplicates,
attempt the add at metric 0, and classify the outcome (success, retryable
"exists" failure on the first attempt, or final failure with restoration of
the removed entries). -/
def processDestIter (env : RouteEnv) (session_id interface cdest : String) (family : Nat)
    (attempt : Nat) (removed : List RouteEntry)
    (seen : List (String × String × String × String)) (st : RMState) :
    Except String ((DestIter × List RouteEntry × List (String × String × String × String))
      × RMState) :=
  match capture_existing_route env st cdest family with
  | .error e => .error e
  | .ok (duplicates, st1) =>
    let (removed1, seen1, st2) :=
      if duplicates.isEmpty then (removed, seen, st1)
      else
        let st1a := (runPriv env st1 (build_route_command "del" cdest none family none)).2
        let (r, s, st1b) := processDuplicates env cdest family duplicates removed seen st1a
        let st1c := (runPriv env st1b (flushCacheCmd family)).2
        (r, s, st1c)
    let (addRes, st3) :=
      runPriv env st2 (build_route_command "add" cdest (some interface) family (some 0))
    let message := pyOrStr (pyStrip addRes.stderr.toList) (pyStrip addRes.stdout.toList)
    if addRes.code = 0 then
      match capture_existing_route env st3 cdest family with
      | .error e => .error e
      | .ok (_, st4) =>
        .ok ((.done (some ⟨cdest, interface, family, !removed1.isEmpty, removed1.head?,
          removed1⟩), removed1, seen1), st4)
    else if ¬message.isEmpty ∧ containsSubList (message.map charLower) "exists".toList
        ∧ attempt = 0 then
      .ok ((.retry, removed1, seen1), st3)
    else
      let st4 :=
        if removed1.isEmpty then st3
        else restore_removed_routes env session_id family removed1 st3
      .ok ((.done none, removed1, seen1), st4)

/-- The full per-destination loop: at most one retry (the `attempt`
counter permits `continue` only when it is 0, so the loop body runs at most
twice; the second `.retry` arm is unreachable). -/
def processDest (env : RouteEnv) (session_id interface cdest : String) (family : Nat)
    (st : RMState) : Except String (Option AppliedRoute × RMState) :=
  match processDestIter env session_id interface cdest family 0 [] [] st with
  | .error e => .error e
  | .ok ((.done r, _, _), st') => .ok (r, st')
  | .ok ((.retry, removed1, seen1), st') =>
    match processDestIter env session_id interface cdest family 1 removed1 seen1 st' with
    | .error e => .error e
    | .ok ((.done r, _, _), st'') => .ok (r, st'')
    | .ok ((.retry, _, _), st'') => .ok (none, st'')

/-- The inner destination loop of `apply_routes` (routing.py lines
280-404): normalize each resolved destination and process it, collecting
the successfully applied routes. -/
def applyTargetsGo (env : RouteEnv) (session_id interface : String) :
    List (String × Nat) → List AppliedRoute → RMState →
      Except String (List AppliedRoute × RMState)
  | [], applied, st => .ok (applied, st)
  | (dest, family) :: rest, applied, st =>
    let cdest := normalize_destination dest family
    match processDest env session_id interface cdest family st with
    | .error e => .error e
    | .ok (none, st') => applyTargetsGo env session_id interface rest applied st'
    | .ok (some r, st') => applyTargetsGo env session_id interface rest (applied ++ [r]) st'

/-- The target loop of `apply_routes`: resolution failures and empty
resolutions are skipped (`continue`). -/
def applyEntriesGo (env : RouteEnv) (session_id interface : String) :
    List String → List AppliedRoute → RMState →
      Except String (List AppliedRoute × RMState)
  | [], applied, st => .ok (applied, st)
  | t :: ts, applied, st =>
    match resolve_targets env.dns t with
    | none => applyEntriesGo env session_id interface ts applied st
    | some dests =>
      match applyTargetsGo env session_id interface dests applied st with
      | .error e => .error e
      | .ok (applied', st') => applyEntriesGo env session_id interface ts applied' st'

/-- `RouteManager.apply_routes` (routing.py lines 241-405).  Interface
detection and the settle polls are represented by the environment's
`detected` and `ifaceReady` oracles. -/
def apply_routes (env : RouteEnv) (session_id : String) (targets : List String)
    (interface_hint : Option String) (st : RMState) : Except String RMState :=
  if targets.isEmpty then .ok st
  else
    let iface? :=
      match interface_hint with
      | some i => if i = "" then env.detected else some i
      | none => env.detected
    match iface? with
    | none => .ok st
    | some interface =>
      if interface = "" then .ok st
      else if !env.ifaceReady interface then .ok st
      else
        match applyEntriesGo env session_id interface targets [] st with
        | .error e => .error e
        | .ok (applied, st') =>
          if applied.isEmpty then .ok st'
          else .ok { st' with sessionRoutes := setA session_id applied st'.sessionRoutes }

/-- The cross-session restore scan over one session's routes (routing.py
lines 455-511): the first matching route on a visible interface is re-added
at metric 0; success or an "exists" diagnostic marks restoration, clears
the stored `replaced` flag and stops the scan; every attempt is followed by
a cache flush with the cleaned route's family. -/
def crossRestoreRoutes (env : RouteEnv) (ndest : String) (flushFam : Nat) :
    List AppliedRoute → RMState → List AppliedRoute × Bool × RMState
  | [], st => ([], false, st)
  | r :: rs, st =>
    if normalize_destination r.destination r.family ≠ ndest then
      let (rs', res, st') := crossRestoreRoutes env ndest flushFam rs st
      (r :: rs', res, st')
    else if r.interface ∉ env.interfaces then
      let (rs', res, st') := crossRestoreRoutes env ndest flushFam rs st
      (r :: rs', res, st')
    else
      let (addRes, st1) :=
        runPriv env st (build_route_command "add" ndest (some r.interface) r.family (some 0))
      let message := pyOrStr (pyStrip addRes.stderr.toList) (pyStrip addRes.stdout.toList)
      let restored := addRes.code = 0 ∨
        (¬message.isEmpty ∧ containsSubList (message.map charLower) "exists".toList)
      let st2 := (runPriv env st1 (flushCacheCmd flushFam)).2
      if restored then ({ r with replaced := false } :: rs, true, st2)
      else
        let (rs', res, st') := crossRestoreRoutes env ndest flushFam rs st2
        (r :: rs', res, st')

/-- The outer cross-session scan (`for other_session, routes in
self._session_routes.items()` with `if restored: break`). -/
def crossRestoreSessions (env : RouteEnv) (ndest : String) (flushFam : Nat) :
    List (String × List AppliedRoute) → RMState →
      List (String × List AppliedRoute) × Bool × RMState
  | [], st => ([], false, st)
  | (sid, routes) :: rest, st =>
    let (routes', res, st') := crossRestoreRoutes env ndest flushFam routes st
    if res then ((sid, routes') :: rest, true, st')
    else
      let (rest', res2, st2) := crossRestoreSessions env ndest flushFam rest st'
      ((sid, routes') :: rest', res2, st2)

/-- The removed-entry restoration loop of `cleanup` (routing.py lines
512-521): restore entries in order, flushing and stopping at the first
success. -/
def removedRestoreGo (env : RouteEnv) (family : Nat) :
    List RouteEntry → RMState → Bool × RMState
  | [], st => (false, st)
  | e :: es, st =>
    let (ok, st1) := restore_previous_route env st family none (some e)
    if ok then (true, (runPriv env st1 (flushCacheCmd family)).2)
    else removedRestoreGo env family es st1

/-- Cleanup of one applied route (the body of the `for route in applied`
loop, routing.py lines 414-539): delete the override, flush, then try the
cross-session restore, the removed-entry restores, and finally the
captured `previous` entry. -/
def cleanupRoute (env : RouteEnv) (route : AppliedRoute) (st : RMState) : RMState :=
  let st1 := (runPriv env st
    (build_route_command "del" route.destination (some route.interface) route.family none)).2
  let st2 := (runPriv env st1 (flushCacheCmd route.family)).2
  let (sr', restored, st3) :=
    crossRestoreSessions env route.destination route.family st2.sessionRoutes st2
  let st4 := { st3 with sessionRoutes := sr' }
  if restored then st4
  else
    let (rr, st5) := removedRestoreGo env route.family route.removed st4
    if rr then st5
    else
      match route.previous with
      | none => st5
      | some _ =>
        let (ok, st6) := restore_previous_route env st5 route.family route.previous none
        if ok then (runPriv env st6 (flushCacheCmd route.family)).2 else st6

/-- The pending-restoration loop of `cleanup` (routing.py lines 540-555):
restore each queued entry, recording the families that saw a success. -/
def pendingGo (env : RouteEnv) :
    List (Nat × RouteEntry) → RMState → List Nat → List Nat × RMState
  | [], st, fams => (fams, st)
  | (family, e) :: rest, st, fams =>
    let (ok, st') := restore_previous_route env st family none (some e)
    let fams' := if ok then (if family ∈ fams then fams else fams ++ [family]) else fams
    pendingGo env rest st' fams'

/-- The per-family cache flushes after pending restorations (routing.py
lines 556-566). -/
def flushFamiliesGo (env : RouteEnv) : List Nat → RMState → RMState
  | [], st => st
  | f :: fs, st => flushFamiliesGo env fs ((runPriv env st (flushCacheCmd f)).2)

/-- `RouteManager.cleanup` (routing.py lines 407-566). -/
def cleanup (env : RouteEnv) (session_id : String) (st : RMState) : RMState :=
  let (appliedO, sr') := popA session_id st.sessionRoutes
  let applied := appliedO.getD []
  let (pendingO, pr') := popA session_id st.pendingRestores
  let pending := pendingO.getD []
  let st0 := { st with sessionRoutes := sr', pendingRestores := pr' }
  if applied.isEmpty && pending.isEmpty then st0
  else
    let st1 := applied.foldl (fun s r => cleanupRoute env r s) st0
    if pending.isEmpty then st1
    else
      let (fams, st2) := pendingGo env pending st1 []
      flushFamiliesGo env fams st2

/-- The destination/family pair produced for a target that is already a
valid CIDR (statement helper for the benign-environment theorems). -/
def cidrDest (t : String) : String × Nat :=
  match ip_network t with
  | some net => (netToString net, net.family)
  | none => (t, 4)

/-- Under an environment where captures are empty and all privileged
commands succeed, one destination is processed with exactly one add. -/
theorem processDest_benign (env : RouteEnv)
    (hrun : ∀ cmd n, env.run cmd n = ⟨0, "", ""⟩)
    (hpriv : ∀ cmd n, env.priv cmd n = ⟨0, "", ""⟩)
    (sid iface cdest : String) (family : Nat) (st : RMState) :
    processDest env sid iface cdest family st =
      .ok (some ⟨cdest, iface, family, false, none, []⟩,
        { st with
            ticks := st.ticks + 1 + 1 + 1,
            privCmds := st.privCmds ++
              [build_route_command "add" cdest (some iface) family (some 0)] }) := by
  have hcap : ∀ s : RMState, capture_existing_route env s cdest family =
      .ok ([], { s with ticks := s.ticks + 1 }) := by
    intro s
    simp [capture_existing_route, runShow, hrun, pyStrip, pySplitlines]
  simp [processDest, processDestIter, hcap, runPriv, hpriv, pyOrStr, pyStrip]

/-- Benign processing of a list of resolved destinations. -/
theorem applyTargetsGo_benign (env : RouteEnv)
    (hrun : ∀ cmd n, env.run cmd n = ⟨0, "", ""⟩)
    (hpriv : ∀ cmd n, env.priv cmd n = ⟨0, "", ""⟩)
    (sid iface : String) (dests : List (String × Nat)) :
    ∀ (applied : List AppliedRoute) (st : RMState),
      applyTargetsGo env sid iface dests applied st =
        .ok (applied ++ dests.map (fun d =>
            ⟨normalize_destination d.1 d.2, iface, d.2, false, none, []⟩),
          { st with
              ticks := st.ticks + 3 * dests.length,
              privCmds := st.privCmds ++ dests.map (fun d =>
                build_route_command "add" (normalize_destination d.1 d.2)
                  (some iface) d.2 (some 0)) }) := by
  induction dests with
  | nil =>
    intro applied st
    simp [applyTargetsGo]
  | cons d rest ih =>
    intro applied st
    obtain ⟨dest, family⟩ := d
    simp only [applyTargetsGo, processDest_benign env hrun hpriv sid iface, ih]
    simp only [List.map_cons, List.length_cons]
    have hti : st.ticks + 1 + 1 + 1 + 3 * rest.length = st.ticks + 3 * (rest.length + 1) := by
      omega
    rw [hti]
    simp [List.append_assoc]

/-- Benign processing of a target list of valid CIDRs: one add per target,
with the canonical destination string. -/
theorem applyEntriesGo_benign (env : RouteEnv)
    (hrun : ∀ cmd n, env.run cmd n = ⟨0, "", ""⟩)
    (hpriv : ∀ cmd n, env.priv cmd n = ⟨0, "", ""⟩)
    (sid iface : String) (targets : List String)
    (hv : ∀ t ∈ targets, ∃ net, ip_network t = some net) :
    ∀ (applied : List AppliedRoute) (st : RMState),
      applyEntriesGo env sid iface targets applied st =
        .ok (applied ++ targets.map (fun t =>
            ⟨(cidrDest t).1, iface, (cidrDest t).2, false, none, []⟩),
          { st with
              ticks := st.ticks + 3 * targets.length,
              privCmds := st.privCmds ++ targets.map (fun t =>
                build_route_command "add" (cidrDest t).1 (some iface)
                  (cidrDest t).2 (some 0)) }) := by
  induction targets with
  | nil =>
    intro applied st
    simp [applyEntriesGo]
  | cons t rest ih =>
    intro applied st
    obtain ⟨net, hnet⟩ := hv t (by simp)
    have hnorm : normalize_destination (netToString net) net.family = netToString net :=
      normalize_netToString net net.family (ip_network_roundtrip t net hnet)
    have hres : resolve_targets env.dns t = some [(netToString net, net.family)] := by
      simp [resolve_targets, hnet]
    have hcd : cidrDest t = (netToString net, net.family) := by
      simp [cidrDest, hnet]
    simp only [applyEntriesGo, hres,
      applyTargetsGo_benign env hrun hpriv sid iface,
      ih (fun t ht => hv t (by simp [ht]))]
    simp only [List.map_cons, List.map_nil, List.length_cons, List.length_singleton,
      List.length_nil, hcd, hnorm]
    have hti : st.ticks + 3 * 1 + 3 * rest.length = st.ticks + 3 * (rest.length + 1) := by
      omega
    rw [hti]
    simp [List.append_assoc]

/-- Benign full `apply_routes`: the session records one route per target
and the privileged trace gains exactly the per-target adds. -/
theorem apply_routes_benign (env : RouteEnv)
    (hrun : ∀ cmd n, env.run cmd n = ⟨0, "", ""⟩)
    (hpriv : ∀ cmd n, env.priv cmd n = ⟨0, "", ""⟩)
    (sid iface : String) (targets : List String)
    (hv : ∀ t ∈ targets, ∃ net, ip_network t = some net)
    (hne : targets ≠ []) (hiface : iface ≠ "")
    (hready : env.ifaceReady iface = true) (st : RMState) :
    apply_routes env sid targets (some iface) st =
      .ok { st with
        sessionRoutes := setA sid (targets.map (fun t =>
          ⟨(cidrDest t).1, iface, (cidrDest t).2, false, none, []⟩)) st.sessionRoutes,
        ticks := st.ticks + 3 * targets.length,
        privCmds := st.privCmds ++ targets.map (fun t =>
          build_route_command "add" (cidrDest t).1 (some iface) (cidrDest t).2 (some 0)) } := by
  have hE : targets.isEmpty = false := by
    cases targets with
    | nil => exact absurd rfl hne
    | cons a l => rfl
  have hE2 : (targets.map (fun t =>
      (⟨(cidrDest t).1, iface, (cidrDest t).2, false, none, []⟩ : AppliedRoute))).isEmpty
        = false := by
    cases targets with
    | nil => exact absurd rfl hne
    | cons a l => rfl
  simp only [apply_routes, hE, Bool.false_eq_true, if_false, if_neg hiface,
    hready, Bool.not_true,
    applyEntriesGo_benign env hrun hpriv sid iface targets hv [] st,
    List.nil_append, hE2]

/-- Benign cleanup of one route with nothing to restore: one delete and
one flush. -/
theorem cleanupRoute_benign (env : RouteEnv)
    (hpriv : ∀ cmd n, env.priv cmd n = ⟨0, "", ""⟩)
    (r : AppliedRoute) (hrem : r.removed = []) (hprev : r.previous = none)
    (st : RMState) (hsr : st.sessionRoutes = []) :
    cleanupRoute env r st =
      { st with
          sessionRoutes := [],
          ticks := st.ticks + 1 + 1,
          privCmds := st.privCmds ++
            [build_route_command "del" r.destination (some r.interface) r.family none,
             flushCacheCmd r.family] } := by
  simp [cleanupRoute, runPriv, hpriv, hsr, crossRestoreSessions, hrem, hprev,
    removedRestoreGo]

/-- Benign cleanup of a route list: a delete and a flush per route, in
order. -/
theorem cleanupRoutes_fold_benign (env : RouteEnv)
    (hpriv : ∀ cmd n, env.priv cmd n = ⟨0, "", ""⟩) :
    ∀ (routes : List AppliedRoute),
      (∀ r ∈ routes, r.removed = [] ∧ r.previous = none) →
      ∀ (st : RMState), st.sessionRoutes = [] →
      routes.foldl (fun s r => cleanupRoute env r s) st =
        { st with
            sessionRoutes := [],
            ticks := st.ticks + 2 * routes.length,
            privCmds := st.privCmds ++ (routes.map (fun r =>
              [build_route_command "del" r.destination (some r.interface) r.family none,
               flushCacheCmd r.family])).join } := by
  intro routes
  induction routes with
  | nil =>
    intro _ st hsr
    simp [← hsr]
  | cons r rest ih =>
    intro hall st hsr
    rw [List.foldl_cons,
      cleanupRoute_benign env hpriv r (hall r (by simp)).1 (hall r (by simp)).2 st hsr,
      ih (fun q hq => hall q (by simp [hq])) _ rfl]
    simp only [List.map_cons, List.join_cons, List.length_cons]
    have hti : st.ticks + 1 + 1 + 2 * rest.length = st.ticks + 2 * (rest.length + 1) := by
      omega
    rw [hti]
    simp [List.append_assoc]

/-- Benign cleanup of a freshly applied session: deletes and flushes for
exactly the applied routes, emptying the bookkeeping. -/
theorem cleanup_benign (env : RouteEnv)
    (hpriv : ∀ cmd n, env.priv cmd n = ⟨0, "", ""⟩)
    (sid : String) (applied : List AppliedRoute) (hne : applied ≠ [])
    (hall : ∀ r ∈ applied, r.removed = [] ∧ r.previous = none)
    (st : RMState) (hsr : st.sessionRoutes = [(sid, applied)])
    (hpr : st.pendingRestores = []) :
    cleanup env sid st =
      { st with
          sessionRoutes := [],
          pendingRestores := [],
          ticks := st.ticks + 2 * applied.length,
          privCmds := st.privCmds ++ (applied.map (fun r =>
            [build_route_command "del" r.destination (some r.interface) r.family none,
             flushCacheCmd r.family])).join } := by
  have hE : applied.isEmpty = false := by
    cases applied with
    | nil => exact absurd rfl hne
    | cons a l => rfl
  simp only [cleanup, hsr, hpr, popA, eq_self_iff_true, if_true, Option.getD_some,
    Option.getD_none, hE, List.isEmpty_nil, Bool.and_true, Bool.false_and,
    Bool.false_eq_true, if_false]
  rw [cleanupRoutes_fold_benign env hpriv applied hall _ rfl]

/-- Cleanup of a session with no bookkeeping entries changes nothing. -/
theorem cleanup_noop (env : RouteEnv) (sid : String) (st : RMState)
    (hsr : st.sessionRoutes = []) (hpr : st.pendingRestores = []) :
    cleanup env sid st = st := by
  obtain ⟨sr, pr, tk, pc⟩ := st
  have h1 : sr = [] := hsr
  have h2 : pr = [] := hpr
  subst h1
  subst h2
  simp [cleanup, popA]

/-- Destination extractor for `ip route add` commands (statement helper). -/
def addCmdDest : List String → Option String
  | "ip" :: "-6" :: "route" :: "add" :: d :: _ => some d
  | "ip" :: "route" :: "add" :: d :: _ => some d
  | _ => none

/-- The add command determines its destination. -/
theorem addCmdDest_build (d i : String) (f : Nat) (m : Option Nat) :
    addCmdDest (build_route_command "add" d (some i) f m) = some d := by
  by_cases h6 : f = 6 <;>
    by_cases hi : i = "" <;>
      simp [build_route_command, addCmdDest, h6, hi]

/-- Counting in a duplicate-free list: a member occurs exactly once. -/
theorem count_eq_one_of_nodup_mem {α : Type} [BEq α] [LawfulBEq α] (l : List α) (a : α)
    (hnd : l.Nodup) (ha : a ∈ l) : l.count a = 1 := by
  induction l with
  | nil => cases ha
  | cons b tl ih =>
    rw [List.nodup_cons] at hnd
    rcases List.mem_cons.1 ha with rfl | hm
    · rw [List.count_cons, if_pos (by simp), List.count_eq_zero_of_not_mem hnd.1]
    · rw [List.count_cons, if_neg, ih hnd.2 hm]
      simp only [beq_iff_eq]
      intro h
      subst h
      exact hnd.1 hm

/-- C7 (amended): for targets that are already valid CIDRs whose canonical
destinations are pairwise distinct, under an environment where captures are
empty and privileged commands succeed, `apply_routes` issues exactly one add
command per normalized destination (duplicated destinations would instead
get one add per occurrence, see the counterexample); `cleanup` issues delete
(and flush) commands for exactly the installed routes and empties the
bookkeeping, and a second `cleanup` of the same session performs no route
commands and leaves the state unchanged. -/
theorem c7_amended (env : RouteEnv) (sid iface : String)
    (targets : List String) (st : RMState)
    (hrun : ∀ cmd n, env.run cmd n = ⟨0, "", ""⟩)
    (hpriv : ∀ cmd n, env.priv cmd n = ⟨0, "", ""⟩)
    (hv : ∀ t ∈ targets, ∃ net, ip_network t = some net)
    (hne : targets ≠ []) (hiface : iface ≠ "")
    (hready : env.ifaceReady iface = true)
    (hnodup : (targets.map (fun t => (cidrDest t).1)).Nodup)
    (hsr : st.sessionRoutes = []) (hpr : st.pendingRestores = []) :
    ∃ st1, apply_routes env sid targets (some iface) st = .ok st1 ∧
      st1.privCmds = st.privCmds ++ targets.map (fun t =>
        build_route_command "add" (cidrDest t).1 (some iface) (cidrDest t).2 (some 0)) ∧
      (∀ t ∈ targets, (targets.map (fun u =>
        build_route_command "add" (cidrDest u).1 (some iface) (cidrDest u).2 (some 0))).count
          (build_route_command "add" (cidrDest t).1 (some iface) (cidrDest t).2 (some 0))
            = 1) ∧
      (cleanup env sid st1).privCmds = st1.privCmds ++ (targets.map (fun t =>
        [build_route_command "del" (cidrDest t).1 (some iface) (cidrDest t).2 none,
         flushCacheCmd (cidrDest t).2])).join ∧
      (cleanup env sid st1).sessionRoutes = [] ∧
      (cleanup env sid st1).pendingRestores = [] ∧
      cleanup env sid (cleanup env sid st1) = cleanup env sid st1 := by
  have happly := apply_routes_benign env hrun hpriv sid iface targets hv hne hiface hready st
  set routes := targets.map (fun t =>
    (⟨(cidrDest t).1, iface, (cidrDest t).2, false, none, []⟩ : AppliedRoute)) with hroutes
  set st1 : RMState := { st with
    sessionRoutes := setA sid routes st.sessionRoutes,
    ticks := st.ticks + 3 * targets.length,
    privCmds := st.privCmds ++ targets.map (fun t =>
      build_route_command "add" (cidrDest t).1 (some iface) (cidrDest t).2 (some 0)) }
    with hst1
  have hroutesne : routes ≠ [] := by
    rw [hroutes]
    intro h
    exact hne (List.map_eq_nil.1 h)
  have hsr1 : st1.sessionRoutes = [(sid, routes)] := by
    rw [hst1]
    simp only [hsr, setA]
  have hpr1 : st1.pendingRestores = [] := by
    rw [hst1]
    exact hpr
  have hall : ∀ r ∈ routes, r.removed = [] ∧ r.previous = none := by
    intro r hr
    rw [hroutes] at hr
    obtain ⟨t, _, rfl⟩ := List.mem_map.1 hr
    exact ⟨rfl, rfl⟩
  have hclean := cleanup_benign env hpriv sid routes hroutesne hall st1 hsr1 hpr1
  have hcount : ∀ t ∈ targets, (targets.map (fun u =>
      build_route_command "add" (cidrDest u).1 (some iface) (cidrDest u).2 (some 0))).count
        (build_route_command "add" (cidrDest t).1 (some iface) (cidrDest t).2 (some 0))
          = 1 := by
    have hnd1 : (targets.map (fun t => some (cidrDest t).1)).Nodup := by
      have := hnodup.map (Option.some_injective String)
      rw [List.map_map] at this
      exact this
    have hmapeq : targets.map (fun t => addCmdDest
        (build_route_command "add" (cidrDest t).1 (some iface) (cidrDest t).2 (some 0)))
        = targets.map (fun t => some (cidrDest t).1) := by
      apply List.map_congr_left
      intro t _
      exact addCmdDest_build _ iface _ _
    have hnd2 : (targets.map (fun u =>
        build_route_command "add" (cidrDest u).1 (some iface) (cidrDest u).2 (some 0))).Nodup := by
      apply List.Nodup.of_map addCmdDest
      rw [List.map_map]
      rw [show (addCmdDest ∘ fun u =>
        build_route_command "add" (cidrDest u).1 (some iface) (cidrDest u).2 (some 0))
        = fun t => addCmdDest
          (build_route_command "add" (cidrDest t).1 (some iface) (cidrDest t).2 (some 0))
          from rfl]
      rw [hmapeq]
      exact hnd1
    intro t ht
    have hmem : build_route_command "add" (cidrDest t).1 (some iface) (cidrDest t).2 (some 0)
        ∈ targets.map (fun u =>
          build_route_command "add" (cidrDest u).1 (some iface) (cidrDest u).2 (some 0)) :=
      List.mem_map_of_mem _ ht
    exact count_eq_one_of_nodup_mem _ _ hnd2 hmem
  refine ⟨st1, happly, rfl, hcount, ?_, ?_, ?_, ?_⟩
  · rw [hclean, hroutes]
    simp only [List.map_map]
    rfl
  · rw [hclean]
  · rw [hclean]
  · exact cleanup_noop env sid _ (by rw [hclean]) (by rw [hclean])

/-- Witness for C7 (amended): a benign environment, one valid CIDR target,
a fresh session and an empty initial state. -/
theorem c7_amended_witness :
    (∀ t ∈ ["10.0.0.0/24"], ∃ net, ip_network t = some net) ∧
    (["10.0.0.0/24"].map (fun t => (cidrDest t).1)).Nodup ∧
    (∃ st1, apply_routes ⟨fun _ _ => ⟨0, "", ""⟩, fun _ _ => ⟨0, "", ""⟩, fun _ => none,
        [], none, fun _ => true⟩ "s1" ["10.0.0.0/24"] (some "ppp0") ⟨[], [], 0, []⟩
          = .ok st1 ∧
      st1.privCmds = (⟨[], [], 0, []⟩ : RMState).privCmds ++ ["10.0.0.0/24"].map (fun t =>
        build_route_command "add" (cidrDest t).1 (some "ppp0") (cidrDest t).2 (some 0)) ∧
      (∀ t ∈ ["10.0.0.0/24"], (["10.0.0.0/24"].map (fun u =>
        build_route_command "add" (cidrDest u).1 (some "ppp0") (cidrDest u).2 (some 0))).count
          (build_route_command "add" (cidrDest t).1 (some "ppp0") (cidrDest t).2 (some 0))
            = 1) ∧
      (cleanup ⟨fun _ _ => ⟨0, "", ""⟩, fun _ _ => ⟨0, "", ""⟩, fun _ => none,
        [], none, fun _ => true⟩ "s1" st1).privCmds
          = st1.privCmds ++ (["10.0.0.0/24"].map (fun t =>
        [build_route_command "del" (cidrDest t).1 (some "ppp0") (cidrDest t).2 none,
         flushCacheCmd (cidrDest t).2])).join ∧
      (cleanup ⟨fun _ _ => ⟨0, "", ""⟩, fun _ _ => ⟨0, "", ""⟩, fun _ => none,
        [], none, fun _ => true⟩ "s1" st1).sessionRoutes = [] ∧
      (cleanup ⟨fun _ _ => ⟨0, "", ""⟩, fun _ _ => ⟨0, "", ""⟩, fun _ => none,
        [], none, fun _ => true⟩ "s1" st1).pendingRestores = [] ∧
      cleanup ⟨fun _ _ => ⟨0, "", ""⟩, fun _ _ => ⟨0, "", ""⟩, fun _ => none,
          [], none, fun _ => true⟩ "s1"
        (cleanup ⟨fun _ _ => ⟨0, "", ""⟩, fun _ _ => ⟨0, "", ""⟩, fun _ => none,
          [], none, fun _ => true⟩ "s1" st1)
        = cleanup ⟨fun _ _ => ⟨0, "", ""⟩, fun _ _ => ⟨0, "", ""⟩, fun _ => none,
          [], none, fun _ => true⟩ "s1" st1) :=
  ⟨by
      intro t ht
      simp only [List.mem_singleton] at ht
      subst ht
      exact ⟨⟨4, 167772160, 24, none⟩, by decide⟩,
    by simp,
    c7_amended _ "s1" "ppp0" ["10.0.0.0/24"] ⟨[], [], 0, []⟩
      (fun _ _ => rfl) (fun _ _ => rfl)
      (by
        intro t ht
        simp only [List.mem_singleton] at ht
        subst ht
        exact ⟨⟨4, 167772160, 24, none⟩, by decide⟩)
      (by simp) (by simp) rfl (by simp) rfl rfl⟩

/-- C2: a destination with a pre-existing route entry (destination, via,
dev, metric) captured by `apply_routes` before the override is installed is
reinstated by the session's `cleanup` with an `ip route replace` carrying
exactly the captured via, dev and metric. -/
theorem c2_cleanup_replaces_captured (env : RouteEnv) (st0 : RMState)
    (sid target iface edest viaV devD metricM : String) (net : IpNet) (stdoutS : String)
    (henv : env = ⟨fun _ _ => ⟨0, stdoutS, ""⟩, fun _ _ => ⟨0, "", ""⟩,
      fun _ => none, [], none, fun _ => true⟩)
    (hst0 : st0 = ⟨[], [], 0, []⟩)
    (hnet : ip_network target = some net)
    (hiface : iface ≠ "")
    (hdev : devD ≠ "")
    (hparse : parseRouteLines (pySplitlines (pyStrip stdoutS.toList)) =
      Except.ok [⟨edest, some viaV, some devD, some metricM⟩]) :
    ∃ st1, apply_routes env sid [target] (some iface) st0 = .ok st1 ∧
      (∃ route, st1.sessionRoutes = [(sid, [route])] ∧
        route.removed = [⟨edest, some viaV, some devD, some metricM⟩] ∧
        route.previous = some ⟨edest, some viaV, some devD, some metricM⟩) ∧
      (cleanup env sid st1).privCmds = st1.privCmds ++
        [build_route_command "del" (netToString net) (some iface) net.family none,
         flushCacheCmd net.family,
         ["ip"] ++ (if net.family = 6 then ["-6"] else []) ++
           ["route", "replace", edest, "via", viaV, "dev", devD, "metric", metricM],
         flushCacheCmd net.family] := by
  have hlne : pySplitlines (pyStrip stdoutS.toList) ≠ [] := by
    intro h
    rw [h] at hparse
    exact absurd hparse (by simp [parseRouteLines])
  have hE : (pySplitlines (pyStrip stdoutS.toList)).isEmpty = false := by
    cases hl : pySplitlines (pyStrip stdoutS.toList) with
    | nil => exact absurd hl hlne
    | cons a l => rfl
  subst henv
  subst hst0
  have hcap : ∀ (s : RMState) (d : String) (f : Nat),
      capture_existing_route ⟨fun _ _ => ⟨0, stdoutS, ""⟩, fun _ _ => ⟨0, "", ""⟩,
        fun _ => none, [], none, fun _ => true⟩ s d f =
        .ok ([⟨edest, some viaV, some devD, some metricM⟩],
          { s with ticks := s.ticks + 1 }) := by
    intro s d f
    have hparse' : parseRouteLines (pySplitlines (pyStrip stdoutS.data)) =
        Except.ok [⟨edest, some viaV, some devD, some metricM⟩] := hparse
    have hlne' : pySplitlines (pyStrip stdoutS.data) ≠ [] := hlne
    have hE' : (pySplitlines (pyStrip stdoutS.data)).isEmpty = false := hE
    simp [capture_existing_route, runShow, hE', hlne', hparse']
  have hnorm : normalize_destination (netToString net) net.family = netToString net :=
    normalize_netToString net net.family (ip_network_roundtrip target net hnet)
  have hres : resolve_targets (fun _ => none) target
      = some [(netToString net, net.family)] := by
    simp [resolve_targets, hnet]
  have hproc : processDest ⟨fun _ _ => ⟨0, stdoutS, ""⟩, fun _ _ => ⟨0, "", ""⟩,
      fun _ => none, [], none, fun _ => true⟩ sid iface (netToString net) net.family
      ⟨[], [], 0, []⟩ =
      .ok (some ⟨netToString net, iface, net.family, true,
          some ⟨edest, some viaV, some devD, some metricM⟩,
          [⟨edest, some viaV, some devD, some metricM⟩]⟩,
        ⟨[], [], 6,
          [build_route_command "del" (netToString net) none net.family none,
           build_route_command "del" (netToString net) (some devD) net.family none,
           flushCacheCmd net.family,
           build_route_command "add" (netToString net) (some iface) net.family (some 0)]⟩) := by
    simp [processDest, processDestIter, hcap, runPriv, processDuplicates, hdev,
      pyOrStr, pyStrip]
  have happly : apply_routes ⟨fun _ _ => ⟨0, stdoutS, ""⟩, fun _ _ => ⟨0, "", ""⟩,
      fun _ => none, [], none, fun _ => true⟩ sid [target] (some iface) ⟨[], [], 0, []⟩ =
      .ok ⟨[(sid, [⟨netToString net, iface, net.family, true,
          some ⟨edest, some viaV, some devD, some metricM⟩,
          [⟨edest, some viaV, some devD, some metricM⟩]⟩])], [], 6,
        [build_route_command "del" (netToString net) none net.family none,
         build_route_command "del" (netToString net) (some devD) net.family none,
         flushCacheCmd net.family,
         build_route_command "add" (netToString net) (some iface) net.family (some 0)]⟩ := by
    simp [apply_routes, hiface, applyEntriesGo, hres, applyTargetsGo, hnorm, hproc, setA]
  refine ⟨_, happly, ⟨_, rfl, rfl, rfl⟩, ?_⟩
  simp [cleanup, popA, cleanupRoute, runPriv, crossRestoreSessions, removedRestoreGo,
    restore_previous_route, pyOrStr, pyStrip]

/-- Witness for C2: a pre-existing entry `10.0.0.0/24 via 192.168.1.1 dev
eth0 metric 100` captured and later reinstated by replace. -/
theorem c2_cleanup_replaces_captured_witness :
    (ip_network "10.0.0.0/24" = some ⟨4, 167772160, 24, none⟩ ∧
      ("ppp0" : String) ≠ "" ∧ ("eth0" : String) ≠ "" ∧
      parseRouteLines (pySplitlines (pyStrip
        ("10.0.0.0/24 via 192.168.1.1 dev eth0 metric 100" : String).toList)) =
        Except.ok [⟨"10.0.0.0/24", some "192.168.1.1", some "eth0", some "100"⟩]) ∧
    (∃ st1, apply_routes ⟨fun _ _ => ⟨0, "10.0.0.0/24 via 192.168.1.1 dev eth0 metric 100",
        ""⟩, fun _ _ => ⟨0, "", ""⟩, fun _ => none, [], none, fun _ => true⟩
        "s1" ["10.0.0.0/24"] (some "ppp0") ⟨[], [], 0, []⟩ = .ok st1 ∧
      (∃ route, st1.sessionRoutes = [("s1", [route])] ∧
        route.removed = [⟨"10.0.0.0/24", some "192.168.1.1", some "eth0", some "100"⟩] ∧
        route.previous = some ⟨"10.0.0.0/24", some "192.168.1.1", some "eth0", some "100"⟩) ∧
      (cleanup ⟨fun _ _ => ⟨0, "10.0.0.0/24 via 192.168.1.1 dev eth0 metric 100", ""⟩,
          fun _ _ => ⟨0, "", ""⟩, fun _ => none, [], none, fun _ => true⟩ "s1" st1).privCmds
        = st1.privCmds ++
          [build_route_command "del" (netToString ⟨4, 167772160, 24, none⟩) (some "ppp0")
            (⟨4, 167772160, 24, none⟩ : IpNet).family none,
           flushCacheCmd (⟨4, 167772160, 24, none⟩ : IpNet).family,
           ["ip"] ++ (if (⟨4, 167772160, 24, none⟩ : IpNet).family = 6 then ["-6"] else []) ++
             ["route", "replace", "10.0.0.0/24", "via", "192.168.1.1", "dev", "eth0",
              "metric", "100"],
           flushCacheCmd (⟨4, 167772160, 24, none⟩ : IpNet).family]) :=
  ⟨⟨by decide, by decide, by decide, rfl⟩,
    c2_cleanup_replaces_captured _ _ "s1" "10.0.0.0/24" "ppp0" "10.0.0.0/24" "192.168.1.1"
      "eth0" "100" ⟨4, 167772160, 24, none⟩
      "10.0.0.0/24 via 192.168.1.1 dev eth0 metric 100" rfl rfl (by decide) (by decide)
      (by decide) rfl⟩

/-- C3: per-destination apply logic.  First scenario: with a pre-existing
entry, the capture-driven deletes and the flush all precede the add; when
the add fails outright, a replace of each removed entry is attempted and a
failed restore is queued in the session's pending restores.  Second
scenario: an add failing with an "exists" diagnostic on the first attempt
is retried exactly once. -/
theorem c3_capture_remove_retry_restore (env1 env2 : RouteEnv) (st0 : RMState)
    (sid target iface edest viaV devD metricM : String) (net : IpNet) (stdoutS : String)
    (henv1 : env1 = ⟨fun _ _ => ⟨0, stdoutS, ""⟩,
      fun _ t => if t < 4 then ⟨0, "", ""⟩ else ⟨2, "", "error"⟩,
      fun _ => none, [], none, fun _ => true⟩)
    (henv2 : env2 = ⟨fun _ _ => ⟨0, "", ""⟩,
      fun _ t => if t = 1 then ⟨2, "", "RTNETLINK answers: File exists"⟩ else ⟨0, "", ""⟩,
      fun _ => none, [], none, fun _ => true⟩)
    (hst0 : st0 = ⟨[], [], 0, []⟩)
    (hnet : ip_network target = some net) (hiface : iface ≠ "") (hdev : devD ≠ "")
    (hparse : parseRouteLines (pySplitlines (pyStrip stdoutS.toList)) =
      Except.ok [⟨edest, some viaV, some devD, some metricM⟩]) :
    (∃ st1, apply_routes env1 sid [target] (some iface) st0 = .ok st1 ∧
      st1.privCmds =
        [build_route_command "del" (netToString net) none net.family none,
         build_route_command "del" (netToString net) (some devD) net.family none,
         flushCacheCmd net.family,
         build_route_command "add" (netToString net) (some iface) net.family (some 0),
         ["ip"] ++ (if net.family = 6 then ["-6"] else []) ++
           ["route", "replace", edest, "via", viaV, "dev", devD, "metric", metricM]] ∧
      st1.sessionRoutes = [] ∧
      st1.pendingRestores =
        [(sid, [(net.family, ⟨edest, some viaV, some devD, some metricM⟩)])]) ∧
    (∃ st2, apply_routes env2 sid [target] (some iface) st0 = .ok st2 ∧
      st2.privCmds =
        [build_route_command "add" (netToString net) (some iface) net.family (some 0),
         build_route_command "add" (netToString net) (some iface) net.family (some 0)] ∧
      st2.sessionRoutes = [(sid, [⟨netToString net, iface, net.family, false, none, []⟩])]) := by
  have hlne : pySplitlines (pyStrip stdoutS.toList) ≠ [] := by
    intro h
    rw [h] at hparse
    exact absurd hparse (by simp [parseRouteLines])
  have hE : (pySplitlines (pyStrip stdoutS.toList)).isEmpty = false := by
    cases hl : pySplitlines (pyStrip stdoutS.toList) with
    | nil => exact absurd hl hlne
    | cons a l => rfl
  subst henv1
  subst henv2
  subst hst0
  have hnorm : normalize_destination (netToString net) net.family = netToString net :=
    normalize_netToString net net.family (ip_network_roundtrip target net hnet)
  have hres : resolve_targets (fun _ => none) target
      = some [(netToString net, net.family)] := by
    simp [resolve_targets, hnet]
  constructor
  · have hcap : ∀ (s : RMState) (d : String) (f : Nat),
        capture_existing_route ⟨fun _ _ => ⟨0, stdoutS, ""⟩,
          fun _ t => if t < 4 then ⟨0, "", ""⟩ else ⟨2, "", "error"⟩,
          fun _ => none, [], none, fun _ => true⟩ s d f =
          .ok ([⟨edest, some viaV, some devD, some metricM⟩],
            { s with ticks := s.ticks + 1 }) := by
      intro s d f
      have hparse' : parseRouteLines (pySplitlines (pyStrip stdoutS.data)) =
          Except.ok [⟨edest, some viaV, some devD, some metricM⟩] := hparse
      have hlne' : pySplitlines (pyStrip stdoutS.data) ≠ [] := hlne
      have hE' : (pySplitlines (pyStrip stdoutS.data)).isEmpty = false := hE
      simp [capture_existing_route, runShow, hE', hlne', hparse']
    have hmsgA : pyOrStr (pyStrip ['e', 'r', 'r', 'o', 'r']) (pyStrip ([] : List Char)) = ['e', 'r', 'r', 'o', 'r'] := by decide
    have hmsgAC : containsSubList [charLower 'e', charLower 'r', charLower 'r', charLower 'o', charLower 'r'] ['e', 'x', 'i', 's', 't', 's'] = false := by decide
    have hproc : processDest ⟨fun _ _ => ⟨0, stdoutS, ""⟩,
        fun _ t => if t < 4 then ⟨0, "", ""⟩ else ⟨2, "", "error"⟩,
        fun _ => none, [], none, fun _ => true⟩ sid iface (netToString net) net.family
        ⟨[], [], 0, []⟩ =
        .ok (none,
          ⟨[], [(sid, [(net.family, ⟨edest, some viaV, some devD, some metricM⟩)])], 6,
            [build_route_command "del" (netToString net) none net.family none,
             build_route_command "del" (netToString net) (some devD) net.family none,
             flushCacheCmd net.family,
             build_route_command "add" (netToString net) (some iface) net.family (some 0),
             ["ip"] ++ (if net.family = 6 then ["-6"] else []) ++
               ["route", "replace", edest, "via", viaV, "dev", devD, "metric", metricM]]⟩) := by
      simp [processDest, processDestIter, hcap, runPriv, processDuplicates, hdev,
        restore_removed_routes, restoreRemovedGo, restore_previous_route,
        appendA, hmsgA, hmsgAC]
    have happly : apply_routes ⟨fun _ _ => ⟨0, stdoutS, ""⟩,
        fun _ t => if t < 4 then ⟨0, "", ""⟩ else ⟨2, "", "error"⟩,
        fun _ => none, [], none, fun _ => true⟩ sid [target] (some iface) ⟨[], [], 0, []⟩ =
        .ok ⟨[], [(sid, [(net.family, ⟨edest, some viaV, some devD, some metricM⟩)])], 6,
          [build_route_command "del" (netToString net) none net.family none,
           build_route_command "del" (netToString net) (some devD) net.family none,
           flushCacheCmd net.family,
           build_route_command "add" (netToString net) (some iface) net.family (some 0),
           ["ip"] ++ (if net.family = 6 then ["-6"] else []) ++
             ["route", "replace", edest, "via", viaV, "dev", devD, "metric", metricM]]⟩ := by
      simp [apply_routes, hiface, applyEntriesGo, hres, applyTargetsGo, hnorm, hproc]
    exact ⟨_, happly, rfl, rfl, rfl⟩
  · have hcap2 : ∀ (s : RMState) (d : String) (f : Nat),
        capture_existing_route ⟨fun _ _ => ⟨0, "", ""⟩,
          fun _ t => if t = 1 then ⟨2, "", "RTNETLINK answers: File exists"⟩
            else ⟨0, "", ""⟩,
          fun _ => none, [], none, fun _ => true⟩ s d f =
          .ok ([], { s with ticks := s.ticks + 1 }) := by
      intro s d f
      simp [capture_existing_route, runShow, pyStrip, pySplitlines]
    have hmsgB : pyOrStr (pyStrip ['R', 'T', 'N', 'E', 'T', 'L', 'I', 'N', 'K', ' ', 'a', 'n', 's', 'w', 'e', 'r', 's', ':', ' ', 'F', 'i', 'l', 'e', ' ', 'e', 'x', 'i', 's', 't', 's']) (pyStrip ([] : List Char)) = ['R', 'T', 'N', 'E', 'T', 'L', 'I', 'N', 'K', ' ', 'a', 'n', 's', 'w', 'e', 'r', 's', ':', ' ', 'F', 'i', 'l', 'e', ' ', 'e', 'x', 'i', 's', 't', 's'] := by decide
    have hmsgBC : containsSubList [charLower 'R', charLower 'T', charLower 'N', charLower 'E', charLower 'T', charLower 'L', charLower 'I', charLower 'N', charLower 'K', charLower ' ', charLower 'a', charLower 'n', charLower 's', charLower 'w', charLower 'e', charLower 'r', charLower 's', charLower ':', charLower ' ', charLower 'F', charLower 'i', charLower 'l', charLower 'e', charLower ' ', charLower 'e', charLower 'x', charLower 'i', charLower 's', charLower 't', charLower 's'] ['e', 'x', 'i', 's', 't', 's'] = true := by decide
    have hproc : processDest ⟨fun _ _ => ⟨0, "", ""⟩,
        fun _ t => if t = 1 then ⟨2, "", "RTNETLINK answers: File exists"⟩
          else ⟨0, "", ""⟩,
        fun _ => none, [], none, fun _ => true⟩ sid iface (netToString net) net.family
        ⟨[], [], 0, []⟩ =
        .ok (some ⟨netToString net, iface, net.family, false, none, []⟩,
          ⟨[], [], 5,
            [build_route_command "add" (netToString net) (some iface) net.family (some 0),
             build_route_command "add" (netToString net) (some iface) net.family
               (some 0)]⟩) := by
      simp [processDest, processDestIter, hcap2, runPriv, hmsgB, hmsgBC]
    have happly : apply_routes ⟨fun _ _ => ⟨0, "", ""⟩,
        fun _ t => if t = 1 then ⟨2, "", "RTNETLINK answers: File exists"⟩
          else ⟨0, "", ""⟩,
        fun _ => none, [], none, fun _ => true⟩ sid [target] (some iface) ⟨[], [], 0, []⟩ =
        .ok ⟨[(sid, [⟨netToString net, iface, net.family, false, none, []⟩])], [], 5,
          [build_route_command "add" (netToString net) (some iface) net.family (some 0),
           build_route_command "add" (netToString net) (some iface) net.family (some 0)]⟩ := by
      simp [apply_routes, hiface, applyEntriesGo, hres, applyTargetsGo, hnorm, hproc, setA]
    exact ⟨_, happly, rfl, rfl⟩

/-- Witness for C3: the concrete pre-existing entry scenario and the
concrete exists-retry scenario. -/
theorem c3_capture_remove_retry_restore_witness :
    (ip_network "10.0.0.0/24" = some ⟨4, 167772160, 24, none⟩ ∧
      ("eth0" : String) ≠ "" ∧
      parseRouteLines (pySplitlines (pyStrip
        ("10.0.0.0/24 via 192.168.1.1 dev eth0 metric 100" : String).toList)) =
        Except.ok [⟨"10.0.0.0/24", some "192.168.1.1", some "eth0", some "100"⟩]) ∧
    ((∃ st1, apply_routes ⟨fun _ _ => ⟨0,
          "10.0.0.0/24 via 192.168.1.1 dev eth0 metric 100", ""⟩,
        fun _ t => if t < 4 then ⟨0, "", ""⟩ else ⟨2, "", "error"⟩,
        fun _ => none, [], none, fun _ => true⟩ "s1" ["10.0.0.0/24"] (some "ppp0")
          ⟨[], [], 0, []⟩ = .ok st1 ∧
      st1.privCmds =
        [build_route_command "del" (netToString ⟨4, 167772160, 24, none⟩) none
          (⟨4, 167772160, 24, none⟩ : IpNet).family none,
         build_route_command "del" (netToString ⟨4, 167772160, 24, none⟩) (some "eth0")
          (⟨4, 167772160, 24, none⟩ : IpNet).family none,
         flushCacheCmd (⟨4, 167772160, 24, none⟩ : IpNet).family,
         build_route_command "add" (netToString ⟨4, 167772160, 24, none⟩) (some "ppp0")
          (⟨4, 167772160, 24, none⟩ : IpNet).family (some 0),
         ["ip"] ++ (if (⟨4, 167772160, 24, none⟩ : IpNet).family = 6 then ["-6"] else []) ++
           ["route", "replace", "10.0.0.0/24", "via", "192.168.1.1", "dev", "eth0",
            "metric", "100"]] ∧
      st1.sessionRoutes = [] ∧
      st1.pendingRestores = [("s1", [((⟨4, 167772160, 24, none⟩ : IpNet).family,
        ⟨"10.0.0.0/24", some "192.168.1.1", some "eth0", some "100"⟩)])]) ∧
    (∃ st2, apply_routes ⟨fun _ _ => ⟨0, "", ""⟩,
        fun _ t => if t = 1 then ⟨2, "", "RTNETLINK answers: File exists"⟩ else ⟨0, "", ""⟩,
        fun _ => none, [], none, fun _ => true⟩ "s1" ["10.0.0.0/24"] (some "ppp0")
          ⟨[], [], 0, []⟩ = .ok st2 ∧
      st2.privCmds =
        [build_route_command "add" (netToString ⟨4, 167772160, 24, none⟩) (some "ppp0")
          (⟨4, 167772160, 24, none⟩ : IpNet).family (some 0),
         build_route_command "add" (netToString ⟨4, 167772160, 24, none⟩) (some "ppp0")
          (⟨4, 167772160, 24, none⟩ : IpNet).family (some 0)] ∧
      st2.sessionRoutes = [("s1", [⟨netToString ⟨4, 167772160, 24, none⟩, "ppp0",
        (⟨4, 167772160, 24, none⟩ : IpNet).family, false, none, []⟩])])) :=
  ⟨⟨by decide, by decide, rfl⟩,
    c3_capture_remove_retry_restore _ _ _ "s1" "10.0.0.0/24" "ppp0" "10.0.0.0/24"
      "192.168.1.1" "eth0" "100" ⟨4, 167772160, 24, none⟩
      "10.0.0.0/24 via 192.168.1.1 dev eth0 metric 100" rfl rfl rfl (by decide) (by decide)
      (by decide) rfl⟩

/-- C7 counterexample: the target list ["10.0.0.1/24", "10.0.0.0/24"]
consists of valid CIDRs, both of which normalize to the single canonical
destination 10.0.0.0/24, yet `apply_routes` issues two add commands for
that one normalized destination — refuting "exactly one route (one add
command) per normalized destination" for arbitrary valid-CIDR lists. -/
theorem c7_counterexample :
    ∃ st1, apply_routes ⟨fun _ _ => ⟨0, "", ""⟩, fun _ _ => ⟨0, "", ""⟩, fun _ => none,
        [], none, fun _ => true⟩ "s1" ["10.0.0.1/24", "10.0.0.0/24"] (some "ppp0")
          ⟨[], [], 0, []⟩ = .ok st1 ∧
      (∀ t ∈ ["10.0.0.1/24", "10.0.0.0/24"], ∃ net, ip_network t = some net) ∧
      normalize_destination "10.0.0.1/24" 4 = normalize_destination "10.0.0.0/24" 4 ∧
      st1.privCmds.count (build_route_command "add"
        (normalize_destination "10.0.0.0/24" 4) (some "ppp0") 4 (some 0)) = 2 := by
  have h1 : ip_network "10.0.0.1/24" = some ⟨4, 167772160, 24, none⟩ := by decide
  have h2 : ip_network "10.0.0.0/24" = some ⟨4, 167772160, 24, none⟩ := by decide
  have hv : ∀ t ∈ ["10.0.0.1/24", "10.0.0.0/24"], ∃ net, ip_network t = some net := by
    intro t ht
    simp only [List.mem_cons, List.not_mem_nil, or_false] at ht
    rcases ht with rfl | rfl
    · exact ⟨_, h1⟩
    · exact ⟨_, h2⟩
  have happ := apply_routes_benign ⟨fun _ _ => ⟨0, "", ""⟩, fun _ _ => ⟨0, "", ""⟩,
    fun _ => none, [], none, fun _ => true⟩ (fun _ _ => rfl) (fun _ _ => rfl) "s1" "ppp0"
    ["10.0.0.1/24", "10.0.0.0/24"] hv (by simp) (by simp) rfl ⟨[], [], 0, []⟩
  have hcd1 : cidrDest "10.0.0.1/24" = (netToString ⟨4, 167772160, 24, none⟩, 4) := by
    simp [cidrDest, h1]
  have hcd2 : cidrDest "10.0.0.0/24" = (netToString ⟨4, 167772160, 24, none⟩, 4) := by
    simp [cidrDest, h2]
  have hd1 : ("10.0.0.1/24" : String) ≠ "default" := by decide
  have hc1 : ("10.0.0.1/24" : String).toList.contains '/' = true := by decide
  have hd2 : ("10.0.0.0/24" : String) ≠ "default" := by decide
  have hc2 : ("10.0.0.0/24" : String).toList.contains '/' = true := by decide
  have hn1 : normalize_destination "10.0.0.1/24" 4
      = netToString ⟨4, 167772160, 24, none⟩ := by
    simp [normalize_destination, hd1, hc1, h1]
  have hn2 : normalize_destination "10.0.0.0/24" 4
      = netToString ⟨4, 167772160, 24, none⟩ := by
    simp [normalize_destination, hd2, hc2, h2]
  refine ⟨_, happ, hv, by rw [hn1, hn2], ?_⟩
  rw [hn2]
  simp only [List.map_cons, List.map_nil, hcd1, hcd2, List.nil_append]
  simp [List.count_cons]
